import Mathlib

/-!
# Time format validator

A verification development for `internal/provider/util/timevalidator.go`.

The validator delegates the real work to two functions of Go's standard
library, `time.Parse` and `Time.Format`, both called with the layout
`time.RFC3339` (`"2006-01-02T15:04:05Z07:00"`).  The first part of this file
embeds the code those two calls run (package `time`, Go 1.20 to 1.22:
`parseRFC3339`, the general `parse` loop unrolled over the chunks of the
RFC3339 layout, `Date`, `absDate`, `absClock`, `appendFormatRFC3339`).  The
second part embeds the validator itself.

Go strings are modelled as lists of characters.  Both parsers inspect every
byte they consume and reject any byte outside the ASCII digits and
separators, so a string holding a multi-byte character is rejected in Go
and in this model alike.
-/

namespace TimeValidator

/-! ## Package `time`: constants and calendar arithmetic -/

/-- Go `time.Time`, reduced to what layout RFC3339 observes: the Unix second
of the instant, the nanosecond within that second, and the offset (seconds
east of UTC) that the value's `Location` has at this instant.  `UTC` has
offset zero; a time parsed with a numeric zone carries either `Local` (when
the local zone has that very offset at the instant) or a `FixedZone`, and in
both cases the offset is the parsed one. -/
structure Time where
  sec : Int
  nsec : Int
  offset : Int
  deriving DecidableEq, Repr

def secondsPerMinute : Nat := 60

def secondsPerHour : Nat := 3600

def secondsPerDay : Nat := 86400

def daysPer400Years : Nat := 146097

def daysPer100Years : Nat := 36524

def daysPer4Years : Nat := 1461

/-- The year of the zero of "absolute" time (`absoluteZeroYear`). -/
def absoluteZeroYear : Int := -292277022399

/-- The constant `unixToInternal + internalToAbsolute`. -/
def unixToAbsolute : Int := 9223372028715321600

/-- Conversion of an integer to `uint64` (two's complement wrap-around). -/
def u64 (x : Int) : Nat := (x % 18446744073709551616).toNat

/-- Result of a `uint64` operation: reduction modulo `2^64`. -/
def wrap64 (n : Nat) : Nat := n % 18446744073709551616

/-- Conversion of an integer to `int64` (two's complement wrap-around). -/
def i64 (x : Int) : Int :=
  (x + 9223372036854775808) % 18446744073709551616 - 9223372036854775808

/-- Go `isLeap`; `%` of Go truncates, hence `Int.tmod`. -/
def isLeap (year : Int) : Bool :=
  year.tmod 4 == 0 && (year.tmod 100 != 0 || year.tmod 400 == 0)

/-- The table `daysBefore`: `daysBefore[m]` counts the days of a non-leap
year before month `m+1`. -/
def daysBefore : List Int :=
  [0, 31, 59, 90, 120, 151, 181, 212, 243, 273, 304, 334, 365]

/-- Indexing of `daysBefore` by a Go `int`. -/
def daysBeforeAt (i : Int) : Int := daysBefore.getD i.toNat 0

/-- Go `daysIn`. -/
def daysIn (m : Int) (year : Int) : Int :=
  if m = 2 ∧ isLeap year = true then 29
  else daysBeforeAt m - daysBeforeAt (m - 1)

/-- Go `norm`: returns `nhi, nlo` with `hi * base + lo == nhi * base + nlo`
and `0 <= nlo < base`. -/
def norm (hi lo base : Int) : Int × Int :=
  let p1 : Int × Int :=
    if lo < 0 then
      let n := (-lo - 1) / base + 1
      (hi - n, lo + n * base)
    else (hi, lo)
  if p1.2 ≥ base then
    let n := p1.2 / base
    (p1.1 + n, p1.2 - n * base)
  else p1

/-- Go `daysSinceEpoch`: days from the absolute epoch to the start of
`year`, in `uint64` arithmetic. -/
def daysSinceEpoch (year : Int) : Nat :=
  let y := u64 (year - absoluteZeroYear)
  -- Add in days from 400-year cycles.
  let n := y / 400
  let y := y - 400 * n
  let d := wrap64 (daysPer400Years * n)
  -- Add in 100-year cycles.
  let n := y / 100
  let y := y - 100 * n
  let d := wrap64 (d + daysPer100Years * n)
  -- Add in 4-year cycles.
  let n := y / 4
  let y := y - 4 * n
  let d := wrap64 (d + daysPer4Years * n)
  -- Add in non-leap years.
  wrap64 (d + 365 * y)

/-- Go `Date(year, month, day, hour, min, sec, nsec, UTC)`.  Every call in the
two parsers passes the location `UTC`, whose offset lookup is zero, so the
adjustment of `unix` by the zone offset is the identity. -/
def Date (year month day hour min sec nsec : Int) : Time :=
  -- Normalize month, overflowing into year.
  let ym := norm year (month - 1) 12
  let year := ym.1
  let month := ym.2 + 1
  -- Normalize nsec, sec, min, hour, overflowing into day.
  let sn := norm sec nsec 1000000000
  let ms := norm min sn.1 60
  let hm := norm hour ms.1 60
  let dh := norm day hm.1 24
  let nsec := sn.2
  let sec := ms.2
  let min := hm.2
  let hour := dh.2
  let day := dh.1
  -- Compute days since the absolute epoch.
  let d := daysSinceEpoch year
  -- Add in days before this month.
  let d := wrap64 (d + u64 (daysBeforeAt (month - 1)))
  let d := if isLeap year = true ∧ month ≥ 3 then wrap64 (d + 1) else d
  -- Add in days before today.
  let d := wrap64 (d + u64 (day - 1))
  -- Add in time elapsed today.
  let abs := wrap64 (d * secondsPerDay)
  let abs := wrap64 (abs + u64 (hour * 3600 + min * 60 + sec))
  let unix := i64 (i64 (abs : Int) - unixToAbsolute)
  { sec := unix, nsec := nsec, offset := 0 }

/-- The month estimate of Go `absDate`, from a day of the year out of which
a leap day, if any, has been taken. -/
def absDateEstimate (day : Int) : Int × Int :=
  -- Estimate month on assumption that every month has 31 days.
  -- The estimate may be too low by at most one month, so adjust.
  let month := day / 31
  let ending := daysBeforeAt (month + 1)
  let mb : Int × Int :=
    if day ≥ ending then (month + 1, ending) else (month, daysBeforeAt month)
  -- because January is 1
  (mb.1 + 1, day - mb.2 + 1)

/-- The second half of Go `absDate` (`full == true`): month and day of the
month from the leap flag of the year and the zero-based day of the year. -/
def absDateMonthDay (leap : Bool) (yday : Int) : Int × Int :=
  if leap = true then
    if yday > 31 + 29 - 1 then
      -- After leap day; pretend it wasn't there.
      absDateEstimate (yday - 1)
    else if yday = 31 + 29 - 1 then
      -- Leap day.
      (2, 29)
    else absDateEstimate yday
  else absDateEstimate yday

/-- The first half of Go `absDate`: year and zero-based day of the year of
an absolute time. -/
def absDateYear (abs : Nat) : Int × Int :=
  -- Split into time and day.
  let d := abs / secondsPerDay
  -- Account for 400 year cycles.
  let n := d / daysPer400Years
  let y := 400 * n
  let d := d - daysPer400Years * n
  -- Cut off 100-year cycles; the last cycle has one extra leap year, so
  -- on the last day of that year, day / daysPer100Years will be 4 instead
  -- of 3.  Cut it off at 3.
  let n := d / daysPer100Years
  let n := n - n / 4
  let y := y + 100 * n
  let d := d - daysPer100Years * n
  -- Cut off 4-year cycles.
  let n := d / daysPer4Years
  let y := y + 4 * n
  let d := d - daysPer4Years * n
  -- Cut off years within a 4-year cycle; cut n off at 3.
  let n := d / 365
  let n := n - n / 4
  let y := y + n
  let d := d - 365 * n
  (i64 (y : Int) + absoluteZeroYear, (d : Int))

/-- Go `absDate(abs, true)`: year, month, day of the month. -/
def absDate (abs : Nat) : Int × Int × Int :=
  let yd := absDateYear abs
  let md := absDateMonthDay (isLeap yd.1) yd.2
  (yd.1, md.1, md.2)

/-- Go `absClock`: hour, minute and second within the day. -/
def absClock (abs : Nat) : Int × Int × Int :=
  let sec := abs % secondsPerDay
  let hour := sec / secondsPerHour
  let sec := sec - hour * secondsPerHour
  let min := sec / secondsPerMinute
  let sec := sec - min * secondsPerMinute
  ((hour : Int), (min : Int), (sec : Int))

/-- Go `Time.UTC`: the same instant with the location set to UTC. -/
def Time.UTC (t : Time) : Time := { t with offset := 0 }

/-- Go `Time.locabs`, the absolute time of the wall clock shown in the
value's location: `uint64(sec + offset + (unixToInternal + internalToAbsolute))`. -/
def Time.abs (t : Time) : Nat := u64 (i64 (t.sec + t.offset) + unixToAbsolute)

/-! ## Package `time`: formatting with layout RFC3339 -/

/-- The digit character of a value below ten (`'0' + byte(u)`). -/
def utod (u : Nat) : Char := Char.ofNat (48 + u)

/-- Go `appendInt`: the decimal form of `x`, zero-padded to `width`. -/
def appendInt (b : List Char) (x : Int) (width : Nat) : List Char :=
  let u := x.natAbs
  let b := if x < 0 then b ++ ['-'] else b
  -- 2-digit and 4-digit fields are the most common in time formats.
  if width = 2 ∧ u < 100 then
    b ++ [utod (u / 10), utod (u % 10)]
  else if width = 4 ∧ u < 10000 then
    b ++ [utod (u / 1000), utod (u / 100 % 10), utod (u / 10 % 10), utod (u % 10)]
  else
    let ds := Nat.toDigits 10 u
    b ++ List.replicate (width - ds.length) '0' ++ ds

/-- Go `Time.appendFormatRFC3339(b, false)`, the body of
`t.Format(time.RFC3339)`.  The layout has no fractional-second field, so the
nanoseconds are not printed. -/
def appendFormatRFC3339 (t : Time) (b : List Char) : List Char :=
  let offset := t.offset
  let abs := t.abs
  -- Format date.
  let ymd := absDate abs
  let b := appendInt b ymd.1 4
  let b := b ++ ['-']
  let b := appendInt b ymd.2.1 2
  let b := b ++ ['-']
  let b := appendInt b ymd.2.2 2
  let b := b ++ ['T']
  -- Format time.
  let hms := absClock abs
  let b := appendInt b hms.1 2
  let b := b ++ [':']
  let b := appendInt b hms.2.1 2
  let b := b ++ [':']
  let b := appendInt b hms.2.2 2
  if offset = 0 then b ++ ['Z']
  else
    -- Format zone.
    let zone := offset.tdiv 60
    let b := if zone < 0 then b ++ ['-'] else b ++ ['+']
    let zone := if zone < 0 then -zone else zone
    let b := appendInt b (zone.tdiv 60) 2
    let b := b ++ [':']
    appendInt b (zone.tmod 60) 2

/-- Go `t.Format(time.RFC3339)`. -/
def Time.Format (t : Time) : String := String.mk (appendFormatRFC3339 t [])

/-! ## Package `time`: parsing with layout RFC3339 -/

/-- The test `'0' <= c && c <= '9'` on one byte. -/
def isDigitByte (c : Char) : Bool := decide ('0' ≤ c) && decide (c ≤ '9')

/-- The value `int(c - '0')` of a digit byte. -/
def digitVal (c : Char) : Int := ((c.toNat - 48 : Nat) : Int)

/-- Go `isDigit(s, i)`: whether `s[i]` is in range and a decimal digit. -/
def isDigit (s : List Char) (i : Nat) : Bool :=
  match s.get? i with
  | none => false
  | some c => isDigitByte c

/-- Go `commaOrPeriod`. -/
def commaOrPeriod (c : Char) : Bool := c == '.' || c == ','

/-- The byte `s[i]` of a string known to be long enough. -/
def byteAt (s : List Char) (i : Nat) : Char := s.getD i (Char.ofNat 0)

/-- The substring `s[i:j]`. -/
def slice (s : List Char) (i j : Nat) : List Char := (s.drop i).take (j - i)

/-- Go `leadingInt`: the value of the leading decimal digits and the rest
of the string.  Its overflow error needs nineteen digits; every call here
passes at most nine. -/
def leadingInt : List Char → Nat → Nat × List Char
  | [], x => (x, [])
  | c :: cs, x =>
    if isDigitByte c = true then leadingInt cs (x * 10 + (c.toNat - 48))
    else (x, c :: cs)

/-- Go `atoi` of package `time`: an optional sign, then digits and nothing
else; `none` stands for `errAtoi`. -/
def atoi (s : List Char) : Option Int :=
  let neg : Bool := match s with
    | c :: _ => c == '-'
    | [] => false
  let s := match s with
    | c :: r => if c == '-' || c == '+' then r else s
    | [] => s
  let qr := leadingInt s 0
  if qr.2 ≠ [] then none
  else some (if neg = true then -(qr.1 : Int) else (qr.1 : Int))

/-- Go `getnum`: a one- or two-digit number; with `fixed` it must have two
digits.  `none` stands for `errBad`. -/
def getnum (s : List Char) (fixed : Bool) : Option (Int × List Char) :=
  if isDigit s 0 = false then none
  else if isDigit s 1 = false then
    if fixed = true then none
    else some (digitVal (byteAt s 0), s.drop 1)
  else some (digitVal (byteAt s 0) * 10 + digitVal (byteAt s 1), s.drop 2)

/-- Go `skip(value, pfx)` for a literal without spaces, which is what the
literals of the RFC3339 layout (`-`, `T`, `:`) are: `value` must start with
the literal. -/
def skip : List Char → List Char → Option (List Char)
  | value, [] => some value
  | [], _ :: _ => none
  | v :: value, p :: pfx => if v ≠ p then none else skip value pfx

/-- The loop `for ; n < len(s) && isDigit(s, n); n++` started at index `n`
of a string whose bytes from `n` on are `rest`. -/
def scanDigits : List Char → Nat → Nat
  | [], n => n
  | c :: rest, n => if isDigitByte c = true then scanDigits rest (n + 1) else n

/-- Go `parseNanoseconds(value, nbytes)`: the nanoseconds written as the
`nbytes - 1` digits after the separator `value[0]`, at most nine of which
count.  The flag is false where Go returns an error or a range error. -/
def parseNanoseconds (value : List Char) (nbytes : Nat) : Int × Bool :=
  if commaOrPeriod (byteAt value 0) = false then (0, false)
  else
    let value := if nbytes > 10 then value.take 10 else value
    let nbytes := if nbytes > 10 then 10 else nbytes
    match atoi (slice value 1 nbytes) with
    | none => (0, false)
    | some ns =>
      if ns < 0 then (ns, false)
      else
        -- We need nanoseconds, which means scaling by the number
        -- of missing digits in the format, maximum length 10.
        (ns * 10 ^ (10 - nbytes), true)

/-- The loop of the closure `parseUint` of Go `parseRFC3339` over the bytes
of `s`, with `x` the value read so far; `none` where the loop meets a byte
that is not a digit. -/
def parseUintLoop : List Char → Int → Option Int
  | [], x => some x
  | c :: cs, x =>
    if c < '0' ∨ '9' < c then none
    else parseUintLoop cs (x * 10 + (c.toNat : Int) - 48)

/-- The closure `parseUint` of Go `parseRFC3339`: parses `s` as an unsigned
decimal and checks the range; on failure it yields `min` and the flag false
(Go clears the shared `ok`). -/
def parseUint (s : List Char) (min max : Int) : Int × Bool :=
  match parseUintLoop s 0 with
  | none => (min, false)
  | some x => if x < min ∨ max < x then (min, false) else (x, true)

/-- The time-zone part of Go `parseRFC3339`, entered when what is left
after the seconds and the fraction is not `"Z"`. -/
def parseRFC3339Zone (t : Time) (s : List Char) : Option Time :=
  -- e.g., "-07:00"
  if s.length ≠ 6 then none
  else
    let hr := parseUint (slice s 1 3) 0 23
    let mm := parseUint (slice s 4 6) 0 59
    if (hr.2 && mm.2) = false ∨
        ¬ ((byteAt s 0 = '-' ∨ byteAt s 0 = '+') ∧ byteAt s 3 = ':') then none
    else
      let zoneOffset := (hr.1 * 60 + mm.1) * 60
      let zoneOffset := if byteAt s 0 = '-' then zoneOffset * -1 else zoneOffset
      some { sec := t.sec - zoneOffset, nsec := t.nsec, offset := zoneOffset }

/-- The second half of Go `parseRFC3339`: the fractional second and the time
zone, read from what follows the nineteen bytes of date and time. -/
def parseRFC3339Rest (year month day hour min sec : Int) (s : List Char) : Option Time :=
  -- Parse the fractional second.
  let hasFrac : Bool := decide (s.length ≥ 2) && (byteAt s 0 == '.') && isDigit s 1
  let n := if hasFrac = true then scanDigits (s.drop 2) 2 else 0
  let nsec := if hasFrac = true then (parseNanoseconds s n).1 else 0
  let s := if hasFrac = true then s.drop n else s
  -- Parse the time zone.
  let t := Date year month day hour min sec nsec
  if s.length ≠ 1 ∨ byteAt s 0 ≠ 'Z' then parseRFC3339Zone t s
  else some t

/-- Go `parseRFC3339`, the strict fast path that `time.Parse` tries first
for the layout RFC3339; `none` stands for `ok == false`. -/
def parseRFC3339 (s : List Char) : Option Time :=
  -- Parse the date and time.
  if s.length < 19 then none
  else
    let year := parseUint (slice s 0 4) 0 9999
    let month := parseUint (slice s 5 7) 1 12
    let day := parseUint (slice s 8 10) 1 (daysIn month.1 year.1)
    let hour := parseUint (slice s 11 13) 0 23
    let min := parseUint (slice s 14 16) 0 59
    let sec := parseUint (slice s 17 19) 0 59
    if (year.2 && month.2 && day.2 && hour.2 && min.2 && sec.2) = false ∨
        ¬ (byteAt s 4 = '-' ∧ byteAt s 7 = '-' ∧ byteAt s 10 = 'T' ∧
           byteAt s 13 = ':' ∧ byteAt s 16 = ':') then none
    else parseRFC3339Rest year.1 month.1 day.1 hour.1 min.1 sec.1 (s.drop 19)

/-- The numeric time-zone case of the general parser for the chunk
`stdISO8601ColonTZ` (`Z07:00`): sign, two-digit hour, colon, two-digit
minute.  Yields the offset in seconds and the rest of the value. -/
def parseNumColonTZ (value : List Char) : Option (Int × List Char) :=
  if value.length < 6 then none
  else if byteAt value 3 ≠ ':' then none
  else
    match getnum (slice value 1 3) true with
    | none => none
    | some (hr, _) =>
      match getnum (slice value 4 6) true with
      | none => none
      | some (mm, _) =>
        match getnum ['0', '0'] true with
        | none => none
        | some (ss, _) =>
          -- The range test use > rather than >=, as some people do write
          -- offsets of 24 hours or 60 minutes or 60 seconds.
          if hr > 24 ∨ mm > 60 ∨ ss > 60 then none
          else
            let zoneOffset := (hr * 60 + mm) * 60 + ss
            if byteAt value 0 = '+' then some (zoneOffset, value.drop 6)
            else if byteAt value 0 = '-' then some (-zoneOffset, value.drop 6)
            else none

/-- The case `stdISO8601ColonTZ` of the general parser: a `Z` sets the
location to UTC (`none` here), otherwise the case falls through to the
numeric time zone. -/
def parseISO8601ColonTZ (value : List Char) : Option (Option Int × List Char) :=
  match value with
  | 'Z' :: rest => some (none, rest)
  | _ => (parseNumColonTZ value).map (fun (p : Int × List Char) => (some p.1, p.2))

/-- The fractional second that the general parser accepts after the seconds
although the layout has none: a comma or period followed by digits.  Yields
the nanoseconds and the rest of the value. -/
def parseSecondFraction (value : List Char) : Option (Int × List Char) :=
  if (decide (value.length ≥ 2) && commaOrPeriod (byteAt value 0) && isDigit value 1) = true then
    let n := scanDigits (value.drop 2) 2
    let r := parseNanoseconds value n
    if r.2 = false then none else some (r.1, value.drop n)
  else some (0, value)

/-- Go `parse(time.RFC3339, value, UTC, Local)`, the general layout-driven
parser, with its loop unrolled over the chunks of the layout
`2006-01-02T15:04:05Z07:00`: `2006`, `-` `01`, `-` `02`, `T` `15`, `:` `04`,
`:` `05`, `Z07:00`, end.  `none` stands for a returned `ParseError`. -/
def parse (value : List Char) : Option Time :=
  -- stdLongYear
  if value.length < 4 ∨ isDigit value 0 = false then none
  else
  match atoi (slice value 0 4) with
  | none => none
  | some year =>
  -- "-", stdZeroMonth
  match skip (value.drop 4) ['-'] with
  | none => none
  | some value =>
  match getnum value true with
  | none => none
  | some (month, value) =>
  if month ≤ 0 ∨ 12 < month then none
  else
  -- "-", stdZeroDay
  match skip value ['-'] with
  | none => none
  | some value =>
  match getnum value true with
  | none => none
  | some (day, value) =>
  -- "T", stdHour
  match skip value ['T'] with
  | none => none
  | some value =>
  match getnum value false with
  | none => none
  | some (hour, value) =>
  if hour < 0 ∨ 24 ≤ hour then none
  else
  -- ":", stdZeroMinute
  match skip value [':'] with
  | none => none
  | some value =>
  match getnum value true with
  | none => none
  | some (min, value) =>
  if min < 0 ∨ 60 ≤ min then none
  else
  -- ":", stdZeroSecond
  match skip value [':'] with
  | none => none
  | some value =>
  match getnum value true with
  | none => none
  | some (sec, value) =>
  if sec < 0 ∨ 60 ≤ sec then none
  else
  match parseSecondFraction value with
  | none => none
  | some (nsec, value) =>
  -- stdISO8601ColonTZ
  match parseISO8601ColonTZ value with
  | none => none
  | some (zone, value) =>
  -- end of layout: no extra text
  if value.length ≠ 0 then none
  -- Validate the day of the month.
  else if day < 1 ∨ day > daysIn month year then none
  else
    match zone with
    | none => some (Date year month day hour min sec nsec)
    | some zoneOffset =>
      if zoneOffset ≠ -1 then
        let t := Date year month day hour min sec nsec
        some { sec := t.sec - zoneOffset, nsec := t.nsec, offset := zoneOffset }
      else some (Date year month day hour min sec nsec)

/-- Go `time.Parse(time.RFC3339, value)`: the fast path, and the general
parser when the fast path declines. -/
def Parse (value : String) : Option Time :=
  match parseRFC3339 value.toList with
  | some t => some t
  | none => parse value.toList

/-! ## The validator (`timevalidator.go`) -/

/-- A `path.Path` of the plugin framework: the attribute under validation.
The validator only hands it on to the diagnostic. -/
structure AttributePath where
  steps : List String
  deriving DecidableEq, Repr

/-- The three states of a framework value. -/
inductive ValueState where
  | null
  | unknown
  | known
  deriving DecidableEq, Repr

/-- A `types.String` of the plugin framework: a state and the string held. -/
structure StringValue where
  state : ValueState
  value : String
  deriving DecidableEq, Repr

def StringValue.IsNull (s : StringValue) : Bool := s.state == ValueState.null

def StringValue.IsUnknown (s : StringValue) : Bool := s.state == ValueState.unknown

def StringValue.ValueString (s : StringValue) : String := s.value

/-- The fields of `validator.StringRequest` that the validator reads. -/
structure StringRequest where
  Path : AttributePath
  ConfigValue : StringValue
  deriving DecidableEq, Repr

/-- The diagnostic built by `validatordiag.InvalidAttributeValueMatchDiagnostic`
(a function of the framework's validator helpers), recorded as the three
arguments the validator passes to it: path, description and value. -/
structure Diagnostic where
  path : AttributePath
  description : String
  value : String
  deriving DecidableEq, Repr

/-- A `validator.StringResponse`: the diagnostics collected so far. -/
structure StringResponse where
  Diagnostics : List Diagnostic
  deriving DecidableEq, Repr

/-- The struct `timeValidator`. -/
structure timeValidator where
  message : String
  deriving DecidableEq, Repr

/-- The method `Description`. -/
def timeValidator.Description (v : timeValidator) : String :=
  if v.message ≠ "" then v.message
  else "value must be an RFC3339 time string"

/-- The method `MarkdownDescription`. -/
def timeValidator.MarkdownDescription (v : timeValidator) : String :=
  v.Description

/-- The verb `%q` of `fmt` on a string of printable ASCII holding neither a
double quote nor a backslash: the string between double quotes. -/
def quote (s : String) : String := "\"" ++ s ++ "\""

/-- The text of `fmt.Errorf("should be an RFC3339 string in UTC, e.g., %q",
"2222-01-01T00:00:00Z")`. -/
def errorfUTC : String :=
  "should be an RFC3339 string in UTC, e.g., " ++ quote "2222-01-01T00:00:00Z"

/-- The function `parseTime`; the error is carried as its text. -/
def parseTime (timeString : String) : Except String Time :=
  match Parse timeString with
  | none => Except.error errorfUTC
  | some t =>
    if t.UTC.Format ≠ t.Format then Except.error errorfUTC
    else Except.ok t.UTC

/-- The body of the method `ValidateString`, with the function it calls to
parse as a parameter.  The pointer receiver and the response pointer become
a returned pair. -/
def ValidateStringWith (parseFn : String → Except String Time) (v : timeValidator)
    (request : StringRequest) (response : StringResponse) :
    timeValidator × StringResponse :=
  if (request.ConfigValue.IsNull || request.ConfigValue.IsUnknown) = true then
    (v, response)
  else
    let value := request.ConfigValue.ValueString
    match parseFn value with
    | Except.error err =>
      let v : timeValidator := { message := err }
      (v, { Diagnostics := response.Diagnostics ++
              [{ path := request.Path, description := v.Description, value := value }] })
    | Except.ok _ => (v, response)

/-- The method `ValidateString`: it parses with `parseTime`. -/
def timeValidator.ValidateString (v : timeValidator) (request : StringRequest)
    (response : StringResponse) : timeValidator × StringResponse :=
  ValidateStringWith parseTime v request response

/-- The constructor `NewTimeValidator`. -/
def NewTimeValidator : timeValidator := { message := "" }

/-! ## The code with its index and slice expressions checked

Go panics when an index or slice expression is out of range.  The
definitions above read a byte with a default and would hide such a panic, so
the functions that evaluate an index or slice expression are given a second
time with each such expression checked: the result `none` stands for the
panic.  Loops over the bytes of a string are recursions over the list and
have no expression to check. -/

/-- A Go index expression `s[i]` on a string; `none` is the run-time panic
"index out of range". -/
def indexGo (s : List Char) (i : Nat) : Option Char := s.get? i

/-- A Go slice expression `s[i:j]`; `none` is the run-time panic "slice
bounds out of range". -/
def sliceGo (s : List Char) (i j : Nat) : Option (List Char) :=
  if i ≤ j ∧ j ≤ s.length then some ((s.drop i).take (j - i)) else none

/-- A Go slice expression `s[i:]`; `none` is the run-time panic. -/
def sliceFromGo (s : List Char) (i : Nat) : Option (List Char) :=
  if i ≤ s.length then some (s.drop i) else none

/-- The index expression `daysBefore[i]` on the table of thirteen entries;
`none` is the run-time panic. -/
def daysBeforeGo (i : Int) : Option Int :=
  if 0 ≤ i ∧ i < 13 then some (daysBeforeAt i) else none

/-- Go `daysIn` with its two index expressions checked; `none` is a panic. -/
def daysInChecked (m : Int) (year : Int) : Option Int :=
  if m = 2 ∧ isLeap year = true then some 29
  else do
    let a ← daysBeforeGo m
    let b ← daysBeforeGo (m - 1)
    pure (a - b)

/-- Go `Date` with its index expression `daysBefore[month-1]`, taken after
the month has been normalized, checked; `none` is a panic. -/
def DateChecked (year month day hour min sec nsec : Int) : Option Time := do
  let _ ← daysBeforeGo ((norm year (month - 1) 12).2 + 1 - 1)
  pure (Date year month day hour min sec nsec)

/-- The month estimate of Go `absDate` with its index expressions checked. -/
def absDateEstimateChecked (day : Int) : Option (Int × Int) := do
  let month := day / 31
  let ending ← daysBeforeGo (month + 1)
  if day ≥ ending then pure (month + 1 + 1, day - ending + 1)
  else do
    let start ← daysBeforeGo month
    pure (month + 1, day - start + 1)

/-- The second half of Go `absDate` with its index expressions checked. -/
def absDateMonthDayChecked (leap : Bool) (yday : Int) : Option (Int × Int) :=
  if leap = true then
    if yday > 31 + 29 - 1 then absDateEstimateChecked (yday - 1)
    else if yday = 31 + 29 - 1 then pure (2, 29)
    else absDateEstimateChecked yday
  else absDateEstimateChecked yday

/-- Go `absDate(abs, true)` with its index expressions checked. -/
def absDateChecked (abs : Nat) : Option (Int × Int × Int) := do
  let yd := absDateYear abs
  let md ← absDateMonthDayChecked (isLeap yd.1) yd.2
  pure (yd.1, md.1, md.2)

/-- Go `t.Format(time.RFC3339)` with the index expressions of `absDate`
checked; `none` is a panic. -/
def Time.FormatChecked (t : Time) : Option String := do
  let _ ← absDateChecked t.abs
  pure t.Format

/-- Go `getnum` with its index and slice expressions checked: `none` is a
panic, `some none` is `errBad`. -/
def getnumChecked (s : List Char) (fixed : Bool) : Option (Option (Int × List Char)) :=
  if isDigit s 0 = false then pure none
  else if isDigit s 1 = false then
    if fixed = true then pure none
    else do
      let c0 ← indexGo s 0
      let r ← sliceFromGo s 1
      pure (some (digitVal c0, r))
  else do
    let c0 ← indexGo s 0
    let c1 ← indexGo s 1
    let r ← sliceFromGo s 2
    pure (some (digitVal c0 * 10 + digitVal c1, r))

/-- Go `parseNanoseconds` with its index and slice expressions checked. -/
def parseNanosecondsChecked (value : List Char) (nbytes : Nat) : Option (Int × Bool) := do
  let c0 ← indexGo value 0
  if commaOrPeriod c0 = false then pure (0, false)
  else do
    let value ← if nbytes > 10 then sliceGo value 0 10 else pure value
    let nbytes := if nbytes > 10 then 10 else nbytes
    let p ← sliceGo value 1 nbytes
    match atoi p with
    | none => pure (0, false)
    | some ns =>
      if ns < 0 then pure (ns, false)
      else pure (ns * 10 ^ (10 - nbytes), true)

/-- The time-zone part of Go `parseRFC3339` with its index and slice
expressions checked: `none` is a panic, `some none` is `ok == false`. -/
def parseRFC3339ZoneChecked (t : Time) (s : List Char) : Option (Option Time) :=
  if s.length ≠ 6 then pure none
  else do
    let hr := parseUint (← sliceGo s 1 3) 0 23
    let mm := parseUint (← sliceGo s 4 6) 0 59
    if (hr.2 && mm.2) = false then pure none
    else do
      let c0 ← indexGo s 0
      let c3 ← indexGo s 3
      if ¬ ((c0 = '-' ∨ c0 = '+') ∧ c3 = ':') then pure none
      else do
        let zoneOffset := (hr.1 * 60 + mm.1) * 60
        let sg ← indexGo s 0
        let zoneOffset := if sg = '-' then zoneOffset * -1 else zoneOffset
        pure (some { sec := t.sec - zoneOffset, nsec := t.nsec, offset := zoneOffset })

/-- The second half of Go `parseRFC3339` with its index and slice
expressions, and those of the functions it calls, checked. -/
def parseRFC3339RestChecked (year month day hour min sec : Int) (s : List Char) :
    Option (Option Time) := do
  -- `len(s) >= 2 && s[0] == '.' && isDigit(s, 1)`
  let hasFrac : Bool ←
    if s.length ≥ 2 then do
      let c0 ← indexGo s 0
      pure ((c0 == '.') && isDigit s 1)
    else pure false
  let n := if hasFrac = true then scanDigits (s.drop 2) 2 else 0
  let nsec ← if hasFrac = true then (parseNanosecondsChecked s n).map (fun r => r.1) else pure 0
  let s ← if hasFrac = true then sliceFromGo s n else pure s
  let t ← DateChecked year month day hour min sec nsec
  -- `len(s) != 1 || s[0] != 'Z'`
  let notZ : Bool ←
    if s.length ≠ 1 then pure true
    else do
      let c0 ← indexGo s 0
      pure (c0 != 'Z')
  if notZ = true then parseRFC3339ZoneChecked t s
  else pure (some t)

/-- Go `parseRFC3339` with its index and slice expressions, and those of the
functions it calls, checked: `none` is a panic, `some none` is `ok == false`. -/
def parseRFC3339Checked (s : List Char) : Option (Option Time) :=
  if s.length < 19 then pure none
  else do
    let year := parseUint (← sliceGo s 0 4) 0 9999
    let month := parseUint (← sliceGo s 5 7) 1 12
    let day := parseUint (← sliceGo s 8 10) 1 (← daysInChecked month.1 year.1)
    let hour := parseUint (← sliceGo s 11 13) 0 23
    let min := parseUint (← sliceGo s 14 16) 0 59
    let sec := parseUint (← sliceGo s 17 19) 0 59
    if (year.2 && month.2 && day.2 && hour.2 && min.2 && sec.2) = false then pure none
    else do
      let c4 ← indexGo s 4
      let c7 ← indexGo s 7
      let c10 ← indexGo s 10
      let c13 ← indexGo s 13
      let c16 ← indexGo s 16
      if ¬ (c4 = '-' ∧ c7 = '-' ∧ c10 = 'T' ∧ c13 = ':' ∧ c16 = ':') then pure none
      else do
        let rest ← sliceFromGo s 19
        parseRFC3339RestChecked year.1 month.1 day.1 hour.1 min.1 sec.1 rest

/-- The numeric time-zone case of the general parser with its index and
slice expressions checked. -/
def parseNumColonTZChecked (value : List Char) : Option (Option (Int × List Char)) :=
  if value.length < 6 then pure none
  else do
    let c3 ← indexGo value 3
    if c3 ≠ ':' then pure none
    else do
      let sign ← sliceGo value 0 1
      let hour ← sliceGo value 1 3
      let min ← sliceGo value 4 6
      let rest ← sliceFromGo value 6
      match ← getnumChecked hour true with
      | none => pure none
      | some (hr, _) =>
        match ← getnumChecked min true with
        | none => pure none
        | some (mm, _) =>
          match ← getnumChecked ['0', '0'] true with
          | none => pure none
          | some (ss, _) =>
            if hr > 24 ∨ mm > 60 ∨ ss > 60 then pure none
            else do
              let zoneOffset := (hr * 60 + mm) * 60 + ss
              let sg ← indexGo sign 0
              if sg = '+' then pure (some (zoneOffset, rest))
              else if sg = '-' then pure (some (-zoneOffset, rest))
              else pure none

/-- The case `stdISO8601ColonTZ` of the general parser, checked. -/
def parseISO8601ColonTZChecked (value : List Char) :
    Option (Option (Option Int × List Char)) :=
  match value with
  | 'Z' :: rest => pure (some (none, rest))
  | _ => (parseNumColonTZChecked value).map
      (fun r => r.map (fun (p : Int × List Char) => (some p.1, p.2)))

/-- The fractional second of the general parser with its index and slice
expressions checked. -/
def parseSecondFractionChecked (value : List Char) : Option (Option (Int × List Char)) := do
  -- `len(value) >= 2 && commaOrPeriod(value[0]) && isDigit(value, 1)`
  let hasFrac : Bool ←
    if value.length ≥ 2 then do
      let c0 ← indexGo value 0
      pure (commaOrPeriod c0 && isDigit value 1)
    else pure false
  if hasFrac = true then do
    let n := scanDigits (value.drop 2) 2
    let r ← parseNanosecondsChecked value n
    let rest ← sliceFromGo value n
    if r.2 = false then pure none else pure (some (r.1, rest))
  else pure (some (0, value))

/-- Go `parse(time.RFC3339, value, UTC, Local)` with its index and slice
expressions, and those of the functions it calls, checked: `none` is a
panic, `some none` a returned `ParseError`. -/
def parseChecked (value : List Char) : Option (Option Time) :=
  if value.length < 4 ∨ isDigit value 0 = false then pure none
  else do
  let p ← sliceGo value 0 4
  let value ← sliceFromGo value 4
  match atoi p with
  | none => pure none
  | some year =>
  match skip value ['-'] with
  | none => pure none
  | some value =>
  match ← getnumChecked value true with
  | none => pure none
  | some (month, value) =>
  if month ≤ 0 ∨ 12 < month then pure none
  else
  match skip value ['-'] with
  | none => pure none
  | some value =>
  match ← getnumChecked value true with
  | none => pure none
  | some (day, value) =>
  match skip value ['T'] with
  | none => pure none
  | some value =>
  match ← getnumChecked value false with
  | none => pure none
  | some (hour, value) =>
  if hour < 0 ∨ 24 ≤ hour then pure none
  else
  match skip value [':'] with
  | none => pure none
  | some value =>
  match ← getnumChecked value true with
  | none => pure none
  | some (min, value) =>
  if min < 0 ∨ 60 ≤ min then pure none
  else
  match skip value [':'] with
  | none => pure none
  | some value =>
  match ← getnumChecked value true with
  | none => pure none
  | some (sec, value) =>
  if sec < 0 ∨ 60 ≤ sec then pure none
  else
  match ← parseSecondFractionChecked value with
  | none => pure none
  | some (nsec, value) =>
  match ← parseISO8601ColonTZChecked value with
  | none => pure none
  | some (zone, value) =>
  if value.length ≠ 0 then pure none
  else do
  let dim ← daysInChecked month year
  if day < 1 ∨ day > dim then pure none
  else
    match zone with
    | none => (DateChecked year month day hour min sec nsec).map some
    | some zoneOffset =>
      if zoneOffset ≠ -1 then do
        let t ← DateChecked year month day hour min sec nsec
        pure (some { sec := t.sec - zoneOffset, nsec := t.nsec, offset := zoneOffset })
      else (DateChecked year month day hour min sec nsec).map some

/-- Go `time.Parse(time.RFC3339, value)` with every index and slice
expression it evaluates checked: `none` is a panic, `some none` an error. -/
def ParseChecked (value : String) : Option (Option Time) := do
  match ← parseRFC3339Checked value.toList with
  | some t => pure (some t)
  | none => parseChecked value.toList

/-- The function `parseTime` over the checked library calls; `none` is a
panic. -/
def parseTimeChecked (timeString : String) : Option (Except String Time) := do
  match ← ParseChecked timeString with
  | none => pure (Except.error errorfUTC)
  | some t =>
    let a ← t.UTC.FormatChecked
    let b ← t.FormatChecked
    if a ≠ b then pure (Except.error errorfUTC)
    else pure (Except.ok t.UTC)

/-- The method `ValidateString` over the checked `parseTime`: `none` is a
panic, `some` the validator and the response the call leaves. -/
def timeValidator.ValidateStringChecked (v : timeValidator) (request : StringRequest)
    (response : StringResponse) : Option (timeValidator × StringResponse) :=
  if (request.ConfigValue.IsNull || request.ConfigValue.IsUnknown) = true then
    pure (v, response)
  else do
    let value := request.ConfigValue.ValueString
    match ← parseTimeChecked value with
    | Except.error err =>
      let v : timeValidator := { message := err }
      pure (v, { Diagnostics := response.Diagnostics ++
              [{ path := request.Path, description := v.Description, value := value }] })
    | Except.ok _ => pure (v, response)

/-! ## Definitions used to state and prove the properties -/

/-- What the month and day computed by `absDate` satisfy, as a decidable check. -/
def monthDayOK (leap : Bool) (yd : Nat) : Bool :=
  let md := absDateMonthDay leap (yd : Int)
  decide (1 ≤ md.1) && decide (md.1 ≤ 12) && decide (1 ≤ md.2) &&
  decide (md.2 ≤ (if md.1 = 2 ∧ leap = true then 29 else daysBeforeAt md.1 - daysBeforeAt (md.1 - 1))) &&
  decide (daysBeforeAt (md.1 - 1) + (if leap = true ∧ md.1 ≥ 3 then 1 else 0) + (md.2 - 1) = (yd : Int))

/-- The nineteen bytes of date and time that `appendFormatRFC3339` writes. -/
def stamp (y m d h mi s : Int) : List Char :=
  [utod (y.toNat / 1000), utod (y.toNat / 100 % 10), utod (y.toNat / 10 % 10), utod (y.toNat % 10),
   '-', utod (m.toNat / 10), utod (m.toNat % 10), '-', utod (d.toNat / 10), utod (d.toNat % 10),
   'T', utod (h.toNat / 10), utod (h.toNat % 10), ':', utod (mi.toNat / 10), utod (mi.toNat % 10),
   ':', utod (s.toNat / 10), utod (s.toNat % 10)]

/-- The three spellings of a zero zone at the end of a string. -/
def endsInZeroZone (l : List Char) : Prop :=
  ['Z'] <:+ l ∨ ['+', '0', '0', ':', '0', '0'] <:+ l ∨ ['-', '0', '0', ':', '0', '0'] <:+ l

/-- The nineteen bytes of date and time printed for a time. -/
def stampOf (t : Time) : List Char :=
  stamp (absDate t.abs).1 (absDate t.abs).2.1 (absDate t.abs).2.2
    (absClock t.abs).1 (absClock t.abs).2.1 (absClock t.abs).2.2

/-- Follows the spec's words, not the code: the zone `(Z|±HH:MM)` of the
grammar in section 4.1, step 1 of the specification. -/
def specZone (s : List Char) : Bool :=
  match s with
  | [z] => z == 'Z'
  | [sg, a, b, col, c, d] =>
    (sg == '+' || sg == '-') && isDigitByte a && isDigitByte b && col == ':' &&
      isDigitByte c && isDigitByte d
  | _ => false

/-- Follows the spec's words, not the code: the part `[.fraction](Z|±HH:MM)`
of the grammar, a fraction being a period and at least one digit. -/
def specFractionZone (s : List Char) : Bool :=
  match s with
  | '.' :: c :: r => isDigitByte c && specZone (r.dropWhile isDigitByte)
  | _ => specZone s

/-- Follows the spec's words, not the code: a recogniser of the RFC3339
timestamp grammar `YYYY-MM-DDTHH:MM:SS[.fraction](Z|±HH:MM)` that section 4.1,
step 1 of the specification names.  It checks the shape only, not the range
of the fields. -/
def specRFC3339Grammar (s : List Char) : Bool :=
  decide (19 ≤ s.length) &&
  isDigit s 0 && isDigit s 1 && isDigit s 2 && isDigit s 3 && (byteAt s 4 == '-') &&
  isDigit s 5 && isDigit s 6 && (byteAt s 7 == '-') &&
  isDigit s 8 && isDigit s 9 && (byteAt s 10 == 'T') &&
  isDigit s 11 && isDigit s 12 && (byteAt s 13 == ':') &&
  isDigit s 14 && isDigit s 15 && (byteAt s 16 == ':') &&
  isDigit s 17 && isDigit s 18 && specFractionZone (s.drop 19)

/-- One call of a method of the validator, with the arguments it reads. -/
inductive Call where
  | Description
  | MarkdownDescription
  | ValidateString (request : StringRequest) (response : StringResponse)

/-- What a call hands back: the string of the two describing methods, or
the response that `ValidateString` has written to. -/
inductive Returned where
  | text (s : String)
  | response (r : StringResponse)
  deriving DecidableEq, Repr

/-- One call on a validator: the validator after the call and what the call
hands back.  `Description` and `MarkdownDescription` have a value receiver,
they work on a copy and leave the validator as it is; `ValidateString` has a
pointer receiver. -/
def call (v : timeValidator) : Call → timeValidator × Returned
  | Call.Description => (v, Returned.text v.Description)
  | Call.MarkdownDescription => (v, Returned.text v.MarkdownDescription)
  | Call.ValidateString request response =>
    ((v.ValidateString request response).1,
     Returned.response (v.ValidateString request response).2)

/-- The validator after a sequence of calls. -/
def run (v : timeValidator) : List Call → timeValidator
  | [] => v
  | c :: cs => run (call v c).1 cs

/-- Follows the claim's words, not the code: `parseTime` with the comparison
of the two renderings replaced by a test of the parsed offset. -/
def parseTimeByOffset (timeString : String) : Except String Time :=
  match Parse timeString with
  | none => Except.error errorfUTC
  | some t => if t.offset ≠ 0 then Except.error errorfUTC else Except.ok t.UTC

/-- The digits of the fractional second written in a string: the digits
that follow its first period or comma. -/
def writtenFraction (s : List Char) : List Char :=
  ((s.dropWhile (fun c => !commaOrPeriod c)).drop 1).takeWhile isDigitByte

/-- The number that a string of decimal digits writes. -/
def decimalValue (ds : List Char) : Nat :=
  ds.foldl (fun x c => x * 10 + (c.toNat - 48)) 0

/-- The nanoseconds that the first nine digits of a written fraction denote. -/
def nanosOf (ds : List Char) : Int :=
  (decimalValue (ds.take 9) : Int) * 10 ^ (9 - (ds.take 9).length)

/-! ## Lemmas -/

theorem utod_toNat (k : Nat) (hk : k < 10) : (utod k).toNat = 48 + k := by
  interval_cases k <;> rfl

theorem utod_ne_Z (k : Nat) (hk : k < 10) : utod k ≠ 'Z' := by
  intro h
  have := congrArg Char.toNat h
  rw [utod_toNat k hk] at this
  have h2 : ('Z' : Char).toNat = 90 := rfl
  omega

theorem appendInt_two (b : List Char) (x : Int) (h0 : 0 ≤ x) (h1 : x < 100) :
    appendInt b x 2 = b ++ [utod (x.toNat / 10), utod (x.toNat % 10)] := by
  have hx : x.natAbs = x.toNat := by omega
  have hlt : x.toNat < 100 := by omega
  simp [appendInt, hx, hlt, not_lt.mpr h0]

theorem appendInt_four (b : List Char) (x : Int) (h0 : 0 ≤ x) (h1 : x < 10000) :
    appendInt b x 4 = b ++ [utod (x.toNat / 1000), utod (x.toNat / 100 % 10),
      utod (x.toNat / 10 % 10), utod (x.toNat % 10)] := by
  have hx : x.natAbs = x.toNat := by omega
  have hlt : x.toNat < 10000 := by omega
  simp [appendInt, hx, hlt, not_lt.mpr h0]

theorem appendInt_two_last (b : List Char) (x : Int) (h0 : 0 ≤ x) (h1 : x < 100) :
    ∃ b' k, k < 10 ∧ appendInt b x 2 = b' ++ [utod k] := by
  refine ⟨b ++ [utod (x.toNat / 10)], x.toNat % 10, by omega, ?_⟩
  rw [appendInt_two b x h0 h1]
  simp

theorem format_nonzero_last (t : Time) (h : t.offset ≠ 0) :
    ∃ b k, k < 10 ∧ appendFormatRFC3339 t [] = b ++ [utod k] := by
  unfold appendFormatRFC3339
  simp only [h, if_false]
  generalize hz : (if t.offset.tdiv 60 < 0 then -t.offset.tdiv 60 else t.offset.tdiv 60) = zone
  have hzone : 0 ≤ zone := by
    rw [← hz]; split <;> omega
  have hm : zone.tmod 60 = zone % 60 := Int.tmod_eq_emod hzone (by norm_num)
  rw [hm]
  exact appendInt_two_last _ _ (by omega) (by omega)

theorem format_utc_eq_iff (t : Time) : t.UTC.Format = t.Format ↔ t.offset = 0 := by
  constructor
  · intro h
    by_contra hne
    obtain ⟨b, k, hk, hb⟩ := format_nonzero_last t hne
    have hl : appendFormatRFC3339 t.UTC [] = appendFormatRFC3339 t [] :=
      congrArg String.data h
    rw [hb] at hl
    have hu : ∃ b', appendFormatRFC3339 t.UTC [] = b' ++ ['Z'] := by
      unfold appendFormatRFC3339
      simp [Time.UTC]
    obtain ⟨b', hb'⟩ := hu
    rw [hb'] at hl
    have := congrArg List.getLast? hl
    simp at this
    exact utod_ne_Z k hk this.symm
  · intro h
    have : t.UTC = t := by
      cases t; simp_all [Time.UTC]
    rw [this]

theorem absDateYear_unfold (A D n400 d1 q100 c100 d2 c4 d3 q1 c1 : Nat)
    (hD : D = A / 86400) (hn : n400 = D / 146097) (hd1 : d1 = D - 146097 * n400)
    (hq100 : q100 = d1 / 36524) (hc100 : c100 = q100 - q100 / 4)
    (hd2 : d2 = d1 - 36524 * c100) (hc4 : c4 = d2 / 1461) (hd3 : d3 = d2 - 1461 * c4)
    (hq1 : q1 = d3 / 365) (hc1 : c1 = q1 - q1 / 4) :
    absDateYear A = (i64 ((400 * n400 + 100 * c100 + 4 * c4 + c1 : Nat) : Int) + absoluteZeroYear,
      ((d3 - 365 * c1 : Nat) : Int)) := by
  subst hD hn hd1 hq100 hc100 hd2 hc4 hd3 hq1 hc1
  rfl

theorem daysSinceEpoch_unfold (year : Int) (y0 n1 y1 n2 y2 n3 y3 : Nat)
    (hy0 : y0 = u64 (year - absoluteZeroYear)) (hn1 : n1 = y0 / 400) (hy1 : y1 = y0 - 400 * n1)
    (hn2 : n2 = y1 / 100) (hy2 : y2 = y1 - 100 * n2) (hn3 : n3 = y2 / 4) (hy3 : y3 = y2 - 4 * n3) :
    daysSinceEpoch year =
      wrap64 (wrap64 (wrap64 (wrap64 (146097 * n1) + 36524 * n2) + 1461 * n3) + 365 * y3) := by
  subst hy0 hn1 hy1 hn2 hy2 hn3 hy3
  rfl

/-- The cycle counts cut off by `absDate` and what is left of the days. -/
theorem cycles_spec (D n d1 q c d2 c4 d3 q1 c1 : Nat)
    (hn : n = D / 146097) (hd1 : d1 = D - 146097 * n)
    (hq : q = d1 / 36524) (hc : c = q - q / 4)
    (hd2 : d2 = d1 - 36524 * c) (hc4 : c4 = d2 / 1461) (hd3 : d3 = d2 - 1461 * c4)
    (hq1 : q1 = d3 / 365) (hc1 : c1 = q1 - q1 / 4) :
    c ≤ 3 ∧ c4 ≤ 24 ∧ c1 ≤ 3 ∧ 365 * c1 ≤ d3 ∧ d3 - 365 * c1 ≤ 365 ∧
    D = 146097 * n + 36524 * c + 1461 * c4 + 365 * c1 + (d3 - 365 * c1) ∧
    (d3 - 365 * c1 = 365 → c1 = 3 ∧ (c4 = 24 → c = 3)) ∧
    (c = 3 → d2 + 109572 = d1) ∧ (c4 = 24 → d3 + 35064 = d2) ∧ d1 < 146097 ∧
    (c1 = 3 → 1095 ≤ d3) ∧ (c1 < 3 → d3 < 365 * (c1 + 1)) ∧ (c < 3 → d2 < 36524)
    ∧ d2 < 1461 * (c4 + 1) ∧ (c < 3 → d1 < 36524 * (c + 1)) := by
  have b1 : d1 < 146097 := by omega
  have b1' : D = 146097 * n + d1 := by omega
  clear hn hd1
  have b2 : q ≤ 4 := by omega
  have b3 : c ≤ 3 := by omega
  have b4 : d2 ≤ 36524 := by omega
  have b4' : c < 3 → d2 < 36524 := by omega
  have b4'' : d1 = 36524 * c + d2 := by omega
  have b4''' : c < 3 → d1 < 36524 * (c + 1) := by omega
  clear hq hc hd2 b2
  have b5 : c4 ≤ 24 := by omega
  have b6 : d3 < 1461 := by omega
  have b6' : d2 = 1461 * c4 + d3 := by omega
  have b6'' : c4 = 24 → d3 ≤ 1460 := by omega
  clear hc4 hd3
  have b7 : q1 ≤ 4 := by omega
  have b8 : c1 ≤ 3 := by omega
  have b10 : 365 * c1 ≤ d3 := by omega
  have b9 : d3 - 365 * c1 ≤ 365 := by omega
  have b11 : d3 - 365 * c1 = 365 → c1 = 3 := by omega
  have b12 : c1 = 3 → 1095 ≤ d3 := by omega
  have b13 : c1 < 3 → d3 < 365 * (c1 + 1) := by omega
  clear hq1 hc1 b7
  refine ⟨b3, b5, b8, b10, b9, by omega, ?_, by omega, by omega, b1, b12, b13, b4', by omega, b4'''⟩
  intro h
  refine ⟨b11 h, ?_⟩
  intro h24
  by_contra hc3
  have := b4' (by omega)
  omega

theorem daysSinceEpoch_cycles (n c c4 c1 : Nat) (hc : c ≤ 3) (hc4 : c4 ≤ 24) (hc1 : c1 ≤ 3)
    (hn : n ≤ 730692580) :
    daysSinceEpoch (((400 * n + 100 * c + 4 * c4 + c1 : Nat) : Int) + absoluteZeroYear) =
      146097 * n + 36524 * c + 1461 * c4 + 365 * c1 := by
  have hu : u64 (((400 * n + 100 * c + 4 * c4 + c1 : Nat) : Int) + absoluteZeroYear - absoluteZeroYear)
      = 400 * n + 100 * c + 4 * c4 + c1 := by
    unfold u64; omega
  rw [daysSinceEpoch_unfold _ (400 * n + 100 * c + 4 * c4 + c1) n (100 * c + 4 * c4 + c1) c
    (4 * c4 + c1) c4 c1 hu.symm (by omega) (by omega) (by omega) (by omega) (by omega) (by omega)]
  unfold wrap64
  omega

theorem absDateYear_spec (A : Nat) (h0 : 9223371966548102400 ≤ A) (h1 : A ≤ 9223372282117622399) :
    ∃ Y yd : Nat, absDateYear A = ((Y : Int) + absoluteZeroYear, (yd : Int)) ∧
      292277022399 ≤ Y ∧ Y ≤ 292277032398 ∧
      (yd < 365 ∨ (yd = 365 ∧ Y % 4 = 3 ∧ (Y % 100 ≠ 99 ∨ Y % 400 = 399))) ∧
      daysSinceEpoch ((Y : Int) + absoluteZeroYear) + yd = A / 86400 := by
  obtain ⟨D, hD⟩ : ∃ D, D = A / 86400 := ⟨_, rfl⟩
  obtain ⟨n400, hn⟩ : ∃ n, n = D / 146097 := ⟨_, rfl⟩
  obtain ⟨d1, hd1⟩ : ∃ n, n = D - 146097 * n400 := ⟨_, rfl⟩
  obtain ⟨q100, hq100⟩ : ∃ n, n = d1 / 36524 := ⟨_, rfl⟩
  obtain ⟨c100, hc100⟩ : ∃ n, n = q100 - q100 / 4 := ⟨_, rfl⟩
  obtain ⟨d2, hd2⟩ : ∃ n, n = d1 - 36524 * c100 := ⟨_, rfl⟩
  obtain ⟨c4, hc4⟩ : ∃ n, n = d2 / 1461 := ⟨_, rfl⟩
  obtain ⟨d3, hd3⟩ : ∃ n, n = d2 - 1461 * c4 := ⟨_, rfl⟩
  obtain ⟨q1, hq1⟩ : ∃ n, n = d3 / 365 := ⟨_, rfl⟩
  obtain ⟨c1, hc1⟩ : ∃ n, n = q1 - q1 / 4 := ⟨_, rfl⟩
  rw [absDateYear_unfold A D n400 d1 q100 c100 d2 c4 d3 q1 c1 hD hn hd1 hq100 hc100 hd2 hc4 hd3 hq1 hc1]
  rw [← hD]
  obtain ⟨k1, k2, k3, k4, k5, k6, k7, k8, k9, k10, k11, k12, k13, k14, k15⟩ :=
    cycles_spec D n400 d1 q100 c100 d2 c4 d3 q1 c1 hn hd1 hq100 hc100 hd2 hc4 hd3 hq1 hc1
  have bD0 : 106751990353566 ≤ D := by omega
  have bD1 : D ≤ 106751994005990 := by omega
  have bn0 : 730692555 ≤ n400 := by omega
  have bn1 : n400 ≤ 730692580 := by omega
  clear hD hn hq100 hc100 hd2 hc4 hd3 hq1 hc1 h0 h1
  obtain ⟨yd, hyd⟩ : ∃ n, n = d3 - 365 * c1 := ⟨_, rfl⟩
  rw [← hyd] at k5 k6 k7 ⊢
  have bY0 : 292277022399 ≤ 400 * n400 + 100 * c100 + 4 * c4 + c1 := by
    rcases Nat.lt_or_ge 730692555 n400 with hlt | hge
    · omega
    · have e0 : n400 = 730692555 := by omega
      have e1 : 145731 ≤ d1 := by omega
      have e2 : c100 = 3 := by
        by_contra hne
        have := k15 (by omega)
        omega
      have e3 : 36159 ≤ d2 := by have := k8 e2; omega
      have e4 : c4 = 24 := by omega
      have e5 : 1095 ≤ d3 := by have := k9 e4; omega
      have e6 : c1 = 3 := by
        by_contra hne
        have := k12 (by omega)
        omega
      omega
  have bY1 : 400 * n400 + 100 * c100 + 4 * c4 + c1 ≤ 292277032398 := by
    rcases Nat.lt_or_ge n400 730692580 with hlt | hge
    · omega
    · have e0 : n400 = 730692580 := by omega
      have e1 : d1 ≤ 145730 := by omega
      by_contra hcon
      have e2 : c100 = 3 := by omega
      have e3 : c4 = 24 := by omega
      have e4 : c1 = 3 := by omega
      have := k8 e2
      have := k9 e3
      have := k11 e4
      omega
  have hi : i64 ((400 * n400 + 100 * c100 + 4 * c4 + c1 : Nat) : Int)
      = ((400 * n400 + 100 * c100 + 4 * c4 + c1 : Nat) : Int) := by unfold i64; omega
  rw [hi]
  refine ⟨400 * n400 + 100 * c100 + 4 * c4 + c1, yd, rfl, bY0, bY1, ?_, ?_⟩
  · clear hi bY0 bY1 k8 k9 k10 k11 k12 k13 k14 k15 hd1 hyd k4 bD0 bD1 bn0 bn1 k6
    rcases Nat.lt_or_ge yd 365 with hlt | hge
    · left; omega
    · right
      have e : yd = 365 := by omega
      obtain ⟨e1, e2⟩ := k7 e
      refine ⟨e, by omega, ?_⟩
      rcases Nat.lt_or_ge c4 24 with h24 | h24
      · left; omega
      · right
        have := e2 (by omega)
        omega
  · rw [daysSinceEpoch_cycles n400 c100 c4 c1 k1 k2 k3 bn1]
    omega

set_option maxRecDepth 100000 in
theorem monthDayOK_common : ∀ yd < 365, monthDayOK false yd = true := by decide

set_option maxRecDepth 100000 in
theorem monthDayOK_leap : ∀ yd < 366, monthDayOK true yd = true := by decide

theorem norm_id (hi lo base : Int) (h0 : 0 ≤ lo) (h1 : lo < base) : norm hi lo base = (hi, lo) := by
  simp [norm, not_lt.mpr h0, not_le.mpr h1]

theorem isLeap_eq (Y : Nat) (h : 292277022399 ≤ Y) :
    isLeap ((Y : Int) + absoluteZeroYear) =
      decide (Y % 4 = 3 ∧ (Y % 100 ≠ 99 ∨ Y % 400 = 399)) := by
  have hy : (0 : Int) ≤ (Y : Int) + absoluteZeroYear := by unfold absoluteZeroYear; omega
  unfold isLeap
  rw [Int.tmod_eq_emod hy (by norm_num), Int.tmod_eq_emod hy (by norm_num),
    Int.tmod_eq_emod hy (by norm_num)]
  have e4 : (((Y : Int) + absoluteZeroYear) % 4 = 0) ↔ Y % 4 = 3 := by
    unfold absoluteZeroYear; omega
  have e100 : (((Y : Int) + absoluteZeroYear) % 100 = 0) ↔ Y % 100 = 99 := by
    unfold absoluteZeroYear; omega
  have e400 : (((Y : Int) + absoluteZeroYear) % 400 = 0) ↔ Y % 400 = 399 := by
    unfold absoluteZeroYear; omega
  rw [Bool.eq_iff_iff]
  simp [e4, e100, e400]

theorem absClock_spec (A : Nat) :
    0 ≤ (absClock A).1 ∧ (absClock A).1 < 24 ∧ 0 ≤ (absClock A).2.1 ∧ (absClock A).2.1 < 60 ∧
    0 ≤ (absClock A).2.2 ∧ (absClock A).2.2 < 60 ∧
    (absClock A).1 * 3600 + (absClock A).2.1 * 60 + (absClock A).2.2 = ((A % 86400 : Nat) : Int) := by
  simp only [absClock, secondsPerDay, secondsPerHour, secondsPerMinute]
  omega

theorem absDate_spec (A : Nat) (h0 : 9223371966548102400 ≤ A) (h1 : A ≤ 9223372282117622399) :
    0 ≤ (absDate A).1 ∧ (absDate A).1 ≤ 9999 ∧
    1 ≤ (absDate A).2.1 ∧ (absDate A).2.1 ≤ 12 ∧
    1 ≤ (absDate A).2.2 ∧ (absDate A).2.2 ≤ daysIn (absDate A).2.1 (absDate A).1 ∧
    (daysSinceEpoch (absDate A).1 : Int) + daysBeforeAt ((absDate A).2.1 - 1) +
      (if isLeap (absDate A).1 = true ∧ (absDate A).2.1 ≥ 3 then 1 else 0) +
      ((absDate A).2.2 - 1) = ((A / 86400 : Nat) : Int) := by
  obtain ⟨Y, yd, hA, hY0, hY1, hyd, hsum⟩ := absDateYear_spec A h0 h1
  have hleap := isLeap_eq Y hY0
  have hok : monthDayOK (isLeap ((Y : Int) + absoluteZeroYear)) yd = true := by
    rcases hyd with hlt | ⟨he, h4, h100⟩
    · cases hl : isLeap ((Y : Int) + absoluteZeroYear)
      · exact monthDayOK_common yd hlt
      · exact monthDayOK_leap yd (by omega)
    · have : isLeap ((Y : Int) + absoluteZeroYear) = true := by
        rw [hleap]; exact decide_eq_true ⟨h4, h100⟩
      rw [this]
      exact monthDayOK_leap yd (by omega)
  have hy0 : (0 : Int) ≤ (Y : Int) + absoluteZeroYear := by unfold absoluteZeroYear; omega
  have hy1 : (Y : Int) + absoluteZeroYear ≤ 9999 := by unfold absoluteZeroYear; omega
  simp only [absDate, hA]
  simp only [monthDayOK, Bool.and_eq_true, decide_eq_true_eq] at hok
  obtain ⟨⟨⟨⟨m1, m2⟩, m3⟩, m4⟩, m5⟩ := hok
  refine ⟨hy0, hy1, m1, m2, m3, ?_, ?_⟩
  · unfold daysIn
    exact m4
  · rw [← hsum]
    push_cast
    omega

theorem daysBeforeAt_bounds (m : Int) (h1 : 1 ≤ m) (h2 : m ≤ 12) :
    0 ≤ daysBeforeAt (m - 1) ∧ daysBeforeAt (m - 1) ≤ 334 := by
  obtain ⟨k, rfl⟩ : ∃ k : Nat, m = k := ⟨m.toNat, by omega⟩
  have hk : 1 ≤ k ∧ k ≤ 12 := by omega
  obtain ⟨hk1, hk2⟩ := hk
  interval_cases k <;> decide

theorem Date_of_fields (y m d h mi s ns : Int) (A : Nat)
    (hm1 : 1 ≤ m) (hm2 : m ≤ 12) (hd : 1 ≤ d)
    (hh0 : 0 ≤ h) (hh1 : h < 24) (hmi0 : 0 ≤ mi) (hmi1 : mi < 60) (hs0 : 0 ≤ s) (hs1 : s < 60)
    (hns0 : 0 ≤ ns) (hns1 : ns < 1000000000)
    (hA : A < 18446744073709551616)
    (hsum : (daysSinceEpoch y : Int) + daysBeforeAt (m - 1) +
      (if isLeap y = true ∧ m ≥ 3 then 1 else 0) + (d - 1) = ((A / 86400 : Nat) : Int))
    (hclock : h * 3600 + mi * 60 + s = ((A % 86400 : Nat) : Int)) :
    Date y m d h mi s ns = { sec := i64 (i64 (A : Int) - unixToAbsolute), nsec := ns, offset := 0 } := by
  have n1 := norm_id y (m - 1) 12 (by omega) (by omega)
  have n2 := norm_id s ns 1000000000 hns0 hns1
  have n3 := norm_id mi s 60 hs0 hs1
  have n4 := norm_id h mi 60 hmi0 hmi1
  have n5 := norm_id d h 24 hh0 hh1
  obtain ⟨db0, db1⟩ := daysBeforeAt_bounds m hm1 hm2
  simp only [Date, n1, n2, n3, n4, n5, sub_add_cancel, secondsPerDay]
  generalize daysBeforeAt (m - 1) = db at *
  generalize daysSinceEpoch y = dse at *
  have hq : A / 86400 < 213503982334602 := by omega
  have hdiv : A = 86400 * (A / 86400) + A % 86400 := (Nat.div_add_mod A 86400).symm
  have hmod : A % 86400 < 86400 := Nat.mod_lt _ (by norm_num)
  generalize A / 86400 = q at *
  generalize A % 86400 = r at *
  have e1 : u64 db = db.toNat := by unfold u64; omega
  have e2 : u64 (d - 1) = (d - 1).toNat := by unfold u64; omega
  have e3 : u64 (h * 3600 + mi * 60 + s) = r := by unfold u64; omega
  rw [e1, e2, e3]
  have key : wrap64 (wrap64 (wrap64 ((if isLeap y = true ∧ m ≥ 3 then
      wrap64 (wrap64 (dse + db.toNat) + 1) else wrap64 (dse + db.toNat)) + (d - 1).toNat) * 86400) +
      r) = A := by
    by_cases hc : isLeap y = true ∧ m ≥ 3
    · rw [if_pos hc] at hsum ⊢
      have w1 : wrap64 (dse + db.toNat) = dse + db.toNat := by unfold wrap64; omega
      have w2 : wrap64 (dse + db.toNat + 1) = dse + db.toNat + 1 := by unfold wrap64; omega
      have w3 : wrap64 (dse + db.toNat + 1 + (d - 1).toNat) = q := by unfold wrap64; omega
      have w4 : wrap64 (q * 86400) = q * 86400 := by unfold wrap64; omega
      have w5 : wrap64 (q * 86400 + r) = q * 86400 + r := by unfold wrap64; omega
      rw [w1, w2, w3, w4, w5]; omega
    · rw [if_neg hc] at hsum ⊢
      have w1 : wrap64 (dse + db.toNat) = dse + db.toNat := by unfold wrap64; omega
      have w3 : wrap64 (dse + db.toNat + (d - 1).toNat) = q := by unfold wrap64; omega
      have w4 : wrap64 (q * 86400) = q * 86400 := by unfold wrap64; omega
      have w5 : wrap64 (q * 86400 + r) = q * 86400 + r := by unfold wrap64; omega
      rw [w1, w3, w4, w5]; omega
  rw [key]

theorem isDigitByte_iff (c : Char) : isDigitByte c = true ↔ 48 ≤ c.toNat ∧ c.toNat ≤ 57 := by
  unfold isDigitByte
  simp only [Bool.and_eq_true, decide_eq_true_eq, Char.le_def]
  constructor
  · rintro ⟨h1, h2⟩
    exact ⟨h1, h2⟩
  · rintro ⟨h1, h2⟩
    exact ⟨h1, h2⟩

theorem isDigitByte_utod (k : Nat) (hk : k < 10) : isDigitByte (utod k) = true := by
  rw [isDigitByte_iff, utod_toNat k hk]; omega

theorem leadingInt_two (a b : Char) (ha : isDigitByte a = true) (hb : isDigitByte b = true) :
    leadingInt [a, b] 0 = ((a.toNat - 48) * 10 + (b.toNat - 48), []) := by
  simp [leadingInt, ha, hb]

theorem leadingInt_four (a b c d : Char) (ha : isDigitByte a = true) (hb : isDigitByte b = true)
    (hc : isDigitByte c = true) (hd : isDigitByte d = true) :
    leadingInt [a, b, c, d] 0 =
      ((((a.toNat - 48) * 10 + (b.toNat - 48)) * 10 + (c.toNat - 48)) * 10 + (d.toNat - 48), []) := by
  simp [leadingInt, ha, hb, hc, hd]

theorem digitVal_nonneg (c : Char) : 0 ≤ digitVal c := by
  unfold digitVal; omega

theorem digitVal_le (c : Char) (h : isDigitByte c = true) : digitVal c ≤ 9 := by
  rw [isDigitByte_iff] at h
  unfold digitVal; omega

theorem not_digit_iff (c : Char) : (c < '0' ∨ '9' < c) ↔ isDigitByte c = false := by
  have h := isDigitByte_iff c
  have e1 : c < '0' ↔ c.toNat < 48 := by
    rw [Char.lt_def]; exact Iff.rfl
  have e2 : '9' < c ↔ 57 < c.toNat := by
    rw [Char.lt_def]; exact Iff.rfl
  rw [e1, e2]
  cases hd : isDigitByte c
  · simp only [iff_true]
    by_contra hcon
    have : isDigitByte c = true := h.mpr (by omega)
    rw [hd] at this
    exact Bool.noConfusion this
  · simp only [Bool.true_eq_false, iff_false]
    have := h.mp hd
    omega

theorem parseUintLoop_cons (c : Char) (cs : List Char) (x : Int) (h : isDigitByte c = true) :
    parseUintLoop (c :: cs) x = parseUintLoop cs (x * 10 + digitVal c) := by
  have hn : ¬ (c < '0' ∨ '9' < c) := by
    rw [not_digit_iff, h]; simp
  have hv : x * 10 + (c.toNat : Int) - 48 = x * 10 + digitVal c := by
    have := (isDigitByte_iff c).mp h
    unfold digitVal; omega
  simp only [parseUintLoop, hn, if_false, hv]

theorem parseUintLoop_cons_bad (c : Char) (cs : List Char) (x : Int)
    (h : isDigitByte c = false) : parseUintLoop (c :: cs) x = none := by
  have hn : c < '0' ∨ '9' < c := (not_digit_iff c).mpr h
  simp only [parseUintLoop, hn, if_true]

theorem digitVal_utod (k : Nat) (hk : k < 10) : digitVal (utod k) = k := by
  unfold digitVal
  rw [utod_toNat k hk]
  omega

theorem parseUint_two (a b : Char) (lo hi : Int) (ha : isDigitByte a = true)
    (hb : isDigitByte b = true) :
    parseUint [a, b] lo hi =
      if digitVal a * 10 + digitVal b < lo ∨ hi < digitVal a * 10 + digitVal b then (lo, false)
      else (digitVal a * 10 + digitVal b, true) := by
  unfold parseUint
  rw [parseUintLoop_cons a _ _ ha, parseUintLoop_cons b _ _ hb]
  simp [parseUintLoop]

theorem parseUint_four (a b c d : Char) (ha : isDigitByte a = true)
    (hb : isDigitByte b = true) (hc : isDigitByte c = true) (hd : isDigitByte d = true) :
    parseUint [a, b, c, d] 0 9999 =
      (((digitVal a * 10 + digitVal b) * 10 + digitVal c) * 10 + digitVal d, true) := by
  have la := digitVal_le a ha
  have lb := digitVal_le b hb
  have lc := digitVal_le c hc
  have ld := digitVal_le d hd
  have na := digitVal_nonneg a
  have nb := digitVal_nonneg b
  have nc := digitVal_nonneg c
  have nd := digitVal_nonneg d
  unfold parseUint
  rw [parseUintLoop_cons a _ _ ha, parseUintLoop_cons b _ _ hb, parseUintLoop_cons c _ _ hc,
    parseUintLoop_cons d _ _ hd]
  simp only [parseUintLoop, zero_mul, zero_add]
  rw [if_neg (by omega)]

theorem parseUint_utod2 (x lo hi : Int) (h0 : 0 ≤ x) (h1 : x < 100) (hlo : lo ≤ x) (hhi : x ≤ hi) :
    parseUint [utod (x.toNat / 10), utod (x.toNat % 10)] lo hi = (x, true) := by
  have ha : x.toNat / 10 < 10 := by omega
  have hb : x.toNat % 10 < 10 := by omega
  rw [parseUint_two _ _ lo hi (isDigitByte_utod _ ha) (isDigitByte_utod _ hb),
    digitVal_utod _ ha, digitVal_utod _ hb]
  have e : ((x.toNat / 10 : Nat) : Int) * 10 + ((x.toNat % 10 : Nat) : Int) = x := by omega
  rw [e, if_neg (by omega)]

theorem parseUint_utod4 (x lo hi : Int) (h0 : 0 ≤ x) (h1 : x < 10000) (hlo : lo ≤ x) (hhi : x ≤ hi) :
    parseUint [utod (x.toNat / 1000), utod (x.toNat / 100 % 10), utod (x.toNat / 10 % 10),
      utod (x.toNat % 10)] lo hi = (x, true) := by
  have ha : x.toNat / 1000 < 10 := by omega
  have hb : x.toNat / 100 % 10 < 10 := by omega
  have hc : x.toNat / 10 % 10 < 10 := by omega
  have hd : x.toNat % 10 < 10 := by omega
  unfold parseUint
  rw [parseUintLoop_cons _ _ _ (isDigitByte_utod _ ha), parseUintLoop_cons _ _ _ (isDigitByte_utod _ hb),
    parseUintLoop_cons _ _ _ (isDigitByte_utod _ hc), parseUintLoop_cons _ _ _ (isDigitByte_utod _ hd),
    digitVal_utod _ ha, digitVal_utod _ hb, digitVal_utod _ hc, digitVal_utod _ hd]
  simp only [parseUintLoop, zero_mul, zero_add]
  have e : ((((x.toNat / 1000 : Nat) : Int) * 10 + ((x.toNat / 100 % 10 : Nat) : Int)) * 10 +
      ((x.toNat / 10 % 10 : Nat) : Int)) * 10 + ((x.toNat % 10 : Nat) : Int) = x := by omega
  rw [e, if_neg (by omega)]

theorem parseUint_two_inv (a b : Char) (lo hi : Int) (p : Int × Bool)
    (h : parseUint [a, b] lo hi = p) (hp : p.2 = true) :
    isDigitByte a = true ∧ isDigitByte b = true ∧ p.1 = digitVal a * 10 + digitVal b := by
  subst h
  cases ha : isDigitByte a
  · simp [parseUint, parseUintLoop_cons_bad a _ _ ha] at hp
  · cases hb : isDigitByte b
    · simp [parseUint, parseUintLoop_cons a _ _ ha, parseUintLoop_cons_bad b _ _ hb] at hp
    · rw [parseUint_two a b lo hi ha hb] at hp ⊢
      split at hp
      · simp at hp
      · rename_i hr
        rw [if_neg hr]
        exact ⟨rfl, rfl, rfl⟩

theorem parseRFC3339_stamp (y m d h mi s : Int) (rest : List Char)
    (hy0 : 0 ≤ y) (hy1 : y ≤ 9999) (hm0 : 1 ≤ m) (hm1 : m ≤ 12)
    (hd0 : 1 ≤ d) (hd1 : d ≤ daysIn m y) (hd2 : d < 100)
    (hh0 : 0 ≤ h) (hh1 : h < 24) (hmi0 : 0 ≤ mi) (hmi1 : mi < 60) (hs0 : 0 ≤ s) (hs1 : s < 60) :
    parseRFC3339 (stamp y m d h mi s ++ rest) = parseRFC3339Rest y m d h mi s rest := by
  have py := parseUint_utod4 y 0 9999 hy0 (by omega) hy0 hy1
  have pm := parseUint_utod2 m 1 12 (by omega) (by omega) hm0 hm1
  have pd := parseUint_utod2 d 1 (daysIn m y) (by omega) hd2 hd0 hd1
  have ph := parseUint_utod2 h 0 23 hh0 (by omega) hh0 (by omega)
  have pmi := parseUint_utod2 mi 0 59 hmi0 (by omega) hmi0 (by omega)
  have ps := parseUint_utod2 s 0 59 hs0 (by omega) hs0 (by omega)
  simp [parseRFC3339, stamp, slice, byteAt, py, pm, pd, ph, pmi, ps]

theorem skip_suffix : ∀ (value pfx r : List Char), skip value pfx = some r → r <:+ value
  | value, [], r, h => by
    cases value <;> simp [skip] at h <;> subst h <;> exact List.suffix_refl _
  | [], _ :: _, r, h => by simp [skip] at h
  | v :: value, p :: pfx, r, h => by
    simp only [skip] at h
    split at h
    · contradiction
    · exact (skip_suffix value pfx r h).trans (List.suffix_cons v value)

theorem getnum_suffix (s : List Char) (fixed : Bool) (x : Int) (r : List Char)
    (h : getnum s fixed = some (x, r)) : r <:+ s := by
  unfold getnum at h
  split at h
  · contradiction
  · split at h
    · split at h
      · contradiction
      · simp only [Option.some.injEq, Prod.mk.injEq] at h
        rw [← h.2]; exact List.drop_suffix _ _
    · simp only [Option.some.injEq, Prod.mk.injEq] at h
      rw [← h.2]; exact List.drop_suffix _ _

theorem parseSecondFraction_suffix (value : List Char) (x : Int) (r : List Char)
    (h : parseSecondFraction value = some (x, r)) : r <:+ value := by
  unfold parseSecondFraction at h
  split at h
  · simp only at h
    split at h
    all_goals first
      | contradiction
      | (simp only [Option.some.injEq, Prod.mk.injEq] at h
         rw [← h.2]; exact List.drop_suffix _ _)
  · simp only [Option.some.injEq, Prod.mk.injEq] at h
    rw [← h.2]

theorem digit_zero (c : Char) (hd : isDigitByte c = true) (h0 : digitVal c = 0) : c = '0' := by
  rw [isDigitByte_iff] at hd
  unfold digitVal at h0
  have : c.toNat = 48 := by omega
  rw [← Char.ofNat_toNat c, this]

theorem getnum_two (a b : Char) (x : Int) (r : List Char) (h : getnum [a, b] true = some (x, r)) :
    isDigitByte a = true ∧ isDigitByte b = true ∧ x = digitVal a * 10 + digitVal b := by
  simp only [getnum, isDigit, byteAt] at h
  simp at h
  obtain ⟨ha, hb, hx, _⟩ := h
  exact ⟨ha, hb, hx.symm⟩

theorem list_length_six (l : List Char) (h : l.length = 6) :
    ∃ a b c d e f, l = [a, b, c, d, e, f] := by
  obtain _ | ⟨a, _ | ⟨b, _ | ⟨c, _ | ⟨d, _ | ⟨e, _ | ⟨f, _ | ⟨g, l⟩⟩⟩⟩⟩⟩⟩ := l
  all_goals first
    | exact ⟨_, _, _, _, _, _, rfl⟩
    | simp at h

/-- What a successful numeric zone of the general parser looks like. -/
theorem parseNumColonTZ_some (zv : List Char) (off : Int)
    (h : parseNumColonTZ zv = some (off, [])) :
    ∃ sg a b c d, zv = [sg, a, b, ':', c, d] ∧ (sg = '+' ∨ sg = '-') ∧
      isDigitByte a = true ∧ isDigitByte b = true ∧ isDigitByte c = true ∧ isDigitByte d = true ∧
      off = (if sg = '-' then -1 else 1) *
        (((digitVal a * 10 + digitVal b) * 60 + (digitVal c * 10 + digitVal d)) * 60) := by
  unfold parseNumColonTZ at h
  split at h
  · contradiction
  rename_i hlen
  split at h
  · contradiction
  rename_i hcolon
  split at h
  · contradiction
  rename_i hr r1 hhr
  split at h
  · contradiction
  rename_i mm r2 hmm
  split at h
  · contradiction
  rename_i ss r3 hss
  split at h
  · contradiction
  have hss0 : ss = 0 := by
    simp [getnum, isDigit, byteAt, digitVal, isDigitByte] at hss
    omega
  have hdrop : zv.drop 6 = [] := by
    split at h
    · simp only [Option.some.injEq, Prod.mk.injEq] at h; exact h.2
    · split at h
      · simp only [Option.some.injEq, Prod.mk.injEq] at h; exact h.2
      · contradiction
  have hlen6 : zv.length = 6 := by
    have := List.drop_eq_nil_iff.mp hdrop
    omega
  obtain ⟨sg, a, b, c0, c, d, rfl⟩ := list_length_six zv hlen6
  have hc0 : c0 = ':' := by
    simpa [byteAt] using hcolon
  subst hc0
  have h1 : slice [sg, a, b, ':', c, d] 1 3 = [a, b] := by simp [slice]
  have h2 : slice [sg, a, b, ':', c, d] 4 6 = [c, d] := by simp [slice]
  rw [h1] at hhr
  rw [h2] at hmm
  obtain ⟨da, db, ehr⟩ := getnum_two a b hr r1 hhr
  obtain ⟨dc, dd, emm⟩ := getnum_two c d mm r2 hmm
  refine ⟨sg, a, b, c, d, rfl, ?_, da, db, dc, dd, ?_⟩
  · by_cases hp : sg = '+'
    · exact Or.inl hp
    · by_cases hm : sg = '-'
      · exact Or.inr hm
      · simp [byteAt, hp, hm] at h
  · by_cases hp : sg = '+'
    · subst hp
      simp [byteAt] at h
      rw [← h, ehr, emm, hss0]; simp
    · by_cases hm : sg = '-'
      · subst hm
        simp [byteAt] at h
        rw [← h, ehr, emm, hss0]; simp
      · simp [byteAt, hp, hm] at h

theorem Date_offset (y m d h mi s ns : Int) : (Date y m d h mi s ns).offset = 0 := rfl

theorem zero_zone_of_numeric (sg a b c d : Char) (hs : sg = '+' ∨ sg = '-')
    (ha : isDigitByte a = true) (hb : isDigitByte b = true) (hc : isDigitByte c = true)
    (hd : isDigitByte d = true)
    (h : (if sg = '-' then -1 else 1) *
        (((digitVal a * 10 + digitVal b) * 60 + (digitVal c * 10 + digitVal d)) * 60) = (0 : Int)) :
    [sg, a, b, ':', c, d] = ['+', '0', '0', ':', '0', '0'] ∨
    [sg, a, b, ':', c, d] = ['-', '0', '0', ':', '0', '0'] := by
  have na := digitVal_nonneg a
  have nb := digitVal_nonneg b
  have nc := digitVal_nonneg c
  have nd := digitVal_nonneg d
  have hz : digitVal a = 0 ∧ digitVal b = 0 ∧ digitVal c = 0 ∧ digitVal d = 0 := by
    split at h <;> omega
  obtain ⟨za, zb, zc, zd⟩ := hz
  rw [digit_zero a ha za, digit_zero b hb zb, digit_zero c hc zc, digit_zero d hd zd]
  rcases hs with rfl | rfl
  · exact Or.inl rfl
  · exact Or.inr rfl

theorem numeric_offset_ne (sg a b c d : Char) :
    (if sg = '-' then -1 else 1) *
        (((digitVal a * 10 + digitVal b) * 60 + (digitVal c * 10 + digitVal d)) * 60) ≠ (-1 : Int) := by
  split <;> omega

theorem parseISO8601ColonTZ_some (zv : List Char) (zone : Option Int) (rest : List Char)
    (h : parseISO8601ColonTZ zv = some (zone, rest)) :
    (zone = none ∧ zv = 'Z' :: rest) ∨
    (∃ off, zone = some off ∧ parseNumColonTZ zv = some (off, rest)) := by
  unfold parseISO8601ColonTZ at h
  split at h
  · simp only [Option.some.injEq, Prod.mk.injEq] at h
    exact Or.inl ⟨h.1.symm, by rw [h.2]⟩
  · right
    cases hp : parseNumColonTZ zv with
    | none => rw [hp] at h; simp at h
    | some p =>
      rw [hp] at h
      simp only [Option.map_some', Option.some.injEq, Prod.mk.injEq] at h
      exact ⟨p.1, h.1.symm, by rw [← h.2]⟩

/-- The zone chunk of the general parser starts at a suffix of the value. -/
theorem parse_chain_suffix (value v1 v2 v3 v4 v5 v6 v7 v8 v9 v10 v11 : List Char)
    (month day hour mi sec nsec : Int)
    (h1 : skip (value.drop 4) ['-'] = some v1) (h2 : getnum v1 true = some (month, v2))
    (h3 : skip v2 ['-'] = some v3) (h4 : getnum v3 true = some (day, v4))
    (h5 : skip v4 ['T'] = some v5) (h6 : getnum v5 false = some (hour, v6))
    (h7 : skip v6 [':'] = some v7) (h8 : getnum v7 true = some (mi, v8))
    (h9 : skip v8 [':'] = some v9) (h10 : getnum v9 true = some (sec, v10))
    (h11 : parseSecondFraction v10 = some (nsec, v11)) (v12 : List Char) (zone : Option Int)
    (h12 : parseISO8601ColonTZ v11 = some (zone, v12)) (h13 : ¬ v12.length ≠ 0) :
    v11 <:+ value ∧ parseISO8601ColonTZ v11 = some (zone, []) :=
  ⟨(parseSecondFraction_suffix _ _ _ h11).trans <|
  (getnum_suffix _ _ _ _ h10).trans <| (skip_suffix _ _ _ h9).trans <|
  (getnum_suffix _ _ _ _ h8).trans <| (skip_suffix _ _ _ h7).trans <|
  (getnum_suffix _ _ _ _ h6).trans <| (skip_suffix _ _ _ h5).trans <|
  (getnum_suffix _ _ _ _ h4).trans <| (skip_suffix _ _ _ h3).trans <|
  (getnum_suffix _ _ _ _ h2).trans <| (skip_suffix _ _ _ h1).trans <| List.drop_suffix _ _,
   by rw [h12, List.length_eq_zero.mp (not_not.mp h13)]⟩

/-- What the zone chunk of a successful general parse yields: it reads a
suffix of the value to its end, and fixes the offset of the result. -/
theorem parse_some_zone (value : List Char) (t : Time) (h : parse value = some t) :
    ∃ zv zone, zv <:+ value ∧ parseISO8601ColonTZ zv = some (zone, []) ∧
      t.offset = zone.getD 0 := by
  unfold parse at h
  repeat' (split at h <;> try contradiction)
  all_goals
    have hh := parse_chain_suffix value _ _ _ _ _ _ _ _ _ _ _ _ _ _ _ _ _
      (by assumption) (by assumption) (by assumption) (by assumption) (by assumption)
      (by assumption) (by assumption) (by assumption) (by assumption) (by assumption)
      (by assumption) _ _ (by assumption) (by assumption)
    simp only [Option.some.injEq] at h
    refine ⟨_, _, hh.1, hh.2, ?_⟩
  · subst h; rfl
  · subst h; rfl
  · exfalso
    rcases parseISO8601ColonTZ_some _ _ _ hh.2 with ⟨hn, _⟩ | ⟨off', ho, hp⟩
    · cases hn
    · obtain ⟨sg, a, b, c, d, _, _, _, _, _, _, hoff⟩ := parseNumColonTZ_some _ _ hp
      simp only [Option.some.injEq] at ho
      subst ho
      have hne := numeric_offset_ne sg a b c d
      rw [← hoff] at hne
      exact absurd hne (by assumption)

/-- The general parser: a parsed time with offset zero comes from a string
that ends in `Z`, `+00:00` or `-00:00`. -/
theorem parse_zero_suffix (value : List Char) (t : Time) (h : parse value = some t)
    (h0 : t.offset = 0) : endsInZeroZone value := by
  obtain ⟨zv, zone, hsuf, hz, hoff⟩ := parse_some_zone value t h
  rcases parseISO8601ColonTZ_some _ _ _ hz with ⟨_, hzv⟩ | ⟨off, ho, hp⟩
  · left
    rw [← hzv]; exact hsuf
  · obtain ⟨sg, a, b, c, d, hzv, hs, ha, hb, hc, hd, hoffv⟩ := parseNumColonTZ_some _ _ hp
    subst ho
    simp only [Option.getD_some] at hoff
    rw [h0] at hoff
    rcases zero_zone_of_numeric sg a b c d hs ha hb hc hd (by rw [← hoffv]; exact hoff.symm)
      with e | e
    · right; left; rw [← e, ← hzv]; exact hsuf
    · right; right; rw [← e, ← hzv]; exact hsuf

/-- What a successful zone of the fast path looks like. -/
theorem parseRFC3339Zone_some (t0 t : Time) (zv : List Char)
    (h : parseRFC3339Zone t0 zv = some t) :
    ∃ sg a b c d, zv = [sg, a, b, ':', c, d] ∧ (sg = '+' ∨ sg = '-') ∧
      isDigitByte a = true ∧ isDigitByte b = true ∧ isDigitByte c = true ∧ isDigitByte d = true ∧
      t.offset = (if sg = '-' then -1 else 1) *
        (((digitVal a * 10 + digitVal b) * 60 + (digitVal c * 10 + digitVal d)) * 60) ∧
      t.sec = t0.sec - t.offset ∧ t.nsec = t0.nsec := by
  unfold parseRFC3339Zone at h
  split at h
  · contradiction
  rename_i hlen
  obtain ⟨sg, a, b, c0, c, d, rfl⟩ := list_length_six zv (not_not.mp hlen)
  have h1 : slice [sg, a, b, c0, c, d] 1 3 = [a, b] := by simp [slice]
  have h2 : slice [sg, a, b, c0, c, d] 4 6 = [c, d] := by simp [slice]
  simp only [h1, h2] at h
  split at h
  · contradiction
  rename_i hok
  simp only [not_or, not_not, Bool.not_eq_false, Bool.and_eq_true] at hok
  obtain ⟨⟨ok1, ok2⟩, hsg, hcol⟩ := hok
  have hc0 : c0 = ':' := by simpa [byteAt] using hcol
  have hsg' : sg = '-' ∨ sg = '+' := by simpa [byteAt] using hsg
  subst hc0
  obtain ⟨da, db, ehr⟩ := parseUint_two_inv a b 0 23 _ rfl ok1
  obtain ⟨dc, dd, emm⟩ := parseUint_two_inv c d 0 59 _ rfl ok2
  simp only [Option.some.injEq] at h
  subst h
  refine ⟨sg, a, b, c, d, rfl, hsg'.symm, da, db, dc, dd, ?_, rfl, rfl⟩
  simp only [byteAt, List.getD_cons_zero, ehr, emm]
  split <;> ring

/-- What the second half of the fast path yields: after an optional
fraction it reads a suffix of the string to its end, as `Z` or as a numeric
zone. -/
theorem parseRFC3339Rest_some (y m d hh mi sc : Int) (s : List Char) (t : Time)
    (h : parseRFC3339Rest y m d hh mi sc s = some t) :
    ∃ zv nsec, zv <:+ s ∧
      ((zv = ['Z'] ∧ t = Date y m d hh mi sc nsec) ∨
       parseRFC3339Zone (Date y m d hh mi sc nsec) zv = some t) := by
  unfold parseRFC3339Rest at h
  simp only at h
  by_cases hf : (decide (s.length ≥ 2) && (byteAt s 0 == '.') && isDigit s 1) = true
  · simp only [hf, if_true] at h
    refine ⟨_, (parseNanoseconds s (scanDigits (s.drop 2) 2)).1,
      List.drop_suffix (scanDigits (s.drop 2) 2) s, ?_⟩
    split at h
    · exact Or.inr h
    · rename_i hZ
      simp only [not_or, not_not] at hZ
      obtain ⟨hl, hb⟩ := hZ
      left
      obtain ⟨c, hc⟩ := List.length_eq_one.mp hl
      rw [hc] at hb
      simp only [byteAt, List.getD_cons_zero] at hb
      simp only [Option.some.injEq] at h
      exact ⟨by rw [hc, hb], h.symm⟩
  · rw [Bool.not_eq_true] at hf
    simp only [hf, Bool.false_eq_true, if_false] at h
    refine ⟨_, 0, List.suffix_refl s, ?_⟩
    split at h
    · exact Or.inr h
    · rename_i hZ
      simp only [not_or, not_not] at hZ
      obtain ⟨hl, hb⟩ := hZ
      left
      obtain ⟨c, hc⟩ := List.length_eq_one.mp hl
      rw [hc] at hb
      simp only [byteAt, List.getD_cons_zero] at hb
      simp only [Option.some.injEq] at h
      exact ⟨by rw [hc, hb], h.symm⟩

/-- A successful fast path went through its second half. -/
theorem parseRFC3339_some (s : List Char) (t : Time) (h : parseRFC3339 s = some t) :
    ∃ y m d hh mi sc, parseRFC3339Rest y m d hh mi sc (s.drop 19) = some t := by
  unfold parseRFC3339 at h
  split at h
  · contradiction
  simp only at h
  split at h
  · contradiction
  exact ⟨_, _, _, _, _, _, h⟩

/-- The fast path: a parsed time with offset zero comes from a string that
ends in `Z`, `+00:00` or `-00:00`. -/
theorem parseRFC3339_zero_suffix (s : List Char) (t : Time) (h : parseRFC3339 s = some t)
    (h0 : t.offset = 0) : endsInZeroZone s := by
  obtain ⟨y, m, d, hh, mi, sc, hr⟩ := parseRFC3339_some s t h
  obtain ⟨zv, nsec, hsuf', hz⟩ := parseRFC3339Rest_some _ _ _ _ _ _ _ _ hr
  have hsuf : zv <:+ s := hsuf'.trans (List.drop_suffix _ _)
  rcases hz with ⟨hZ, _⟩ | hz
  · left; rw [← hZ]; exact hsuf
  · obtain ⟨sg, a, b, c, d, e, hs, ha, hb, hc, hd, hoff, _, _⟩ := parseRFC3339Zone_some _ _ _ hz
    rcases zero_zone_of_numeric sg a b c d hs ha hb hc hd (by rw [← hoff]; exact h0) with e' | e'
    · right; left; rw [← e', ← e]; exact hsuf
    · right; right; rw [← e', ← e]; exact hsuf

/-- Go `time.Parse` with layout RFC3339 yields offset zero only for a string
that ends in `Z`, `+00:00` or `-00:00`. -/
theorem Parse_zero_suffix (s : String) (t : Time) (h : Parse s = some t) (h0 : t.offset = 0) :
    endsInZeroZone s.toList := by
  unfold Parse at h
  split at h
  · rename_i t' ht
    simp only [Option.some.injEq] at h
    subst h
    exact parseRFC3339_zero_suffix _ _ ht h0
  · exact parse_zero_suffix _ _ h h0

theorem daysIn_le (m y : Int) (h1 : 1 ≤ m) (h2 : m ≤ 12) : daysIn m y ≤ 31 := by
  obtain ⟨k, rfl⟩ : ∃ k : Nat, m = k := ⟨m.toNat, by omega⟩
  have hk1 : 1 ≤ k := by omega
  have hk2 : k ≤ 12 := by omega
  unfold daysIn
  split
  · omega
  · interval_cases k <;> decide

theorem abs_utc (t : Time) (h0 : -62167219200 ≤ t.sec) (h1 : t.sec ≤ 253402300799) :
    9223371966548102400 ≤ t.UTC.abs ∧ t.UTC.abs ≤ 9223372282117622399 ∧
    i64 (i64 (t.UTC.abs : Int) - unixToAbsolute) = t.sec := by
  simp only [Time.abs, Time.UTC, u64, i64, unixToAbsolute]
  omega

theorem format_utc_stamp (t : Time) (h0 : -62167219200 ≤ t.sec) (h1 : t.sec ≤ 253402300799) :
    appendFormatRFC3339 t.UTC [] = stampOf t.UTC ++ ['Z'] := by
  obtain ⟨a0, a1, _⟩ := abs_utc t h0 h1
  obtain ⟨y0, y1, m0, m1, d0, d1, _⟩ := absDate_spec _ a0 a1
  obtain ⟨c0, c1, c2, c3, c4, c5, _⟩ := absClock_spec t.UTC.abs
  have dl := daysIn_le _ (absDate t.UTC.abs).1 m0 m1
  unfold appendFormatRFC3339
  have ho : t.UTC.offset = 0 := rfl
  simp only [ho, if_true]
  have e1 := fun b => appendInt_four b _ y0 (show (absDate t.UTC.abs).1 < 10000 by omega)
  have e2 := fun b => appendInt_two b _ (show 0 ≤ (absDate t.UTC.abs).2.1 by omega)
    (show (absDate t.UTC.abs).2.1 < 100 by omega)
  have e3 := fun b => appendInt_two b _ (show 0 ≤ (absDate t.UTC.abs).2.2 by omega)
    (show (absDate t.UTC.abs).2.2 < 100 by omega)
  have e4 := fun b => appendInt_two b _ c0 (show (absClock t.UTC.abs).1 < 100 by omega)
  have e5 := fun b => appendInt_two b _ c2 (show (absClock t.UTC.abs).2.1 < 100 by omega)
  have e6 := fun b => appendInt_two b _ c4 (show (absClock t.UTC.abs).2.2 < 100 by omega)
  rw [e1, e2, e3, e4, e5, e6]
  simp [stampOf, stamp]

/-- The fast path on the date and time printed for a UTC time of the years
0 to 9999: it reads back the fields and goes on with what follows. -/
theorem parseRFC3339_stampOf (t : Time) (h0 : -62167219200 ≤ t.sec) (h1 : t.sec ≤ 253402300799)
    (rest : List Char) :
    parseRFC3339 (stampOf t.UTC ++ rest) =
      parseRFC3339Rest (absDate t.UTC.abs).1 (absDate t.UTC.abs).2.1 (absDate t.UTC.abs).2.2
        (absClock t.UTC.abs).1 (absClock t.UTC.abs).2.1 (absClock t.UTC.abs).2.2 rest := by
  obtain ⟨a0, a1, _⟩ := abs_utc t h0 h1
  obtain ⟨y0, y1, m0, m1, d0, d1, _⟩ := absDate_spec _ a0 a1
  obtain ⟨c0, c1, c2, c3, c4, c5, _⟩ := absClock_spec t.UTC.abs
  have dl := daysIn_le _ (absDate t.UTC.abs).1 m0 m1
  exact parseRFC3339_stamp _ _ _ _ _ _ rest y0 y1 m0 m1 d0 d1 (by omega) c0 c1 c2 c3 c4 c5

/-- Go `Date` on the fields printed for a UTC time of the years 0 to 9999
gives back the instant. -/
theorem Date_civil (t : Time) (h0 : -62167219200 ≤ t.sec) (h1 : t.sec ≤ 253402300799)
    (ns : Int) (hns0 : 0 ≤ ns) (hns1 : ns < 1000000000) :
    Date (absDate t.UTC.abs).1 (absDate t.UTC.abs).2.1 (absDate t.UTC.abs).2.2
        (absClock t.UTC.abs).1 (absClock t.UTC.abs).2.1 (absClock t.UTC.abs).2.2 ns =
      { sec := t.sec, nsec := ns, offset := 0 } := by
  obtain ⟨a0, a1, a2⟩ := abs_utc t h0 h1
  obtain ⟨y0, y1, m0, m1, d0, d1, dsum⟩ := absDate_spec _ a0 a1
  obtain ⟨c0, c1, c2, c3, c4, c5, csum⟩ := absClock_spec t.UTC.abs
  rw [Date_of_fields _ _ _ _ _ _ ns t.UTC.abs m0 m1 d0 c0 c1 c2 c3 c4 c5 hns0 hns1 (by omega)
    dsum csum, a2]

theorem scanDigits_append (l r : List Char) (n : Nat) (hl : ∀ c ∈ l, isDigitByte c = true)
    (hr : ∀ c r', r = c :: r' → isDigitByte c = false) :
    scanDigits (l ++ r) n = n + l.length := by
  induction l generalizing n with
  | nil =>
    cases r with
    | nil => simp [scanDigits]
    | cons c r' => simp [scanDigits, hr c r' rfl]
  | cons a l ih =>
    have ha : isDigitByte a = true := hl a (List.mem_cons_self _ _)
    simp only [List.cons_append, scanDigits, ha, if_true]
    show scanDigits (l ++ r) (n + 1) = _
    rw [ih (n + 1) (fun c hc => hl c (List.mem_cons_of_mem _ hc))]
    simp only [List.length_cons]
    omega

theorem parseRFC3339Rest_Z (y m d h mi s : Int) :
    parseRFC3339Rest y m d h mi s ['Z'] = some (Date y m d h mi s 0) := by
  simp [parseRFC3339Rest, byteAt, isDigit]

theorem parseRFC3339Rest_zero (y m d h mi s : Int) (sg : Char) (hsg : sg = '+' ∨ sg = '-') :
    parseRFC3339Rest y m d h mi s [sg, '0', '0', ':', '0', '0'] = some (Date y m d h mi s 0) := by
  have hp : parseUint ['0', '0'] 0 23 = (0, true) := by decide
  have hq : parseUint ['0', '0'] 0 59 = (0, true) := by decide
  have hd : isDigitByte '0' = true := by decide
  rcases hsg with rfl | rfl <;>
    simp [parseRFC3339Rest, parseRFC3339Zone, byteAt, isDigit, slice, hp, hq, hd, Date_offset] <;>
    rfl

theorem parseRFC3339Rest_fraction (y m d h mi s : Int) (c : Char) (ds : List Char)
    (hc : isDigitByte c = true) (hds : ∀ x ∈ ds, isDigitByte x = true) :
    ∃ nsec, parseRFC3339Rest y m d h mi s ('.' :: c :: ds ++ ['Z']) = some (Date y m d h mi s nsec) := by
  have hz : ∀ x r', ['Z'] = x :: r' → isDigitByte x = false := by
    intro x r' hx
    simp only [List.cons.injEq] at hx
    rw [← hx.1]; decide
  have hscan := scanDigits_append ds ['Z'] 2 hds hz
  have hdrop : List.drop (2 + ds.length) ('.' :: c :: ds ++ ['Z']) = ['Z'] := by
    rw [Nat.add_comm]
    simp [List.drop_append]
  have hf : (decide (('.' :: c :: ds ++ ['Z']).length ≥ 2) && (byteAt ('.' :: c :: ds ++ ['Z']) 0 == '.')
      && isDigit ('.' :: c :: ds ++ ['Z']) 1) = true := by
    simp [byteAt, isDigit, hc]
  have hd2 : List.drop 2 ('.' :: c :: ds ++ ['Z']) = ds ++ ['Z'] := by simp
  refine ⟨(parseNanoseconds ('.' :: c :: ds ++ ['Z']) (2 + ds.length)).1, ?_⟩
  unfold parseRFC3339Rest
  simp only [hf, if_true, hd2, hscan, hdrop]
  simp [byteAt]

theorem errorfUTC_eq :
    errorfUTC = "should be an RFC3339 string in UTC, e.g., \"2222-01-01T00:00:00Z\"" := by
  decide

theorem errorfUTC_ne_empty : errorfUTC ≠ "" := by decide

theorem parseTime_of_none (s : String) (h : Parse s = none) :
    parseTime s = Except.error errorfUTC := by
  simp [parseTime, h]

theorem parseTime_of_nonzero (s : String) (t : Time) (h : Parse s = some t) (h0 : t.offset ≠ 0) :
    parseTime s = Except.error errorfUTC := by
  have hne : t.UTC.Format ≠ t.Format := fun he => h0 ((format_utc_eq_iff t).mp he)
  simp [parseTime, h, hne]

theorem parseTime_of_zero (s : String) (t : Time) (h : Parse s = some t) (h0 : t.offset = 0) :
    parseTime s = Except.ok t.UTC := by
  have he : t.UTC.Format = t.Format := (format_utc_eq_iff t).mpr h0
  simp [parseTime, h, he]

theorem parseTime_error_eq (s e : String) (h : parseTime s = Except.error e) : e = errorfUTC := by
  unfold parseTime at h
  split at h
  · simp only [Except.error.injEq] at h; exact h.symm
  · split at h
    · simp only [Except.error.injEq] at h; exact h.symm
    · simp at h

theorem parseTime_ok_inv (s : String) (u : Time) (h : parseTime s = Except.ok u) :
    ∃ t, Parse s = some t ∧ t.offset = 0 ∧ u = t.UTC := by
  unfold parseTime at h
  split at h
  · simp at h
  · rename_i t ht
    split at h
    · simp at h
    · rename_i hf
      simp only [Except.ok.injEq] at h
      exact ⟨t, ht, (format_utc_eq_iff t).mp (not_not.mp hf), h.symm⟩

theorem validate_known_ok (v : timeValidator) (path : AttributePath) (s : String)
    (response : StringResponse) (t : Time) (h : parseTime s = Except.ok t) :
    v.ValidateString ⟨path, ⟨ValueState.known, s⟩⟩ response = (v, response) := by
  simp [timeValidator.ValidateString, ValidateStringWith, StringValue.IsNull,
    StringValue.IsUnknown, StringValue.ValueString, h]

theorem validate_known_error (v : timeValidator) (path : AttributePath) (s : String)
    (response : StringResponse) (e : String) (h : parseTime s = Except.error e) :
    v.ValidateString ⟨path, ⟨ValueState.known, s⟩⟩ response =
      ({ message := e }, { Diagnostics := response.Diagnostics ++ [⟨path, e, s⟩] }) := by
  have he := parseTime_error_eq s e h
  subst he
  simp [timeValidator.ValidateString, ValidateStringWith, StringValue.IsNull,
    StringValue.IsUnknown, StringValue.ValueString, h, timeValidator.Description,
    errorfUTC_ne_empty]

/-- A string ending in a numeric zone whose digits are not all zero does not
end in a zero zone. -/
theorem not_endsInZeroZone (pre : List Char) (sg a b c d : Char)
    (hd : isDigitByte d = true) (hnz : ¬ (a = '0' ∧ b = '0' ∧ c = '0' ∧ d = '0')) :
    ¬ endsInZeroZone (pre ++ [sg, a, b, ':', c, d]) := by
  have hsuf : [sg, a, b, ':', c, d] <:+ pre ++ [sg, a, b, ':', c, d] := List.suffix_append _ _
  have hdZ : d ≠ 'Z' := by
    intro h; rw [h] at hd; revert hd; decide
  rintro (h | h | h)
  · have h1 : ['Z'] <:+ [sg, a, b, ':', c, d] :=
      List.suffix_of_suffix_length_le h hsuf (by simp)
    obtain ⟨l, hl⟩ := h1
    have := congrArg List.getLast? hl
    simp at this
    exact hdZ this.symm
  · have h1 := List.IsSuffix.eq_of_length
      (List.suffix_of_suffix_length_le h hsuf (by simp)) (by simp)
    simp only [List.cons.injEq] at h1
    exact hnz ⟨h1.2.1.symm, h1.2.2.1.symm, h1.2.2.2.2.1.symm, h1.2.2.2.2.2.1.symm⟩
  · have h1 := List.IsSuffix.eq_of_length
      (List.suffix_of_suffix_length_le h hsuf (by simp)) (by simp)
    simp only [List.cons.injEq] at h1
    exact hnz ⟨h1.2.1.symm, h1.2.2.1.symm, h1.2.2.2.2.1.symm, h1.2.2.2.2.2.1.symm⟩

theorem parseTime_nonzero_zone (pre : List Char) (sg a b c d : Char)
    (hd : isDigitByte d = true) (hnz : ¬ (a = '0' ∧ b = '0' ∧ c = '0' ∧ d = '0')) :
    parseTime (String.mk (pre ++ [sg, a, b, ':', c, d])) = Except.error errorfUTC := by
  cases hp : Parse (String.mk (pre ++ [sg, a, b, ':', c, d])) with
  | none => exact parseTime_of_none _ hp
  | some t =>
    refine parseTime_of_nonzero _ t hp ?_
    intro h0
    exact not_endsInZeroZone pre sg a b c d hd hnz (Parse_zero_suffix _ t hp h0)

theorem getnum_cons2 (a b : Char) (r : List Char) (fixed : Bool) (ha : isDigitByte a = true)
    (hb : isDigitByte b = true) :
    getnum (a :: b :: r) fixed = some (digitVal a * 10 + digitVal b, r) := by
  simp [getnum, isDigit, byteAt, ha, hb]

theorem atoi_four (a b c d : Char) (ha : isDigitByte a = true)
    (hb : isDigitByte b = true) (hc : isDigitByte c = true) (hd : isDigitByte d = true) :
    atoi [a, b, c, d] =
      some (((digitVal a * 10 + digitVal b) * 10 + digitVal c) * 10 + digitVal d) := by
  have h1 : a ≠ '-' := by
    intro h; rw [h] at ha; revert ha; decide
  have h2 : a ≠ '+' := by
    intro h; rw [h] at ha; revert ha; decide
  simp [atoi, h1, h2, leadingInt_four a b c d ha hb hc hd, digitVal]

/-- The fast path declines a string of RFC3339 shape with a field out of range. -/
theorem parseRFC3339_out_of_range (y0 y1 y2 y3 m0 m1 d0 d1 h0 h1 n0 n1 s0 s1 : Char)
    (rest : List Char)
    (hy0 : isDigitByte y0 = true) (hy1 : isDigitByte y1 = true) (hy2 : isDigitByte y2 = true)
    (hy3 : isDigitByte y3 = true) (hm0 : isDigitByte m0 = true) (hm1 : isDigitByte m1 = true)
    (hd0 : isDigitByte d0 = true) (hd1 : isDigitByte d1 = true) (hh0 : isDigitByte h0 = true)
    (hh1 : isDigitByte h1 = true) (hn0 : isDigitByte n0 = true) (hn1 : isDigitByte n1 = true)
    (hs0 : isDigitByte s0 = true) (hs1 : isDigitByte s1 = true)
    (hout : digitVal m0 * 10 + digitVal m1 < 1 ∨ 12 < digitVal m0 * 10 + digitVal m1 ∨
      digitVal d0 * 10 + digitVal d1 < 1 ∨
      daysIn (digitVal m0 * 10 + digitVal m1)
        (((digitVal y0 * 10 + digitVal y1) * 10 + digitVal y2) * 10 + digitVal y3) <
        digitVal d0 * 10 + digitVal d1 ∨
      23 < digitVal h0 * 10 + digitVal h1 ∨ 59 < digitVal n0 * 10 + digitVal n1 ∨
      59 < digitVal s0 * 10 + digitVal s1) :
    parseRFC3339 ([y0, y1, y2, y3, '-', m0, m1, '-', d0, d1, 'T', h0, h1, ':', n0, n1, ':', s0, s1]
      ++ rest) = none := by
  have py := parseUint_four y0 y1 y2 y3 hy0 hy1 hy2 hy3
  have pm := parseUint_two m0 m1 1 12 hm0 hm1
  have ph := parseUint_two h0 h1 0 23 hh0 hh1
  have pn := parseUint_two n0 n1 0 59 hn0 hn1
  have ps := parseUint_two s0 s1 0 59 hs0 hs1
  have pd := fun hi => parseUint_two d0 d1 1 hi hd0 hd1
  have e1 : slice ([y0, y1, y2, y3, '-', m0, m1, '-', d0, d1, 'T', h0, h1, ':', n0, n1, ':', s0, s1]
      ++ rest) 0 4 = [y0, y1, y2, y3] := by simp [slice]
  have e2 : slice ([y0, y1, y2, y3, '-', m0, m1, '-', d0, d1, 'T', h0, h1, ':', n0, n1, ':', s0, s1]
      ++ rest) 5 7 = [m0, m1] := by simp [slice]
  have e3 : slice ([y0, y1, y2, y3, '-', m0, m1, '-', d0, d1, 'T', h0, h1, ':', n0, n1, ':', s0, s1]
      ++ rest) 8 10 = [d0, d1] := by simp [slice]
  have e4 : slice ([y0, y1, y2, y3, '-', m0, m1, '-', d0, d1, 'T', h0, h1, ':', n0, n1, ':', s0, s1]
      ++ rest) 11 13 = [h0, h1] := by simp [slice]
  have e5 : slice ([y0, y1, y2, y3, '-', m0, m1, '-', d0, d1, 'T', h0, h1, ':', n0, n1, ':', s0, s1]
      ++ rest) 14 16 = [n0, n1] := by simp [slice]
  have e6 : slice ([y0, y1, y2, y3, '-', m0, m1, '-', d0, d1, 'T', h0, h1, ':', n0, n1, ':', s0, s1]
      ++ rest) 17 19 = [s0, s1] := by simp [slice]
  unfold parseRFC3339
  rw [if_neg (by simp)]
  simp only [e1, e2, e3, e4, e5, e6]
  apply if_pos
  left
  have nh := digitVal_nonneg h0
  have nh' := digitVal_nonneg h1
  have nn := digitVal_nonneg n0
  have nn' := digitVal_nonneg n1
  have ns := digitVal_nonneg s0
  have ns' := digitVal_nonneg s1
  by_cases hm : digitVal m0 * 10 + digitVal m1 < 1 ∨ 12 < digitVal m0 * 10 + digitVal m1
  · have : (parseUint [m0, m1] 1 12).2 = false := by rw [pm, if_pos hm]
    simp [this]
  · have hm1 : (parseUint [m0, m1] 1 12).1 = digitVal m0 * 10 + digitVal m1 := by
      rw [pm, if_neg hm]
    rw [hm1, py]
    rcases hout with h | h | h | h | h | h | h
    · exact absurd (Or.inl h) hm
    · exact absurd (Or.inr h) hm
    · have : (parseUint [d0, d1] 1 (daysIn (digitVal m0 * 10 + digitVal m1)
          (((digitVal y0 * 10 + digitVal y1) * 10 + digitVal y2) * 10 + digitVal y3))).2 = false := by
        rw [pd, if_pos (Or.inl h)]
      simp [this]
    · have : (parseUint [d0, d1] 1 (daysIn (digitVal m0 * 10 + digitVal m1)
          (((digitVal y0 * 10 + digitVal y1) * 10 + digitVal y2) * 10 + digitVal y3))).2 = false := by
        rw [pd, if_pos (Or.inr h)]
      simp [this]
    · have : (parseUint [h0, h1] 0 23).2 = false := by rw [ph, if_pos (Or.inr h)]
      simp [this]
    · have : (parseUint [n0, n1] 0 59).2 = false := by rw [pn, if_pos (Or.inr h)]
      simp [this]
    · have : (parseUint [s0, s1] 0 59).2 = false := by rw [ps, if_pos (Or.inr h)]
      simp [this]

theorem skip_one (c : Char) (r : List Char) : skip (c :: r) [c] = some r := by
  cases r <;> simp [skip]

set_option maxHeartbeats 1000000 in
/-- The general parser rejects a string of RFC3339 shape with a field out of range. -/
theorem parse_out_of_range (y0 y1 y2 y3 m0 m1 d0 d1 h0 h1 n0 n1 s0 s1 : Char)
    (rest : List Char)
    (hy0 : isDigitByte y0 = true) (hy1 : isDigitByte y1 = true) (hy2 : isDigitByte y2 = true)
    (hy3 : isDigitByte y3 = true) (hm0 : isDigitByte m0 = true) (hm1 : isDigitByte m1 = true)
    (hd0 : isDigitByte d0 = true) (hd1 : isDigitByte d1 = true) (hh0 : isDigitByte h0 = true)
    (hh1 : isDigitByte h1 = true) (hn0 : isDigitByte n0 = true) (hn1 : isDigitByte n1 = true)
    (hs0 : isDigitByte s0 = true) (hs1 : isDigitByte s1 = true)
    (hout : digitVal m0 * 10 + digitVal m1 < 1 ∨ 12 < digitVal m0 * 10 + digitVal m1 ∨
      digitVal d0 * 10 + digitVal d1 < 1 ∨
      daysIn (digitVal m0 * 10 + digitVal m1)
        (((digitVal y0 * 10 + digitVal y1) * 10 + digitVal y2) * 10 + digitVal y3) <
        digitVal d0 * 10 + digitVal d1 ∨
      23 < digitVal h0 * 10 + digitVal h1 ∨ 59 < digitVal n0 * 10 + digitVal n1 ∨
      59 < digitVal s0 * 10 + digitVal s1) :
    parse ([y0, y1, y2, y3, '-', m0, m1, '-', d0, d1, 'T', h0, h1, ':', n0, n1, ':', s0, s1]
      ++ rest) = none := by
  have e1 : slice ([y0, y1, y2, y3, '-', m0, m1, '-', d0, d1, 'T', h0, h1, ':', n0, n1, ':', s0, s1]
      ++ rest) 0 4 = [y0, y1, y2, y3] := by simp [slice]
  have e0 : ¬ (([y0, y1, y2, y3, '-', m0, m1, '-', d0, d1, 'T', h0, h1, ':', n0, n1, ':', s0, s1]
      ++ rest).length < 4 ∨ isDigit ([y0, y1, y2, y3, '-', m0, m1, '-', d0, d1, 'T', h0, h1, ':',
      n0, n1, ':', s0, s1] ++ rest) 0 = false) := by
    simp [isDigit, hy0]
  have e2 : List.drop 4 ([y0, y1, y2, y3, '-', m0, m1, '-', d0, d1, 'T', h0, h1, ':', n0, n1, ':',
      s0, s1] ++ rest) = '-' :: m0 :: m1 :: '-' :: d0 :: d1 :: 'T' :: h0 :: h1 :: ':' :: n0 :: n1 ::
      ':' :: s0 :: s1 :: rest := by simp
  unfold parse
  rw [if_neg e0, e1, atoi_four y0 y1 y2 y3 hy0 hy1 hy2 hy3, e2]
  simp only [skip_one, getnum_cons2 _ _ _ _ hm0 hm1, getnum_cons2 _ _ _ _ hd0 hd1,
    getnum_cons2 _ _ _ _ hh0 hh1, getnum_cons2 _ _ _ _ hn0 hn1, getnum_cons2 _ _ _ _ hs0 hs1]
  repeat' split
  all_goals first
    | rfl
    | (exfalso; omega)

theorem Parse_of_fast (l : List Char) (t : Time) (h : parseRFC3339 l = some t) :
    Parse (String.mk l) = some t := by
  simp [Parse, h]

/-- The canonical rendering of a UTC time of the years 0 to 9999 is the
stamp followed by `Z`. -/
theorem Format_utc (t : Time) (h0 : -62167219200 ≤ t.sec) (h1 : t.sec ≤ 253402300799) :
    t.UTC.Format = String.mk (stampOf t.UTC ++ ['Z']) := by
  unfold Time.Format
  rw [format_utc_stamp t h0 h1]

theorem Format_utc_dropLast (t : Time) (h0 : -62167219200 ≤ t.sec) (h1 : t.sec ≤ 253402300799) :
    t.UTC.Format.toList.dropLast = stampOf t.UTC := by
  rw [Format_utc t h0 h1]
  simp

/-! ## The claims -/

/-- C1. For a Null or Unknown value, whatever the candidate string and the
state of the validator, `ValidateString` returns at once: the response and
the validator come back unchanged, so no diagnostic is appended.  That no
parse is attempted shows in the result not depending on the parse function:
the same holds with any function in the place of `parseTime`. -/
theorem validate_null_unknown_valid (parseFn : String → Except String Time) (v : timeValidator)
    (path : AttributePath) (state : ValueState) (candidate : String) (response : StringResponse)
    (h : state = ValueState.null ∨ state = ValueState.unknown) :
    ValidateStringWith parseFn v ⟨path, ⟨state, candidate⟩⟩ response = (v, response) ∧
    v.ValidateString ⟨path, ⟨state, candidate⟩⟩ response = (v, response) := by
  rcases h with rfl | rfl <;>
    simp [timeValidator.ValidateString, ValidateStringWith, StringValue.IsNull,
      StringValue.IsUnknown]

theorem validate_null_unknown_valid_witness :
    (ValueState.null = ValueState.null ∨ ValueState.null = ValueState.unknown) ∧
    ValidateStringWith (fun _ => Except.error "never called") ⟨"stale"⟩
      ⟨⟨["end_time"]⟩, ⟨ValueState.null, "not-a-time"⟩⟩ ⟨[]⟩ = (⟨"stale"⟩, ⟨[]⟩) :=
  ⟨Or.inl rfl, (validate_null_unknown_valid (fun _ => Except.error "never called") ⟨"stale"⟩
    ⟨["end_time"]⟩ ValueState.null "not-a-time" ⟨[]⟩ (Or.inl rfl)).1⟩

/-- C2. A Known candidate that ends in a numeric offset `±HH:MM` other than
`00:00` is rejected: `parseTime` returns its error and `ValidateString`
appends the diagnostic.  Nothing is asked of the part before the offset, so
every well-formed RFC3339 timestamp with a non-zero offset is covered. -/
theorem nonzero_offset_invalid (pre : List Char) (sg a b c d : Char)
    (_hsg : sg = '+' ∨ sg = '-')
    (_ha : isDigitByte a = true) (_hb : isDigitByte b = true) (_hc : isDigitByte c = true)
    (hd : isDigitByte d = true) (hnz : ¬ (a = '0' ∧ b = '0' ∧ c = '0' ∧ d = '0'))
    (v : timeValidator) (path : AttributePath) (response : StringResponse) :
    parseTime (String.mk (pre ++ [sg, a, b, ':', c, d])) = Except.error errorfUTC ∧
    v.ValidateString ⟨path, ⟨ValueState.known, String.mk (pre ++ [sg, a, b, ':', c, d])⟩⟩ response =
      ({ message := errorfUTC },
       { Diagnostics := response.Diagnostics ++
          [⟨path, errorfUTC, String.mk (pre ++ [sg, a, b, ':', c, d])⟩] }) := by
  have h := parseTime_nonzero_zone pre sg a b c d hd hnz
  exact ⟨h, validate_known_error v path _ response errorfUTC h⟩

theorem nonzero_offset_invalid_witness :
    parseTime "2024-01-01T00:00:00+02:00" = Except.error errorfUTC ∧
    (NewTimeValidator.ValidateString ⟨⟨["end_time"]⟩,
      ⟨ValueState.known, "2024-01-01T00:00:00+02:00"⟩⟩ ⟨[]⟩).2.Diagnostics =
      [⟨⟨["end_time"]⟩, errorfUTC, "2024-01-01T00:00:00+02:00"⟩] := by
  have h := nonzero_offset_invalid "2024-01-01T00:00:00".toList '+' '0' '2' '0' '0' (Or.inl rfl)
    (by decide) (by decide) (by decide) (by decide) (by decide) NewTimeValidator
    ⟨["end_time"]⟩ ⟨[]⟩
  exact ⟨h.1, congrArg (fun p => p.2.Diagnostics) h.2⟩

/-- C3. Round trip: the canonical UTC RFC3339 rendering `s` of an instant of
the years 0000 to 9999 (the instants RFC3339 can write) is accepted by
`ValidateString`, `parseTime s` succeeds, and formatting the time it returns
as UTC RFC3339 gives `s` again. -/
theorem canonical_utc_round_trip (t0 : Time) (h0 : -62167219200 ≤ t0.sec)
    (h1 : t0.sec ≤ 253402300799) (v : timeValidator) (path : AttributePath)
    (response : StringResponse) :
    v.ValidateString ⟨path, ⟨ValueState.known, t0.UTC.Format⟩⟩ response = (v, response) ∧
    ∃ t, parseTime t0.UTC.Format = Except.ok t ∧ t.UTC.Format = t0.UTC.Format := by
  have hp : Parse t0.UTC.Format = some { sec := t0.sec, nsec := 0, offset := 0 } := by
    rw [Format_utc t0 h0 h1]
    apply Parse_of_fast
    rw [parseRFC3339_stampOf t0 h0 h1, parseRFC3339Rest_Z,
      Date_civil t0 h0 h1 0 (by norm_num) (by norm_num)]
  have hok := parseTime_of_zero _ _ hp rfl
  exact ⟨validate_known_ok v path _ response _ hok, _, hok, rfl⟩

theorem canonical_utc_round_trip_witness :
    (⟨1704067200, 0, 0⟩ : Time).UTC.Format = "2024-01-01T00:00:00Z" ∧
    (NewTimeValidator.ValidateString ⟨⟨["end_time"]⟩,
      ⟨ValueState.known, (⟨1704067200, 0, 0⟩ : Time).UTC.Format⟩⟩ ⟨[]⟩ =
        (NewTimeValidator, ⟨[]⟩) ∧
     ∃ t, parseTime (⟨1704067200, 0, 0⟩ : Time).UTC.Format = Except.ok t ∧
       t.UTC.Format = (⟨1704067200, 0, 0⟩ : Time).UTC.Format) :=
  ⟨by decide, canonical_utc_round_trip ⟨1704067200, 0, 0⟩ (by decide) (by decide)
    NewTimeValidator ⟨["end_time"]⟩ ⟨[]⟩⟩

/-- C4. For a Known candidate, `ValidateString` appends exactly one
diagnostic when `parseTime` fails and none when it succeeds.  The diagnostic
carries the path of the request, the failure reason of `parseTime` as its
description (which is what `Description` returns once the message is
updated, and is not the default text), and the candidate as the value. -/
theorem known_diagnostic (v : timeValidator) (path : AttributePath) (candidate : String)
    (response : StringResponse) :
    (∀ e, parseTime candidate = Except.error e →
      (v.ValidateString ⟨path, ⟨ValueState.known, candidate⟩⟩ response).2.Diagnostics =
        response.Diagnostics ++ [{ path := path, description := e, value := candidate }] ∧
      (v.ValidateString ⟨path, ⟨ValueState.known, candidate⟩⟩ response).1.Description = e ∧
      e ≠ "value must be an RFC3339 time string") ∧
    (∀ t, parseTime candidate = Except.ok t →
      (v.ValidateString ⟨path, ⟨ValueState.known, candidate⟩⟩ response).2.Diagnostics =
        response.Diagnostics) := by
  constructor
  · intro e he
    rw [validate_known_error v path candidate response e he]
    have hee := parseTime_error_eq candidate e he
    subst hee
    refine ⟨rfl, ?_, by decide⟩
    simp [timeValidator.Description, errorfUTC_ne_empty]
  · intro t ht
    rw [validate_known_ok v path candidate response t ht]

theorem known_diagnostic_witness :
    (NewTimeValidator.ValidateString ⟨⟨["end_time"]⟩, ⟨ValueState.known, "not-a-time"⟩⟩
        ⟨[]⟩).2.Diagnostics = [⟨⟨["end_time"]⟩, errorfUTC, "not-a-time"⟩] ∧
    (NewTimeValidator.ValidateString ⟨⟨["end_time"]⟩,
        ⟨ValueState.known, "2024-01-01T00:00:00Z"⟩⟩ ⟨[]⟩).2.Diagnostics = [] :=
  ⟨((known_diagnostic NewTimeValidator ⟨["end_time"]⟩ "not-a-time" ⟨[]⟩).1 errorfUTC
      (by rfl)).1,
   (known_diagnostic NewTimeValidator ⟨["end_time"]⟩ "2024-01-01T00:00:00Z" ⟨[]⟩).2
      ⟨1704067200, 0, 0⟩ (by rfl)⟩

/-- C5. Whenever `parseTime` fails, be it on a string that does not parse or
on one that parses with a non-UTC offset, its error text is the one message
`should be an RFC3339 string in UTC, e.g., "2222-01-01T00:00:00Z"`, which
contains the example `2222-01-01T00:00:00Z`. -/
theorem parseTime_error_text (s e : String) (h : parseTime s = Except.error e) :
    e = "should be an RFC3339 string in UTC, e.g., \"2222-01-01T00:00:00Z\"" ∧
    "2222-01-01T00:00:00Z".toList <:+: e.toList := by
  have he := parseTime_error_eq s e h
  subst he
  exact ⟨by decide, by decide⟩

theorem parseTime_error_text_witness :
    (parseTime "not-a-time" = Except.error errorfUTC ∧
     parseTime "2024-01-01T00:00:00+02:00" = Except.error errorfUTC) ∧
    errorfUTC = "should be an RFC3339 string in UTC, e.g., \"2222-01-01T00:00:00Z\"" ∧
    "2222-01-01T00:00:00Z".toList <:+: errorfUTC.toList :=
  ⟨⟨by rfl, by rfl⟩, parseTime_error_text "not-a-time" errorfUTC (by rfl)⟩

/-- C6. `ValidateString` accepts the Known candidate `2024-01-01T1:00:00Z`,
whose hour has one digit and which therefore is outside the grammar
`YYYY-MM-DDTHH:MM:SS[.fraction](Z|±HH:MM)`: the fast path declines it and the
general parser of `time.Parse` reads the hour with `getnum(value, false)`.
The same holds with a comma before the fraction.  The candidate
`2024-01-01 00:00:00` is rejected. -/
theorem one_digit_hour_accepted :
    specRFC3339Grammar "2024-01-01T1:00:00Z".toList = false ∧
    parseTime "2024-01-01T1:00:00Z" = Except.ok ⟨1704070800, 0, 0⟩ ∧
    (NewTimeValidator.ValidateString ⟨⟨["end_time"]⟩,
      ⟨ValueState.known, "2024-01-01T1:00:00Z"⟩⟩ ⟨[]⟩).2.Diagnostics = [] ∧
    specRFC3339Grammar "2024-01-01T00:00:00,5Z".toList = false ∧
    (NewTimeValidator.ValidateString ⟨⟨["end_time"]⟩,
      ⟨ValueState.known, "2024-01-01T00:00:00,5Z"⟩⟩ ⟨[]⟩).2.Diagnostics = [] ∧
    (NewTimeValidator.ValidateString ⟨⟨["end_time"]⟩,
      ⟨ValueState.known, "2024-01-01 00:00:00"⟩⟩ ⟨[]⟩).2.Diagnostics =
        [⟨⟨["end_time"]⟩, errorfUTC, "2024-01-01 00:00:00"⟩] :=
  ⟨by decide, by rfl, by decide, by decide, by decide, by decide⟩

/-- C7, as stated, fails: the Known candidate `2024-01-01T00:00:00+00:00` is
accepted, `parseTime` returning the same time as for the `Z` form. -/
theorem zero_offset_plus_accepted :
    parseTime "2024-01-01T00:00:00+00:00" = Except.ok ⟨1704067200, 0, 0⟩ ∧
    (NewTimeValidator.ValidateString ⟨⟨["end_time"]⟩,
      ⟨ValueState.known, "2024-01-01T00:00:00+00:00"⟩⟩ ⟨[]⟩).2.Diagnostics = [] :=
  ⟨by rfl, by decide⟩

/-- C7, amended.  Take the canonical UTC rendering of an instant of the years
0000 to 9999 and write its zero offset as `+00:00` or `-00:00` in the place
of `Z`: `ValidateString` accepts the Known candidate and `parseTime` returns
the UTC time of the instant.  Both renderings that `parseTime` compares print
a zero offset as `Z`, so the comparison tests that the offset is zero, not
that the text is canonical. -/
theorem zero_offset_spelling_accepted (t0 : Time) (h0 : -62167219200 ≤ t0.sec)
    (h1 : t0.sec ≤ 253402300799) (sg : Char) (hsg : sg = '+' ∨ sg = '-')
    (v : timeValidator) (path : AttributePath) (response : StringResponse) :
    parseTime (String.mk (t0.UTC.Format.toList.dropLast ++ [sg, '0', '0', ':', '0', '0'])) =
      Except.ok { sec := t0.sec, nsec := 0, offset := 0 } ∧
    v.ValidateString ⟨path, ⟨ValueState.known,
      String.mk (t0.UTC.Format.toList.dropLast ++ [sg, '0', '0', ':', '0', '0'])⟩⟩ response =
      (v, response) := by
  have hp : Parse (String.mk (t0.UTC.Format.toList.dropLast ++ [sg, '0', '0', ':', '0', '0'])) =
      some { sec := t0.sec, nsec := 0, offset := 0 } := by
    rw [Format_utc_dropLast t0 h0 h1]
    apply Parse_of_fast
    rw [parseRFC3339_stampOf t0 h0 h1, parseRFC3339Rest_zero _ _ _ _ _ _ sg hsg,
      Date_civil t0 h0 h1 0 (by norm_num) (by norm_num)]
  have hok := parseTime_of_zero _ _ hp rfl
  exact ⟨hok, validate_known_ok v path _ response _ hok⟩

theorem zero_offset_spelling_accepted_witness :
    String.mk ((⟨1704067200, 0, 0⟩ : Time).UTC.Format.toList.dropLast ++
      ['-', '0', '0', ':', '0', '0']) = "2024-01-01T00:00:00-00:00" ∧
    parseTime (String.mk ((⟨1704067200, 0, 0⟩ : Time).UTC.Format.toList.dropLast ++
      ['-', '0', '0', ':', '0', '0'])) = Except.ok { sec := 1704067200, nsec := 0, offset := 0 } :=
  ⟨by decide, (zero_offset_spelling_accepted ⟨1704067200, 0, 0⟩ (by decide) (by decide) '-'
    (Or.inr rfl) NewTimeValidator ⟨["end_time"]⟩ ⟨[]⟩).1⟩

/-- C8. Take the canonical UTC rendering of an instant of the years 0000 to
9999 and put a fraction, a period and one or more digits (nine digits, as
any other count), between the seconds and the zone.  With the zone `Z` the
Known candidate is accepted; with a numeric zone `±HH:MM` other than `00:00`
in the place of `Z` it is rejected. -/
theorem fractional_second_boundary (t0 : Time) (h0 : -62167219200 ≤ t0.sec)
    (h1 : t0.sec ≤ 253402300799) (f : Char) (fs : List Char) (hf : isDigitByte f = true)
    (hfs : ∀ x ∈ fs, isDigitByte x = true)
    (sg a b c d : Char) (_hsg : sg = '+' ∨ sg = '-')
    (_ha : isDigitByte a = true) (_hb : isDigitByte b = true) (_hc : isDigitByte c = true)
    (hd : isDigitByte d = true) (hnz : ¬ (a = '0' ∧ b = '0' ∧ c = '0' ∧ d = '0'))
    (v : timeValidator) (path : AttributePath) (response : StringResponse) :
    v.ValidateString ⟨path, ⟨ValueState.known,
      String.mk (t0.UTC.Format.toList.dropLast ++ ('.' :: f :: fs ++ ['Z']))⟩⟩ response =
      (v, response) ∧
    v.ValidateString ⟨path, ⟨ValueState.known,
      String.mk ((t0.UTC.Format.toList.dropLast ++ '.' :: f :: fs) ++ [sg, a, b, ':', c, d])⟩⟩
      response =
      ({ message := errorfUTC },
       { Diagnostics := response.Diagnostics ++ [⟨path, errorfUTC,
          String.mk ((t0.UTC.Format.toList.dropLast ++ '.' :: f :: fs) ++ [sg, a, b, ':', c, d])⟩] })
    := by
  constructor
  · obtain ⟨nsec, hr⟩ := parseRFC3339Rest_fraction (absDate t0.UTC.abs).1 (absDate t0.UTC.abs).2.1
      (absDate t0.UTC.abs).2.2 (absClock t0.UTC.abs).1 (absClock t0.UTC.abs).2.1
      (absClock t0.UTC.abs).2.2 f fs hf hfs
    have hp : Parse (String.mk (t0.UTC.Format.toList.dropLast ++ ('.' :: f :: fs ++ ['Z']))) =
        some (Date (absDate t0.UTC.abs).1 (absDate t0.UTC.abs).2.1
          (absDate t0.UTC.abs).2.2 (absClock t0.UTC.abs).1 (absClock t0.UTC.abs).2.1
          (absClock t0.UTC.abs).2.2 nsec) := by
      rw [Format_utc_dropLast t0 h0 h1]
      apply Parse_of_fast
      rw [parseRFC3339_stampOf t0 h0 h1, hr]
    exact validate_known_ok v path _ response _ (parseTime_of_zero _ _ hp rfl)
  · exact validate_known_error v path _ response errorfUTC
      (parseTime_nonzero_zone _ sg a b c d hd hnz)

theorem fractional_second_boundary_witness :
    String.mk ((⟨1704067200, 0, 0⟩ : Time).UTC.Format.toList.dropLast ++
      ('.' :: '1' :: "23456789".toList ++ ['Z'])) = "2024-01-01T00:00:00.123456789Z" ∧
    (NewTimeValidator.ValidateString ⟨⟨["end_time"]⟩, ⟨ValueState.known,
      String.mk ((⟨1704067200, 0, 0⟩ : Time).UTC.Format.toList.dropLast ++
        ('.' :: '1' :: "23456789".toList ++ ['Z']))⟩⟩ ⟨[]⟩ = (NewTimeValidator, ⟨[]⟩) ∧
     NewTimeValidator.ValidateString ⟨⟨["end_time"]⟩, ⟨ValueState.known,
      String.mk (((⟨1704067200, 0, 0⟩ : Time).UTC.Format.toList.dropLast ++
        '.' :: '1' :: "23456789".toList) ++ ['+', '0', '2', ':', '0', '0'])⟩⟩ ⟨[]⟩ =
      ({ message := errorfUTC },
       { Diagnostics := [] ++ [⟨⟨["end_time"]⟩, errorfUTC,
          String.mk (((⟨1704067200, 0, 0⟩ : Time).UTC.Format.toList.dropLast ++
            '.' :: '1' :: "23456789".toList) ++ ['+', '0', '2', ':', '0', '0'])⟩] })) :=
  ⟨by decide, fractional_second_boundary ⟨1704067200, 0, 0⟩ (by decide) (by decide) '1'
    "23456789".toList (by decide) (by decide) '+' '0' '2' '0' '0' (Or.inl rfl) (by decide)
    (by decide) (by decide) (by decide) (by decide) NewTimeValidator ⟨["end_time"]⟩ ⟨[]⟩⟩

/-- C9. A Known candidate of the RFC3339 shape, digits in every field, with
a field out of range (a month outside 1 to 12, a day outside the month's
length, an hour above 23, a minute above 59, a second above 59 such as a
leap second), whatever follows the seconds, is rejected with the one
generic reason: `parseTime` returns it and `ValidateString` appends the
diagnostic that carries it. -/
theorem out_of_range_invalid (y0 y1 y2 y3 m0 m1 d0 d1 h0 h1 n0 n1 s0 s1 : Char)
    (rest : List Char)
    (hy0 : isDigitByte y0 = true) (hy1 : isDigitByte y1 = true) (hy2 : isDigitByte y2 = true)
    (hy3 : isDigitByte y3 = true) (hm0 : isDigitByte m0 = true) (hm1 : isDigitByte m1 = true)
    (hd0 : isDigitByte d0 = true) (hd1 : isDigitByte d1 = true) (hh0 : isDigitByte h0 = true)
    (hh1 : isDigitByte h1 = true) (hn0 : isDigitByte n0 = true) (hn1 : isDigitByte n1 = true)
    (hs0 : isDigitByte s0 = true) (hs1 : isDigitByte s1 = true)
    (hout : digitVal m0 * 10 + digitVal m1 < 1 ∨ 12 < digitVal m0 * 10 + digitVal m1 ∨
      digitVal d0 * 10 + digitVal d1 < 1 ∨
      daysIn (digitVal m0 * 10 + digitVal m1)
        (((digitVal y0 * 10 + digitVal y1) * 10 + digitVal y2) * 10 + digitVal y3) <
        digitVal d0 * 10 + digitVal d1 ∨
      23 < digitVal h0 * 10 + digitVal h1 ∨ 59 < digitVal n0 * 10 + digitVal n1 ∨
      59 < digitVal s0 * 10 + digitVal s1)
    (v : timeValidator) (path : AttributePath) (response : StringResponse) :
    parseTime (String.mk ([y0, y1, y2, y3, '-', m0, m1, '-', d0, d1, 'T', h0, h1, ':', n0, n1,
      ':', s0, s1] ++ rest)) = Except.error errorfUTC ∧
    v.ValidateString ⟨path, ⟨ValueState.known,
      String.mk ([y0, y1, y2, y3, '-', m0, m1, '-', d0, d1, 'T', h0, h1, ':', n0, n1,
        ':', s0, s1] ++ rest)⟩⟩ response =
      ({ message := errorfUTC },
       { Diagnostics := response.Diagnostics ++ [⟨path, errorfUTC,
          String.mk ([y0, y1, y2, y3, '-', m0, m1, '-', d0, d1, 'T', h0, h1, ':', n0, n1,
            ':', s0, s1] ++ rest)⟩] }) := by
  have hp : Parse (String.mk ([y0, y1, y2, y3, '-', m0, m1, '-', d0, d1, 'T', h0, h1, ':', n0, n1,
      ':', s0, s1] ++ rest)) = none := by
    unfold Parse
    have e : (String.mk ([y0, y1, y2, y3, '-', m0, m1, '-', d0, d1, 'T', h0, h1, ':', n0, n1,
      ':', s0, s1] ++ rest)).toList = [y0, y1, y2, y3, '-', m0, m1, '-', d0, d1, 'T', h0, h1, ':',
      n0, n1, ':', s0, s1] ++ rest := rfl
    rw [e, parseRFC3339_out_of_range y0 y1 y2 y3 m0 m1 d0 d1 h0 h1 n0 n1 s0 s1 rest hy0 hy1 hy2 hy3
      hm0 hm1 hd0 hd1 hh0 hh1 hn0 hn1 hs0 hs1 hout]
    exact parse_out_of_range y0 y1 y2 y3 m0 m1 d0 d1 h0 h1 n0 n1 s0 s1 rest hy0 hy1 hy2 hy3
      hm0 hm1 hd0 hd1 hh0 hh1 hn0 hn1 hs0 hs1 hout
  have h := parseTime_of_none _ hp
  exact ⟨h, validate_known_error v path _ response errorfUTC h⟩

theorem out_of_range_invalid_witness :
    (parseTime "2023-02-29T00:00:00Z" = Except.error errorfUTC ∧
     parseTime "2024-01-01T23:59:60Z" = Except.error errorfUTC) ∧
    parseTime "2024-13-01T24:60:00Z" = Except.error errorfUTC :=
  ⟨⟨(out_of_range_invalid '2' '0' '2' '3' '0' '2' '2' '9' '0' '0' '0' '0' '0' '0' ['Z']
      (by decide) (by decide) (by decide) (by decide) (by decide) (by decide) (by decide)
      (by decide) (by decide) (by decide) (by decide) (by decide) (by decide) (by decide)
      (Or.inr (Or.inr (Or.inr (Or.inl (by decide))))) NewTimeValidator ⟨[]⟩ ⟨[]⟩).1,
    (out_of_range_invalid '2' '0' '2' '4' '0' '1' '0' '1' '2' '3' '5' '9' '6' '0' ['Z']
      (by decide) (by decide) (by decide) (by decide) (by decide) (by decide) (by decide)
      (by decide) (by decide) (by decide) (by decide) (by decide) (by decide) (by decide)
      (Or.inr (Or.inr (Or.inr (Or.inr (Or.inr (Or.inr (by decide))))))) NewTimeValidator
      ⟨[]⟩ ⟨[]⟩).1⟩,
   (out_of_range_invalid '2' '0' '2' '4' '1' '3' '0' '1' '2' '4' '6' '0' '0' '0' ['Z']
      (by decide) (by decide) (by decide) (by decide) (by decide) (by decide) (by decide)
      (by decide) (by decide) (by decide) (by decide) (by decide) (by decide) (by decide)
      (Or.inr (Or.inl (by decide))) NewTimeValidator ⟨[]⟩ ⟨[]⟩).1⟩

/-- C10. After a `ValidateString` call on a Known candidate that fails,
whatever message the validator held before, `Description` on the validator
returns the reason of that failure, the one carried by the appended
diagnostic. -/
theorem description_after_failure (v : timeValidator) (path : AttributePath)
    (candidate : String) (response : StringResponse) (e : String)
    (h : parseTime candidate = Except.error e) :
    (v.ValidateString ⟨path, ⟨ValueState.known, candidate⟩⟩ response).1.Description = e ∧
    (v.ValidateString ⟨path, ⟨ValueState.known, candidate⟩⟩ response).2.Diagnostics =
      response.Diagnostics ++ [{ path := path, description := e, value := candidate }] := by
  rw [validate_known_error v path candidate response e h]
  have hee := parseTime_error_eq candidate e h
  subst hee
  exact ⟨by simp [timeValidator.Description, errorfUTC_ne_empty], rfl⟩

theorem description_after_failure_witness :
    parseTime "not-a-time" = Except.error errorfUTC ∧
    ((⟨"an earlier message"⟩ : timeValidator).ValidateString ⟨⟨["end_time"]⟩,
      ⟨ValueState.known, "not-a-time"⟩⟩ ⟨[]⟩).1.Description = errorfUTC :=
  ⟨by rfl, (description_after_failure ⟨"an earlier message"⟩ ⟨["end_time"]⟩ "not-a-time" ⟨[]⟩
    errorfUTC (by rfl)).1⟩

/-- C11. `Description` returns the stored message whenever it is not empty,
and the default text `value must be an RFC3339 time string` otherwise; the
validator that `NewTimeValidator` returns holds no message and so returns
the default text. -/
theorem description_stored_or_default (v : timeValidator) :
    (v.message ≠ "" → v.Description = v.message) ∧
    (v.message = "" → v.Description = "value must be an RFC3339 time string") ∧
    NewTimeValidator.Description = "value must be an RFC3339 time string" := by
  refine ⟨fun h => ?_, fun h => ?_, by decide⟩
  · simp [timeValidator.Description, h]
  · simp [timeValidator.Description, h]

theorem description_stored_or_default_witness :
    (⟨"kept"⟩ : timeValidator).Description = "kept" ∧
    (⟨""⟩ : timeValidator).Description = "value must be an RFC3339 time string" :=
  ⟨(description_stored_or_default ⟨"kept"⟩).1 (by decide),
   (description_stored_or_default ⟨""⟩).2.1 rfl⟩

/-- C12. For every validator, `MarkdownDescription` returns the very string
that `Description` returns. -/
theorem markdown_description_eq (v : timeValidator) :
    v.MarkdownDescription = v.Description ∧
    (call v Call.MarkdownDescription).2 = (call v Call.Description).2 :=
  ⟨rfl, rfl⟩

/-- C13. A `Description` call leaves the validator as it is, and a second
`Description` call right after it returns the same string as the first. -/
theorem description_idempotent (v : timeValidator) :
    (call v Call.Description).1 = v ∧
    run v [Call.Description, Call.Description] = v ∧
    (call (call v Call.Description).1 Call.Description).2 = (call v Call.Description).2 :=
  ⟨rfl, rfl, rfl⟩

/-- C16. The comparison of the two renderings in `parseTime` is a test of the
offset: for every time the RFC3339 rendering equals the rendering of the time
forced to UTC exactly when the offset is zero, whatever the nanoseconds, which
the layout does not print.  Hence `parseTime` is the function that tests the
offset, and it succeeds exactly when the string parses with offset zero. -/
theorem textual_comparison_is_offset_check :
    (∀ t : Time, t.UTC.Format = t.Format ↔ t.offset = 0) ∧
    (∀ (t : Time) (ns : Int), ({ t with nsec := ns } : Time).Format = t.Format) ∧
    (∀ s : String, parseTime s = parseTimeByOffset s) ∧
    (∀ s : String, (∃ u, parseTime s = Except.ok u) ↔ ∃ t, Parse s = some t ∧ t.offset = 0) := by
  refine ⟨format_utc_eq_iff, fun t ns => rfl, fun s => ?_, fun s => ?_⟩
  · unfold parseTime parseTimeByOffset
    cases Parse s with
    | none => rfl
    | some t =>
      simp only [ne_eq, format_utc_eq_iff t]
  · constructor
    · rintro ⟨u, hu⟩
      obtain ⟨t, ht, h0, _⟩ := parseTime_ok_inv s u hu
      exact ⟨t, ht, h0⟩
    · rintro ⟨t, ht, h0⟩
      exact ⟨t.UTC, parseTime_of_zero s t ht h0⟩

theorem message_after_validate (v : timeValidator) (request : StringRequest)
    (response : StringResponse) :
    (v.ValidateString request response).1 = v ∨
    (v.ValidateString request response).1 = { message := errorfUTC } := by
  unfold timeValidator.ValidateString ValidateStringWith
  split
  · exact Or.inl rfl
  · simp only
    split
    · rename_i err herr
      right
      rw [parseTime_error_eq _ _ herr]
    · exact Or.inl rfl

theorem run_invariant (calls : List Call) (v : timeValidator)
    (h : v.message = "" ∨ v.message = errorfUTC) :
    (run v calls).message = "" ∨ (run v calls).message = errorfUTC := by
  induction calls generalizing v with
  | nil => exact h
  | cons c cs ih =>
    apply ih
    cases c with
    | Description => exact h
    | MarkdownDescription => exact h
    | ValidateString request response =>
      have hc : (call v (Call.ValidateString request response)).1 =
          (v.ValidateString request response).1 := rfl
      rw [hc]
      rcases message_after_validate v request response with e | e
      · rw [e]; exact h
      · rw [e]; exact Or.inr rfl

/-- C17. Starting from the validator that `NewTimeValidator` returns, after
any sequence of `ValidateString`, `Description` and `MarkdownDescription`
calls the stored message is empty or is the fixed reason
`should be an RFC3339 string in UTC, e.g., "2222-01-01T00:00:00Z"`, so that
`Description` returns the default text or that reason. -/
theorem message_invariant (calls : List Call) :
    ((run NewTimeValidator calls).message = "" ∨
     (run NewTimeValidator calls).message =
       "should be an RFC3339 string in UTC, e.g., \"2222-01-01T00:00:00Z\"") ∧
    ((run NewTimeValidator calls).Description = "value must be an RFC3339 time string" ∨
     (run NewTimeValidator calls).Description =
       "should be an RFC3339 string in UTC, e.g., \"2222-01-01T00:00:00Z\"") := by
  have h := run_invariant calls NewTimeValidator (Or.inl rfl)
  rw [errorfUTC_eq] at h
  refine ⟨h, ?_⟩
  rcases h with h | h
  · left; simp [timeValidator.Description, h]
  · right
    unfold timeValidator.Description
    rw [h]
    decide

/-- C18. For a request that is Null, Unknown, or Known with a candidate on
which `parseTime` succeeds, `ValidateString` hands back the validator and the
response as they were: the stored message and the diagnostics already present
are unchanged.  So a successful validation does not reset a message stored
by an earlier failure. -/
theorem validate_frame (v : timeValidator) (request : StringRequest)
    (response : StringResponse)
    (h : request.ConfigValue.state = ValueState.null ∨
      request.ConfigValue.state = ValueState.unknown ∨
      (request.ConfigValue.state = ValueState.known ∧
        ∃ t, parseTime request.ConfigValue.value = Except.ok t)) :
    v.ValidateString request response = (v, response) := by
  obtain ⟨path, ⟨state, value⟩⟩ := request
  rcases h with h | h | ⟨h, t, ht⟩
  · simp only at h; subst h
    simp [timeValidator.ValidateString, ValidateStringWith, StringValue.IsNull]
  · simp only at h; subst h
    simp [timeValidator.ValidateString, ValidateStringWith, StringValue.IsUnknown]
  · simp only at h ht; subst h
    exact validate_known_ok v path value response t ht

theorem validate_frame_witness :
    (run NewTimeValidator
      [Call.ValidateString ⟨⟨["end_time"]⟩, ⟨ValueState.known, "not-a-time"⟩⟩ ⟨[]⟩]).Description
        = errorfUTC ∧
    (⟨errorfUTC⟩ : timeValidator).ValidateString
      ⟨⟨["end_time"]⟩, ⟨ValueState.known, "2024-01-01T00:00:00Z"⟩⟩ ⟨[]⟩ = (⟨errorfUTC⟩, ⟨[]⟩) :=
  ⟨by decide, validate_frame ⟨errorfUTC⟩ ⟨⟨["end_time"]⟩, ⟨ValueState.known, "2024-01-01T00:00:00Z"⟩⟩
    ⟨[]⟩ (Or.inr (Or.inr ⟨rfl, ⟨1704067200, 0, 0⟩, by rfl⟩))⟩

/-- C19. What `ValidateString` appends depends on the request alone: for
every request there is one list of diagnostics that the call appends to the
response whatever message the validator holds and whatever the response
already holds; so two validators, whatever their stored messages, hand back
the same response for the same request. -/
theorem verdict_independent_of_state (request : StringRequest) :
    (∃ appended : List Diagnostic, ∀ (v : timeValidator) (response : StringResponse),
      (v.ValidateString request response).2.Diagnostics = response.Diagnostics ++ appended) ∧
    (∀ (v1 v2 : timeValidator) (response : StringResponse),
      (v1.ValidateString request response).2 = (v2.ValidateString request response).2) := by
  have key : ∃ appended : List Diagnostic, ∀ (v : timeValidator) (response : StringResponse),
      (v.ValidateString request response).2.Diagnostics = response.Diagnostics ++ appended := by
    obtain ⟨path, ⟨state, value⟩⟩ := request
    cases state with
    | null =>
      exact ⟨[], fun v response => by
        simp [timeValidator.ValidateString, ValidateStringWith, StringValue.IsNull]⟩
    | unknown =>
      exact ⟨[], fun v response => by
        simp [timeValidator.ValidateString, ValidateStringWith, StringValue.IsUnknown]⟩
    | known =>
      cases hp : parseTime value with
      | error e =>
        exact ⟨[⟨path, e, value⟩], fun v response => by
          rw [validate_known_error v path value response e hp]⟩
      | ok t =>
        exact ⟨[], fun v response => by
          rw [validate_known_ok v path value response t hp]; simp⟩
  refine ⟨key, fun v1 v2 response => ?_⟩
  obtain ⟨appended, h⟩ := key
  have e1 := h v1 response
  have e2 := h v2 response
  cases r1 : (v1.ValidateString request response).2
  cases r2 : (v2.ValidateString request response).2
  rw [r1] at e1
  rw [r2] at e2
  simp only at e1 e2
  rw [e1, e2]

theorem leadingInt_digits (ds : List Char) (x : Nat) (h : ∀ c ∈ ds, isDigitByte c = true) :
    leadingInt ds x = (ds.foldl (fun x c => x * 10 + (c.toNat - 48)) x, []) := by
  induction ds generalizing x with
  | nil => rfl
  | cons c cs ih =>
    have hc : isDigitByte c = true := h c (List.mem_cons_self _ _)
    simp only [leadingInt, hc, if_true, List.foldl_cons]
    exact ih _ (fun d hd => h d (List.mem_cons_of_mem _ hd))

theorem digit_not_sign (c : Char) (h : isDigitByte c = true) : c ≠ '-' ∧ c ≠ '+' := by
  constructor
  · intro e; rw [e] at h; revert h; decide
  · intro e; rw [e] at h; revert h; decide

theorem atoi_digits (c : Char) (ds : List Char) (hc : isDigitByte c = true)
    (h : ∀ x ∈ ds, isDigitByte x = true) :
    atoi (c :: ds) = some (decimalValue (c :: ds) : Int) := by
  obtain ⟨h1, h2⟩ := digit_not_sign c hc
  have hall : ∀ x ∈ c :: ds, isDigitByte x = true := by
    intro x hx
    rcases List.mem_cons.mp hx with e | e
    · rw [e]; exact hc
    · exact h x e
  simp [atoi, h1, h2, leadingInt_digits (c :: ds) 0 hall, decimalValue]

theorem foldl_digits_lt (ds : List Char) (x : Nat) (h : ∀ c ∈ ds, isDigitByte c = true) :
    ds.foldl (fun x c => x * 10 + (c.toNat - 48)) x < (x + 1) * 10 ^ ds.length := by
  induction ds generalizing x with
  | nil => simp
  | cons c cs ih =>
    have hc := (isDigitByte_iff c).mp (h c (List.mem_cons_self _ _))
    have := ih (x * 10 + (c.toNat - 48)) (fun d hd => h d (List.mem_cons_of_mem _ hd))
    simp only [List.foldl_cons, List.length_cons]
    calc _ < (x * 10 + (c.toNat - 48) + 1) * 10 ^ cs.length := this
      _ ≤ ((x + 1) * 10) * 10 ^ cs.length := by
        apply Nat.mul_le_mul_right
        omega
      _ = (x + 1) * 10 ^ (cs.length + 1) := by ring

theorem decimalValue_lt (ds : List Char) (h : ∀ c ∈ ds, isDigitByte c = true) :
    decimalValue ds < 10 ^ ds.length := by
  have := foldl_digits_lt ds 0 h
  simpa [decimalValue] using this

theorem nanosOf_range (ds : List Char) (h : ∀ c ∈ ds, isDigitByte c = true) :
    0 ≤ nanosOf ds ∧ nanosOf ds < 1000000000 := by
  have hk : (ds.take 9).length ≤ 9 := by simp
  have hd := decimalValue_lt (ds.take 9) (fun c hc => h c (List.mem_of_mem_take hc))
  unfold nanosOf
  constructor
  · positivity
  · have e : (10 : Nat) ^ (ds.take 9).length * 10 ^ (9 - (ds.take 9).length) = 1000000000 := by
      rw [← pow_add, Nat.add_sub_cancel' hk]; norm_num
    have hpos : 0 < (10 : Nat) ^ (9 - (ds.take 9).length) := by positivity
    have := Nat.mul_lt_mul_of_pos_right hd hpos
    rw [e] at this
    exact_mod_cast this

theorem scanDigits_eq (l : List Char) (n : Nat) :
    scanDigits l n = n + (l.takeWhile isDigitByte).length := by
  induction l generalizing n with
  | nil => simp [scanDigits]
  | cons c cs ih =>
    cases hc : isDigitByte c
    · simp [scanDigits, hc, List.takeWhile]
    · simp only [scanDigits, hc, if_true, List.takeWhile, List.length_cons]
      rw [ih]; omega

theorem drop_takeWhile_length (l : List Char) (p : Char → Bool) :
    l.drop (l.takeWhile p).length = l.dropWhile p := by
  induction l with
  | nil => simp
  | cons c cs ih =>
    cases hc : p c
    · simp [List.takeWhile, List.dropWhile, hc]
    · simp [List.takeWhile, List.dropWhile, hc, ih]

theorem digit_not_sep (c : Char) (h : isDigitByte c = true) : commaOrPeriod c = false := by
  have hc := (isDigitByte_iff c).mp h
  unfold commaOrPeriod
  have h1 : c ≠ '.' := by
    intro e; rw [e] at h; revert h; decide
  have h2 : c ≠ ',' := by
    intro e; rw [e] at h; revert h; decide
  simp [h1, h2]

theorem writtenFraction_append (a r : List Char) (ha : ∀ c ∈ a, commaOrPeriod c = false) :
    writtenFraction (a ++ r) = writtenFraction r := by
  unfold writtenFraction
  induction a with
  | nil => rfl
  | cons c cs ih =>
    have hc : commaOrPeriod c = false := ha c (List.mem_cons_self _ _)
    simp only [List.cons_append, List.dropWhile, hc, Bool.not_false]
    exact ih (fun d hd => ha d (List.mem_cons_of_mem _ hd))

theorem writtenFraction_nosep (r : List Char) (hr : ∀ c ∈ r, commaOrPeriod c = false) :
    writtenFraction r = [] := by
  have := writtenFraction_append r [] hr
  rw [List.append_nil] at this
  rw [this]; rfl

theorem writtenFraction_sep (c : Char) (r : List Char) (hc : commaOrPeriod c = true) :
    writtenFraction (c :: r) = r.takeWhile isDigitByte := by
  simp [writtenFraction, List.dropWhile, hc]

/-- Go `parseNanoseconds` on a separator followed by digits: the first nine
digits give the nanoseconds. -/
theorem parseNanoseconds_digits (c d : Char) (ds rest : List Char)
    (hc : commaOrPeriod c = true) (hd : isDigitByte d = true)
    (hds : ∀ x ∈ ds, isDigitByte x = true) :
    parseNanoseconds (c :: d :: ds ++ rest) (2 + ds.length) = (nanosOf (d :: ds), true) := by
  have hall : ∀ x ∈ d :: ds, isDigitByte x = true := by
    intro x hx
    rcases List.mem_cons.mp hx with e | e
    · rw [e]; exact hd
    · exact hds x e
  unfold parseNanoseconds
  have hb : byteAt (c :: d :: ds ++ rest) 0 = c := rfl
  rw [hb, hc]
  simp only [Bool.true_eq_false, if_false]
  by_cases hlen : 2 + ds.length > 10
  · simp only [hlen, if_true]
    have hs : slice (List.take 10 (c :: d :: ds ++ rest)) 1 10 = d :: ds.take 8 := by
      have : 8 ≤ ds.length := by omega
      simp [slice, List.take_append_of_le_length this]
    rw [hs, atoi_digits d (ds.take 8) hd (fun x hx => hds x (List.mem_of_mem_take hx))]
    have ht : (d :: ds).take 9 = d :: ds.take 8 := rfl
    have hl : (d :: ds.take 8).length = 9 := by simp; omega
    simp only [nanosOf, ht, hl]
    rw [if_neg (not_lt.mpr (Int.ofNat_nonneg _))]
  · simp only [hlen, if_false]
    have hs : slice (c :: d :: ds ++ rest) 1 (2 + ds.length) = d :: ds := by
      have e : 2 + ds.length - 1 = ds.length + 1 := by omega
      simp [slice, e]
    rw [hs, atoi_digits d ds hd hds]
    have ht : (d :: ds).take 9 = d :: ds := by
      apply List.take_of_length_le
      simp; omega
    have e2 : 10 - (2 + ds.length) = 9 - (d :: ds).length := by simp; omega
    simp only [nanosOf, ht, e2]
    rw [if_neg (not_lt.mpr (Int.ofNat_nonneg _))]

theorem Date_nsec (y m d h mi s ns : Int) (h0 : 0 ≤ ns) (h1 : ns < 1000000000) :
    (Date y m d h mi s ns).nsec = ns := by
  have := norm_id s ns 1000000000 h0 h1
  simp only [Date, this]

theorem parseUintLoop_digits (l : List Char) (x y : Int) (h : parseUintLoop l x = some y) :
    ∀ c ∈ l, isDigitByte c = true := by
  induction l generalizing x with
  | nil => intro c hc; cases hc
  | cons a l ih =>
    cases ha : isDigitByte a
    · rw [parseUintLoop_cons_bad a l x ha] at h
      cases h
    · rw [parseUintLoop_cons a l x ha] at h
      intro c hc
      rcases List.mem_cons.mp hc with e | e
      · rw [e]; exact ha
      · exact ih _ h c e

theorem parseUint_digits (l : List Char) (lo hi : Int) (h : (parseUint l lo hi).2 = true) :
    ∀ c ∈ l, isDigitByte c = true := by
  unfold parseUint at h
  cases hp : parseUintLoop l 0 with
  | none => rw [hp] at h; simp at h
  | some y => exact parseUintLoop_digits l 0 y hp

theorem takeWhile_digits (l : List Char) : ∀ c ∈ l.takeWhile isDigitByte, isDigitByte c = true :=
  fun _ hc => (List.mem_takeWhile_imp hc)

/-- The nanoseconds of a time that the second half of the fast path yields
are those of the fraction written in what it reads. -/
theorem parseRFC3339Rest_nsec (y m d hh mi sc : Int) (r : List Char) (t : Time)
    (h : parseRFC3339Rest y m d hh mi sc r = some t) :
    t.nsec = nanosOf (writtenFraction r) ∧
    (∀ c ∈ writtenFraction r, isDigitByte c = true) := by
  refine ⟨?_, fun c hc => List.mem_takeWhile_imp hc⟩
  unfold parseRFC3339Rest at h
  simp only at h
  by_cases hf : (decide (r.length ≥ 2) && (byteAt r 0 == '.') && isDigit r 1) = true
  · simp only [hf, if_true] at h
    obtain _ | ⟨c, _ | ⟨d, r2⟩⟩ := r
    · simp at hf
    · simp at hf
    · simp only [Bool.and_eq_true, decide_eq_true_eq, beq_iff_eq, byteAt, isDigit] at hf
      obtain ⟨⟨_, hc⟩, hd⟩ := hf
      have hc' : c = '.' := by simpa using hc
      have hd' : isDigitByte d = true := by simpa using hd
      subst hc'
      have hsep : commaOrPeriod '.' = true := by decide
      have hdrop : List.drop 2 ('.' :: d :: r2) = r2 := rfl
      rw [hdrop, scanDigits_eq] at h
      have hsplit : r2 = r2.takeWhile isDigitByte ++ r2.dropWhile isDigitByte :=
        (List.takeWhile_append_dropWhile _ _).symm
      have hns : parseNanoseconds ('.' :: d :: r2) (2 + (r2.takeWhile isDigitByte).length) =
          (nanosOf (d :: r2.takeWhile isDigitByte), true) := by
        conv_lhs => rw [hsplit]
        have := parseNanoseconds_digits '.' d (r2.takeWhile isDigitByte)
          (r2.dropWhile isDigitByte) hsep hd' (takeWhile_digits r2)
        simpa using this
      rw [hns] at h
      have hw : writtenFraction ('.' :: d :: r2) = d :: r2.takeWhile isDigitByte := by
        rw [writtenFraction_sep _ _ hsep]
        simp [List.takeWhile, hd']
      rw [hw]
      have hrange := nanosOf_range (d :: r2.takeWhile isDigitByte) (by
        intro x hx
        rcases List.mem_cons.mp hx with e | e
        · rw [e]; exact hd'
        · exact takeWhile_digits r2 x e)
      split at h
      · obtain ⟨_, _, _, _, _, _, _, _, _, _, _, _, _, hn⟩ := parseRFC3339Zone_some _ _ _ h
        rw [hn, Date_nsec _ _ _ _ _ _ _ hrange.1 hrange.2]
      · simp only [Option.some.injEq] at h
        rw [← h, Date_nsec _ _ _ _ _ _ _ hrange.1 hrange.2]
  · rw [Bool.not_eq_true] at hf
    simp only [hf, Bool.false_eq_true, if_false] at h
    have hnosep : ∀ c ∈ r, commaOrPeriod c = false := by
      split at h
      · obtain ⟨sg, a, b, c, d, e, hs, ha, hb, hc, hd, _⟩ := parseRFC3339Zone_some _ _ _ h
        subst e
        intro x hx
        simp only [List.mem_cons, List.mem_singleton, List.not_mem_nil, or_false] at hx
        rcases hx with rfl | rfl | rfl | rfl | rfl | rfl
        · rcases hs with rfl | rfl <;> decide
        · exact digit_not_sep _ ha
        · exact digit_not_sep _ hb
        · decide
        · exact digit_not_sep _ hc
        · exact digit_not_sep _ hd
      · rename_i hZ
        simp only [not_or, not_not] at hZ
        obtain ⟨hl, hb⟩ := hZ
        obtain ⟨c, hc⟩ := List.length_eq_one.mp hl
        subst hc
        simp only [byteAt, List.getD_cons_zero] at hb
        subst hb
        intro x hx
        simp only [List.mem_singleton] at hx
        subst hx
        decide
    rw [writtenFraction_nosep r hnosep]
    have hz : nanosOf [] = 0 := by decide
    rw [hz]
    split at h
    · obtain ⟨_, _, _, _, _, _, _, _, _, _, _, _, _, hn⟩ := parseRFC3339Zone_some _ _ _ h
      rw [hn, Date_nsec _ _ _ _ _ _ _ (le_refl _) (by norm_num)]
    · simp only [Option.some.injEq] at h
      rw [← h, Date_nsec _ _ _ _ _ _ _ (le_refl _) (by norm_num)]

theorem list_nineteen (s : List Char) (h : ¬ s.length < 19) :
    ∃ c0 c1 c2 c3 c4 c5 c6 c7 c8 c9 c10 c11 c12 c13 c14 c15 c16 c17 c18 r,
      s = c0 :: c1 :: c2 :: c3 :: c4 :: c5 :: c6 :: c7 :: c8 :: c9 :: c10 :: c11 :: c12 :: c13 :: c14 :: c15 :: c16 :: c17 :: c18 :: r := by
  obtain _ | ⟨c0, _ | ⟨c1, _ | ⟨c2, _ | ⟨c3, _ | ⟨c4, _ | ⟨c5, _ | ⟨c6, _ | ⟨c7, _ | ⟨c8, _ | ⟨c9, _ | ⟨c10, _ | ⟨c11, _ | ⟨c12, _ | ⟨c13, _ | ⟨c14, _ | ⟨c15, _ | ⟨c16, _ | ⟨c17, _ | ⟨c18, r⟩⟩⟩⟩⟩⟩⟩⟩⟩⟩⟩⟩⟩⟩⟩⟩⟩⟩⟩ := s
  all_goals first
    | exact ⟨_, _, _, _, _, _, _, _, _, _, _, _, _, _, _, _, _, _, _, _, rfl⟩
    | (exfalso; apply h; simp)

/-- The nineteen bytes that the fast path reads as date and time hold
neither a period nor a comma. -/
theorem parseRFC3339_head (s : List Char) (t : Time) (h : parseRFC3339 s = some t) :
    ∃ a r y m d hh mi sc, s = a ++ r ∧ (∀ c ∈ a, commaOrPeriod c = false) ∧
      parseRFC3339Rest y m d hh mi sc r = some t := by
  unfold parseRFC3339 at h
  split at h
  · contradiction
  rename_i hlen
  simp only at h
  split at h
  · contradiction
  rename_i hok
  obtain ⟨c0, c1, c2, c3, c4, c5, c6, c7, c8, c9, c10, c11, c12, c13, c14, c15, c16, c17, c18, r,
    rfl⟩ := list_nineteen s hlen
  refine ⟨[c0, c1, c2, c3, c4, c5, c6, c7, c8, c9, c10, c11, c12, c13, c14, c15, c16, c17, c18],
    r, _, _, _, _, _, _, rfl, ?_, h⟩
  simp only [not_or, not_not, Bool.not_eq_false, Bool.and_eq_true] at hok
  obtain ⟨⟨⟨⟨⟨⟨fy, fm⟩, fd⟩, fh⟩, fn⟩, fs⟩, s4, s7, s10, s13, s16⟩ := hok
  have dy := parseUint_digits _ _ _ fy
  have dm := parseUint_digits _ _ _ fm
  have dd := parseUint_digits _ _ _ fd
  have dh := parseUint_digits _ _ _ fh
  have dn := parseUint_digits _ _ _ fn
  have ds := parseUint_digits _ _ _ fs
  simp only [slice, List.drop_succ_cons, List.drop_zero, List.take_succ_cons, List.take_zero,
    Nat.reduceSub, List.mem_cons, List.mem_singleton, List.not_mem_nil, or_false,
    forall_eq_or_imp, forall_eq] at dy dm dd dh dn ds
  simp only [byteAt, List.getD_cons_succ, List.getD_cons_zero] at s4 s7 s10 s13 s16
  subst s4 s7 s10 s13 s16
  intro c hc
  simp only [List.mem_cons, List.mem_singleton, List.not_mem_nil, or_false] at hc
  rcases hc with rfl | rfl | rfl | rfl | rfl | rfl | rfl | rfl | rfl | rfl | rfl | rfl | rfl | rfl |
    rfl | rfl | rfl | rfl | rfl
  · exact digit_not_sep _ dy.1
  · exact digit_not_sep _ dy.2.1
  · exact digit_not_sep _ dy.2.2.1
  · exact digit_not_sep _ dy.2.2.2
  · decide
  · exact digit_not_sep _ dm.1
  · exact digit_not_sep _ dm.2
  · decide
  · exact digit_not_sep _ dd.1
  · exact digit_not_sep _ dd.2
  · decide
  · exact digit_not_sep _ dh.1
  · exact digit_not_sep _ dh.2
  · decide
  · exact digit_not_sep _ dn.1
  · exact digit_not_sep _ dn.2
  · decide
  · exact digit_not_sep _ ds.1
  · exact digit_not_sep _ ds.2

theorem parseRFC3339_nsec (s : List Char) (t : Time) (h : parseRFC3339 s = some t) :
    t.nsec = nanosOf (writtenFraction s) := by
  obtain ⟨a, r, y, m, d, hh, mi, sc, rfl, ha, hr⟩ := parseRFC3339_head s t h
  rw [writtenFraction_append a r ha]
  exact (parseRFC3339Rest_nsec _ _ _ _ _ _ r t hr).1

theorem leadingInt_nil_digits (l : List Char) (x q : Nat) (h : leadingInt l x = (q, [])) :
    ∀ c ∈ l, isDigitByte c = true := by
  induction l generalizing x with
  | nil => intro c hc; cases hc
  | cons a l ih =>
    cases ha : isDigitByte a
    · simp [leadingInt, ha] at h
    · simp only [leadingInt, ha, if_true] at h
      intro c hc
      rcases List.mem_cons.mp hc with e | e
      · rw [e]; exact ha
      · exact ih _ h c e

theorem atoi_nosep (l : List Char) (x : Int) (h : atoi l = some x) :
    ∀ c ∈ l, commaOrPeriod c = false := by
  unfold atoi at h
  simp only at h
  split at h
  · contradiction
  rename_i hnil
  have hnil' := not_not.mp hnil
  cases l with
  | nil => intro c hc; cases hc
  | cons a l =>
    simp only at hnil'
    by_cases hs : (a == '-' || a == '+') = true
    · simp only [hs, if_true] at hnil'
      have hd := leadingInt_nil_digits l 0 _ (Prod.ext rfl hnil')
      intro c hc
      rcases List.mem_cons.mp hc with e | e
      · rw [e]
        simp only [Bool.or_eq_true, beq_iff_eq] at hs
        rcases hs with rfl | rfl <;> decide
      · exact digit_not_sep c (hd c e)
    · simp only [hs, if_false] at hnil'
      have hd := leadingInt_nil_digits (a :: l) 0 _ (Prod.ext rfl hnil')
      intro c hc
      exact digit_not_sep c (hd c hc)

theorem getnum_consumed (v : List Char) (fixed : Bool) (x : Int) (r : List Char)
    (h : getnum v fixed = some (x, r)) :
    ∃ a, v = a ++ r ∧ ∀ c ∈ a, commaOrPeriod c = false := by
  unfold getnum at h
  split at h
  · contradiction
  rename_i h0
  obtain _ | ⟨c0, v1⟩ := v
  · simp [isDigit] at h0
  have d0 : isDigitByte c0 = true := by simpa [isDigit] using h0
  split at h
  · split at h
    · contradiction
    · simp only [Option.some.injEq, Prod.mk.injEq] at h
      refine ⟨[c0], ?_, ?_⟩
      · rw [← h.2]; rfl
      · intro c hc
        simp only [List.mem_singleton] at hc
        rw [hc]; exact digit_not_sep _ d0
  · rename_i h1
    obtain _ | ⟨c1, v2⟩ := v1
    · simp [isDigit] at h1
    have d1 : isDigitByte c1 = true := by simpa [isDigit] using h1
    simp only [Option.some.injEq, Prod.mk.injEq] at h
    refine ⟨[c0, c1], ?_, ?_⟩
    · rw [← h.2]; rfl
    · intro c hc
      simp only [List.mem_cons, List.mem_singleton, List.not_mem_nil, or_false] at hc
      rcases hc with rfl | rfl
      · exact digit_not_sep _ d0
      · exact digit_not_sep _ d1

theorem skip_one_inv (v r : List Char) (p : Char) (h : skip v [p] = some r) : v = p :: r := by
  cases v with
  | nil => simp [skip] at h
  | cons a v =>
    simp only [skip] at h
    split at h
    · contradiction
    · rename_i hne
      have : a = p := not_not.mp hne
      subst this
      cases v <;> simp [skip] at h <;> subst h <;> rfl

/-- What the general parser reads before the fraction holds neither a period
nor a comma. -/
theorem parse_chain_consumed (value v1 v2 v3 v4 v5 v6 v7 v8 v9 v10 : List Char)
    (year month day hour mi sec : Int)
    (h0 : atoi (slice value 0 4) = some year)
    (h1 : skip (value.drop 4) ['-'] = some v1) (h2 : getnum v1 true = some (month, v2))
    (h3 : skip v2 ['-'] = some v3) (h4 : getnum v3 true = some (day, v4))
    (h5 : skip v4 ['T'] = some v5) (h6 : getnum v5 false = some (hour, v6))
    (h7 : skip v6 [':'] = some v7) (h8 : getnum v7 true = some (mi, v8))
    (h9 : skip v8 [':'] = some v9) (h10 : getnum v9 true = some (sec, v10)) :
    ∃ a, value = a ++ v10 ∧ ∀ c ∈ a, commaOrPeriod c = false := by
  have hy := atoi_nosep _ _ h0
  have e0 : value = slice value 0 4 ++ value.drop 4 := by
    simp [slice]
  have e1 := skip_one_inv _ _ _ h1
  obtain ⟨a2, e2, n2⟩ := getnum_consumed _ _ _ _ h2
  have e3 := skip_one_inv _ _ _ h3
  obtain ⟨a4, e4, n4⟩ := getnum_consumed _ _ _ _ h4
  have e5 := skip_one_inv _ _ _ h5
  obtain ⟨a6, e6, n6⟩ := getnum_consumed _ _ _ _ h6
  have e7 := skip_one_inv _ _ _ h7
  obtain ⟨a8, e8, n8⟩ := getnum_consumed _ _ _ _ h8
  have e9 := skip_one_inv _ _ _ h9
  obtain ⟨a10, e10, n10⟩ := getnum_consumed _ _ _ _ h10
  refine ⟨slice value 0 4 ++ '-' :: a2 ++ '-' :: a4 ++ 'T' :: a6 ++ ':' :: a8 ++ ':' :: a10, ?_, ?_⟩
  · conv_lhs => rw [e0, e1, e2, e3, e4, e5, e6, e7, e8, e9, e10]
    simp
  · intro c hc
    simp only [List.mem_append, List.mem_cons] at hc
    rcases hc with ((((h | h | h) | h | h) | h | h) | h | h) | h | h
    · exact hy c h
    · rw [h]; decide
    · exact n2 c h
    · rw [h]; decide
    · exact n4 c h
    · rw [h]; decide
    · exact n6 c h
    · rw [h]; decide
    · exact n8 c h
    · rw [h]; decide
    · exact n10 c h

/-- The nanoseconds that the general parser reads after the seconds are
those of the fraction written there, the zone that follows being read to
the end of the string. -/
theorem parseSecondFraction_nsec (v v' : List Char) (nsec : Int) (zone : Option Int)
    (h : parseSecondFraction v = some (nsec, v'))
    (hz : parseISO8601ColonTZ v' = some (zone, [])) :
    nsec = nanosOf (writtenFraction v) := by
  unfold parseSecondFraction at h
  split at h
  · rename_i hf
    simp only at h
    obtain _ | ⟨c, _ | ⟨d, r2⟩⟩ := v
    · simp at hf
    · simp at hf
    · simp only [Bool.and_eq_true, decide_eq_true_eq, byteAt, isDigit] at hf
      obtain ⟨⟨_, hc⟩, hd⟩ := hf
      have hsep : commaOrPeriod c = true := by simpa using hc
      have hd' : isDigitByte d = true := by simpa using hd
      have hdrop : List.drop 2 (c :: d :: r2) = r2 := rfl
      rw [hdrop, scanDigits_eq] at h
      have hsplit : r2 = r2.takeWhile isDigitByte ++ r2.dropWhile isDigitByte :=
        (List.takeWhile_append_dropWhile _ _).symm
      have hns : parseNanoseconds (c :: d :: r2) (2 + (r2.takeWhile isDigitByte).length) =
          (nanosOf (d :: r2.takeWhile isDigitByte), true) := by
        conv_lhs => rw [hsplit]
        have := parseNanoseconds_digits c d (r2.takeWhile isDigitByte)
          (r2.dropWhile isDigitByte) hsep hd' (takeWhile_digits r2)
        simpa using this
      rw [hns] at h
      simp only [Bool.true_eq_false, if_false, Option.some.injEq, Prod.mk.injEq] at h
      rw [writtenFraction_sep _ _ hsep]
      simp only [List.takeWhile, hd']
      exact h.1.symm
  · simp only [Option.some.injEq, Prod.mk.injEq] at h
    obtain ⟨h1, h2⟩ := h
    subst h2
    have hnosep : ∀ c ∈ v, commaOrPeriod c = false := by
      rcases parseISO8601ColonTZ_some _ _ _ hz with ⟨_, hv⟩ | ⟨off, _, hp⟩
      · rw [hv]
        intro x hx
        simp only [List.mem_singleton] at hx
        rw [hx]; decide
      · obtain ⟨sg, a, b, c, d, e, hs, ha, hb, hc, hd, _⟩ := parseNumColonTZ_some _ _ hp
        subst e
        intro x hx
        simp only [List.mem_cons, List.mem_singleton, List.not_mem_nil, or_false] at hx
        rcases hx with rfl | rfl | rfl | rfl | rfl | rfl
        · rcases hs with rfl | rfl <;> decide
        · exact digit_not_sep _ ha
        · exact digit_not_sep _ hb
        · decide
        · exact digit_not_sep _ hc
        · exact digit_not_sep _ hd
    rw [writtenFraction_nosep v hnosep, ← h1]
    decide

theorem nanosOf_written_range (l : List Char) :
    0 ≤ nanosOf (writtenFraction l) ∧ nanosOf (writtenFraction l) < 1000000000 :=
  nanosOf_range _ (fun _ hc => List.mem_takeWhile_imp hc)

/-- Joins the steps of a successful general parse: the nanoseconds read are
those of the fraction written in the value. -/
theorem parse_chain_nsec (value v1 v2 v3 v4 v5 v6 v7 v8 v9 v10 v11 : List Char)
    (year month day hour mi sec nsec : Int)
    (h0 : atoi (slice value 0 4) = some year)
    (h1 : skip (value.drop 4) ['-'] = some v1) (h2 : getnum v1 true = some (month, v2))
    (h3 : skip v2 ['-'] = some v3) (h4 : getnum v3 true = some (day, v4))
    (h5 : skip v4 ['T'] = some v5) (h6 : getnum v5 false = some (hour, v6))
    (h7 : skip v6 [':'] = some v7) (h8 : getnum v7 true = some (mi, v8))
    (h9 : skip v8 [':'] = some v9) (h10 : getnum v9 true = some (sec, v10))
    (h11 : parseSecondFraction v10 = some (nsec, v11)) (v12 : List Char) (zone : Option Int)
    (h12 : parseISO8601ColonTZ v11 = some (zone, v12)) (h13 : ¬ v12.length ≠ 0) :
    nsec = nanosOf (writtenFraction value) := by
  obtain ⟨a, ea, na⟩ := parse_chain_consumed value v1 v2 v3 v4 v5 v6 v7 v8 v9 v10 year month day
    hour mi sec h0 h1 h2 h3 h4 h5 h6 h7 h8 h9 h10
  have hnil := List.length_eq_zero.mp (not_not.mp h13)
  rw [hnil] at h12
  rw [ea, writtenFraction_append a v10 na]
  exact parseSecondFraction_nsec v10 v11 nsec zone h11 h12

/-- The general parser: the nanoseconds of the parsed time are those of the
fraction written in the string. -/
theorem parse_nsec (value : List Char) (t : Time) (h : parse value = some t) :
    t.nsec = nanosOf (writtenFraction value) := by
  obtain ⟨r0, r1⟩ := nanosOf_written_range value
  unfold parse at h
  repeat' (split at h <;> try contradiction)
  all_goals
    have hh := parse_chain_nsec value _ _ _ _ _ _ _ _ _ _ _ _ _ _ _ _ _ _
      (by assumption) (by assumption) (by assumption) (by assumption) (by assumption)
      (by assumption) (by assumption) (by assumption) (by assumption) (by assumption)
      (by assumption) (by assumption) _ _ (by assumption) (by assumption)
    simp only [Option.some.injEq] at h
    rw [← h]
    rw [hh, Date_nsec _ _ _ _ _ _ _ r0 r1]

/-- Go `time.Parse` with layout RFC3339: the nanoseconds of the parsed time
are those of the fraction written in the string, its first nine digits. -/
theorem Parse_nsec (s : String) (t : Time) (h : Parse s = some t) :
    t.nsec = nanosOf (writtenFraction s.toList) := by
  unfold Parse at h
  split at h
  · rename_i t' ht
    simp only [Option.some.injEq] at h
    subst h
    exact parseRFC3339_nsec _ _ ht
  · exact parse_nsec _ _ h

/-- C15, as stated, fails: on `2024-01-01T00:00:00.1234567899Z` `parseTime`
succeeds and returns 123456789 nanoseconds, which is not the fraction
`.1234567899` as written: the tenth digit is dropped. -/
theorem fraction_tenth_digit_dropped :
    parseTime "2024-01-01T00:00:00.1234567899Z" = Except.ok ⟨1704067200, 123456789, 0⟩ ∧
    writtenFraction "2024-01-01T00:00:00.1234567899Z".toList = "1234567899".toList ∧
    (123456789 : Int) * 10 ^ (writtenFraction "2024-01-01T00:00:00.1234567899Z".toList).length ≠
      (decimalValue (writtenFraction "2024-01-01T00:00:00.1234567899Z".toList) : Int) * 10 ^ 9 :=
  ⟨by rfl, by decide, by decide⟩

/-- C15, amended.  Whenever `parseTime` succeeds on a string, the time it
returns is the parsed time in UTC: the same Unix second and nanoseconds,
offset zero, the parsed offset being zero already.  Its nanoseconds are
those of the first nine digits of the fraction written in the string, zero
when none is written; so a fraction of up to nine digits is carried exactly,
and digits after the ninth are dropped, without rounding. -/
theorem parseTime_returns_utc_nanoseconds (s : String) (u : Time)
    (h : parseTime s = Except.ok u) :
    (∃ t, Parse s = some t ∧ t.offset = 0 ∧ u.sec = t.sec ∧ u.nsec = t.nsec ∧ u.offset = 0) ∧
    u.nsec = nanosOf (writtenFraction s.toList) ∧
    ((writtenFraction s.toList).length ≤ 9 →
      u.nsec * 10 ^ (writtenFraction s.toList).length =
        (decimalValue (writtenFraction s.toList) : Int) * 10 ^ 9) := by
  obtain ⟨t, ht, h0, hu⟩ := parseTime_ok_inv s u h
  have hn := Parse_nsec s t ht
  have hun : u.nsec = nanosOf (writtenFraction s.toList) := by
    rw [hu]; exact hn
  refine ⟨⟨t, ht, h0, by rw [hu]; rfl, by rw [hu]; rfl, by rw [hu]; rfl⟩, hun, ?_⟩
  intro hk
  rw [hun]
  unfold nanosOf
  rw [List.take_of_length_le hk, mul_assoc, ← pow_add, Nat.sub_add_cancel hk]

theorem parseTime_returns_utc_nanoseconds_witness :
    parseTime "2024-01-01T00:00:00.123456789Z" = Except.ok ⟨1704067200, 123456789, 0⟩ ∧
    (⟨1704067200, 123456789, 0⟩ : Time).nsec =
      nanosOf (writtenFraction "2024-01-01T00:00:00.123456789Z".toList) ∧
    nanosOf (writtenFraction "2024-01-01T00:00:00.5Z".toList) = 500000000 :=
  ⟨by rfl, (parseTime_returns_utc_nanoseconds "2024-01-01T00:00:00.123456789Z"
    ⟨1704067200, 123456789, 0⟩ (by rfl)).2.1, by decide⟩

theorem indexGo_lt (s : List Char) (i : Nat) (h : i < s.length) :
    indexGo s i = some (byteAt s i) := by
  unfold indexGo byteAt
  rw [List.getD_eq_getElem?_getD, List.get?_eq_getElem?, List.getElem?_eq_getElem h]
  rfl

theorem sliceGo_ok (s : List Char) (i j : Nat) (h1 : i ≤ j) (h2 : j ≤ s.length) :
    sliceGo s i j = some (slice s i j) := by
  unfold sliceGo slice
  rw [if_pos ⟨h1, h2⟩]

theorem sliceFromGo_ok (s : List Char) (i : Nat) (h : i ≤ s.length) :
    sliceFromGo s i = some (s.drop i) := by
  unfold sliceFromGo
  rw [if_pos h]

theorem daysBeforeGo_ok (i : Int) (h1 : 0 ≤ i) (h2 : i < 13) :
    daysBeforeGo i = some (daysBeforeAt i) := by
  unfold daysBeforeGo
  rw [if_pos ⟨h1, h2⟩]

theorem isDigit_lt (s : List Char) (i : Nat) (h : isDigit s i = true) : i < s.length := by
  unfold isDigit at h
  by_contra hlt
  rw [List.get?_eq_none.mpr (by omega)] at h
  simp at h

theorem getnumChecked_eq (s : List Char) (fixed : Bool) :
    getnumChecked s fixed = some (getnum s fixed) := by
  unfold getnumChecked getnum
  cases h0 : isDigit s 0
  · simp
  · have l0 := isDigit_lt s 0 h0
    cases h1 : isDigit s 1
    · cases fixed
      · simp [indexGo_lt s 0 l0, sliceFromGo_ok s 1 (by omega)]
      · simp
    · have l1 := isDigit_lt s 1 h1
      simp [indexGo_lt s 0 l0, indexGo_lt s 1 l1, sliceFromGo_ok s 2 (by omega)]

theorem daysInChecked_eq (m year : Int) (h1 : 1 ≤ m) (h2 : m ≤ 12) :
    daysInChecked m year = some (daysIn m year) := by
  unfold daysInChecked daysIn
  rw [daysBeforeGo_ok m (by omega) (by omega), daysBeforeGo_ok (m - 1) (by omega) (by omega)]
  split <;> rfl

theorem norm_twelve_range (hi lo : Int) :
    0 ≤ (norm hi lo 12).2 ∧ (norm hi lo 12).2 < 12 := by
  unfold norm
  by_cases h : lo < 0
  · simp only [h, if_true]
    split
    · dsimp only; omega
    · dsimp only; omega
  · simp only [h, if_false]
    split
    · dsimp only; omega
    · dsimp only; omega

theorem DateChecked_eq (year month day hour min sec nsec : Int) :
    DateChecked year month day hour min sec nsec =
      some (Date year month day hour min sec nsec) := by
  unfold DateChecked
  have h := norm_twelve_range year (month - 1)
  rw [daysBeforeGo_ok _ (by omega) (by omega)]
  rfl

theorem absDateYear_yday (abs : Nat) :
    0 ≤ (absDateYear abs).2 ∧ (absDateYear abs).2 ≤ 365 := by
  obtain ⟨D, hD⟩ : ∃ D, D = abs / 86400 := ⟨_, rfl⟩
  obtain ⟨n400, hn⟩ : ∃ n, n = D / 146097 := ⟨_, rfl⟩
  obtain ⟨d1, hd1⟩ : ∃ n, n = D - 146097 * n400 := ⟨_, rfl⟩
  obtain ⟨q100, hq100⟩ : ∃ n, n = d1 / 36524 := ⟨_, rfl⟩
  obtain ⟨c100, hc100⟩ : ∃ n, n = q100 - q100 / 4 := ⟨_, rfl⟩
  obtain ⟨d2, hd2⟩ : ∃ n, n = d1 - 36524 * c100 := ⟨_, rfl⟩
  obtain ⟨c4, hc4⟩ : ∃ n, n = d2 / 1461 := ⟨_, rfl⟩
  obtain ⟨d3, hd3⟩ : ∃ n, n = d2 - 1461 * c4 := ⟨_, rfl⟩
  obtain ⟨q1, hq1⟩ : ∃ n, n = d3 / 365 := ⟨_, rfl⟩
  obtain ⟨c1, hc1⟩ : ∃ n, n = q1 - q1 / 4 := ⟨_, rfl⟩
  rw [absDateYear_unfold abs D n400 d1 q100 c100 d2 c4 d3 q1 c1 hD hn hd1 hq100 hc100 hd2 hc4 hd3
    hq1 hc1]
  have hs := cycles_spec D n400 d1 q100 c100 d2 c4 d3 q1 c1 hn hd1 hq100 hc100 hd2 hc4 hd3 hq1 hc1
  obtain ⟨-, -, -, -, h5, -⟩ := hs
  dsimp only
  omega

theorem absDateEstimateChecked_eq (day : Int) (h0 : 0 ≤ day) (h1 : day ≤ 365) :
    absDateEstimateChecked day = some (absDateEstimate day) := by
  unfold absDateEstimateChecked absDateEstimate
  have hm0 : 0 ≤ day / 31 := by omega
  have hm1 : day / 31 < 12 := by omega
  dsimp only
  rw [daysBeforeGo_ok (day / 31 + 1) (by omega) (by omega)]
  simp only [Option.bind_eq_bind, Option.some_bind]
  split
  · rfl
  · rw [daysBeforeGo_ok (day / 31) (by omega) (by omega)]
    rfl

theorem absDateMonthDayChecked_eq (leap : Bool) (yday : Int) (h0 : 0 ≤ yday) (h1 : yday ≤ 365) :
    absDateMonthDayChecked leap yday = some (absDateMonthDay leap yday) := by
  unfold absDateMonthDayChecked absDateMonthDay
  split
  · split
    · exact absDateEstimateChecked_eq _ (by omega) (by omega)
    · split
      · rfl
      · exact absDateEstimateChecked_eq _ h0 h1
  · exact absDateEstimateChecked_eq _ h0 h1

theorem absDateChecked_eq (abs : Nat) : absDateChecked abs = some (absDate abs) := by
  unfold absDateChecked absDate
  have h := absDateYear_yday abs
  simp only [absDateMonthDayChecked_eq _ _ h.1 h.2]
  rfl

theorem FormatChecked_eq (t : Time) : t.FormatChecked = some t.Format := by
  unfold Time.FormatChecked
  rw [absDateChecked_eq]
  rfl

theorem scanDigits_le (l : List Char) (n : Nat) :
    n ≤ scanDigits l n ∧ scanDigits l n ≤ n + l.length := by
  rw [scanDigits_eq]
  have := List.Sublist.length_le (List.takeWhile_sublist isDigitByte (l := l))
  omega

theorem parseNanosecondsChecked_eq (value : List Char) (n : Nat) (h1 : 1 ≤ n)
    (h2 : n ≤ value.length) :
    parseNanosecondsChecked value n = some (parseNanoseconds value n) := by
  unfold parseNanosecondsChecked parseNanoseconds
  rw [indexGo_lt value 0 (by omega)]
  simp only [Option.bind_eq_bind, Option.some_bind]
  split
  · rfl
  · by_cases hn : n > 10
    · simp only [hn, if_true]
      rw [sliceGo_ok value 0 10 (by omega) (by omega)]
      simp only [Option.some_bind]
      have hs : slice value 0 10 = value.take 10 := by simp [slice]
      rw [hs, sliceGo_ok (value.take 10) 1 10 (by omega) (by simp; omega)]
      simp only [Option.some_bind]
      generalize atoi _ = r
      cases r with
      | none => rfl
      | some ns => dsimp only; split <;> rfl
    · simp only [hn, if_false]
      simp only [pure, Option.some_bind]
      rw [sliceGo_ok value 1 n h1 h2]
      simp only [Option.some_bind]
      generalize atoi _ = r
      cases r with
      | none => rfl
      | some ns => dsimp only; split <;> rfl

theorem parseRFC3339ZoneChecked_eq (t : Time) (s : List Char) :
    parseRFC3339ZoneChecked t s = some (parseRFC3339Zone t s) := by
  unfold parseRFC3339ZoneChecked parseRFC3339Zone
  by_cases h : s.length ≠ 6
  · rw [if_pos h, if_pos h]; rfl
  · rw [if_neg h, if_neg h]
    have h6 : s.length = 6 := by omega
    rw [sliceGo_ok s 1 3 (by omega) (by omega), sliceGo_ok s 4 6 (by omega) (by omega)]
    simp only [Option.bind_eq_bind, Option.some_bind]
    rw [indexGo_lt s 0 (by omega), indexGo_lt s 3 (by omega)]
    simp only [Option.some_bind]
    by_cases hok : (((parseUint (slice s 1 3) 0 23).2 &&
        (parseUint (slice s 4 6) 0 59).2) = false)
    · rw [if_pos hok, if_pos (Or.inl hok)]; rfl
    · rw [if_neg hok]
      by_cases hc : ¬ ((byteAt s 0 = '-' ∨ byteAt s 0 = '+') ∧ byteAt s 3 = ':')
      · rw [if_pos hc, if_pos (Or.inr hc)]; rfl
      · have hor : ¬ ((((parseUint (slice s 1 3) 0 23).2 &&
            (parseUint (slice s 4 6) 0 59).2) = false) ∨
            ¬ ((byteAt s 0 = '-' ∨ byteAt s 0 = '+') ∧ byteAt s 3 = ':')) :=
          fun hx => hx.elim hok hc
        rw [if_neg hc, if_neg hor]; rfl

theorem parseUint_range (s : List Char) (min max : Int) (h : min ≤ max) :
    min ≤ (parseUint s min max).1 ∧ (parseUint s min max).1 ≤ max := by
  unfold parseUint
  split
  · exact ⟨le_refl _, h⟩
  · split
    · exact ⟨le_refl _, h⟩
    · dsimp only; omega

theorem zoneTail_eq (t : Time) (s : List Char) :
    (if s.length ≠ 1 then parseRFC3339ZoneChecked t s
      else (indexGo s 0).bind (fun a =>
        if (a != 'Z') = true then parseRFC3339ZoneChecked t s else some (some t))) =
    some (if s.length ≠ 1 ∨ byteAt s 0 ≠ 'Z' then parseRFC3339Zone t s else some t) := by
  by_cases h : s.length ≠ 1
  · rw [if_pos h, if_pos (Or.inl h)]
    exact parseRFC3339ZoneChecked_eq t s
  · rw [if_neg h, indexGo_lt s 0 (by omega)]
    by_cases hz : byteAt s 0 ≠ 'Z'
    · rw [if_pos (Or.inr hz)]
      have hb : (byteAt s 0 != 'Z') = true := by simpa using hz
      simp only [Option.some_bind, hb, if_true]
      exact parseRFC3339ZoneChecked_eq t s
    · have hor : ¬ (s.length ≠ 1 ∨ byteAt s 0 ≠ 'Z') := fun hx => hx.elim h hz
      rw [if_neg hor]
      have hb : (byteAt s 0 != 'Z') = false := by simpa using hz
      simp only [Option.some_bind, hb, Bool.false_eq_true, if_false]

theorem parseRFC3339RestChecked_eq (year month day hour min sec : Int) (s : List Char) :
    parseRFC3339RestChecked year month day hour min sec s =
      some (parseRFC3339Rest year month day hour min sec s) := by
  unfold parseRFC3339RestChecked parseRFC3339Rest
  simp only [Option.bind_eq_bind]
  by_cases h2 : s.length ≥ 2
  · rw [if_pos h2, indexGo_lt s 0 (by omega)]
    simp only [Option.some_bind, pure, decide_eq_true h2, Bool.true_and]
    cases hf : ((byteAt s 0 == '.') && isDigit s 1)
    · simp only [Bool.false_eq_true, if_false, if_true, Option.some_bind, DateChecked_eq, pure]
      exact zoneTail_eq (Date year month day hour min sec 0) s
    · have hn := scanDigits_le (s.drop 2) 2
      rw [List.length_drop] at hn
      have hge : 1 ≤ scanDigits (s.drop 2) 2 := by omega
      have hle : scanDigits (s.drop 2) 2 ≤ s.length := by omega
      simp only [if_true, parseNanosecondsChecked_eq s _ hge hle,
        sliceFromGo_ok s _ hle,
        Option.map_some', Option.some_bind, DateChecked_eq, pure]
      exact zoneTail_eq (Date year month day hour min sec
          (parseNanoseconds s (scanDigits (s.drop 2) 2)).1) (s.drop (scanDigits (s.drop 2) 2))
  · rw [if_neg h2]
    simp only [Option.some_bind, pure, decide_eq_false h2, Bool.false_and,
      Bool.false_eq_true, if_false, if_true, DateChecked_eq]
    exact zoneTail_eq (Date year month day hour min sec 0) s

theorem parseRFC3339Checked_eq (s : List Char) :
    parseRFC3339Checked s = some (parseRFC3339 s) := by
  unfold parseRFC3339Checked parseRFC3339
  by_cases h : s.length < 19
  · rw [if_pos h, if_pos h]; rfl
  · rw [if_neg h, if_neg h]
    have hm := parseUint_range (slice s 5 7) 1 12 (by decide)
    rw [sliceGo_ok s 0 4 (by omega) (by omega), sliceGo_ok s 5 7 (by omega) (by omega),
      sliceGo_ok s 8 10 (by omega) (by omega), sliceGo_ok s 11 13 (by omega) (by omega),
      sliceGo_ok s 14 16 (by omega) (by omega), sliceGo_ok s 17 19 (by omega) (by omega)]
    simp only [Option.bind_eq_bind, Option.some_bind]
    rw [daysInChecked_eq _ _ hm.1 hm.2, indexGo_lt s 4 (by omega), indexGo_lt s 7 (by omega),
      indexGo_lt s 10 (by omega), indexGo_lt s 13 (by omega), indexGo_lt s 16 (by omega),
      sliceFromGo_ok s 19 (by omega)]
    simp only [Option.some_bind]
    split
    · rename_i hok
      rw [if_pos (Or.inl hok)]; rfl
    · rename_i hok
      split
      · rename_i hc
        rw [if_pos (Or.inr hc)]; rfl
      · rename_i hc
        rw [if_neg (fun hx => hx.elim hok hc)]
        exact parseRFC3339RestChecked_eq _ _ _ _ _ _ _

theorem parseNumColonTZChecked_eq (value : List Char) :
    parseNumColonTZChecked value = some (parseNumColonTZ value) := by
  unfold parseNumColonTZChecked parseNumColonTZ
  by_cases h : value.length < 6
  · rw [if_pos h, if_pos h]; rfl
  · rw [if_neg h, if_neg h, indexGo_lt value 3 (by omega)]
    simp only [Option.bind_eq_bind, Option.some_bind]
    by_cases hc : byteAt value 3 ≠ ':'
    · rw [if_pos hc, if_pos hc]; rfl
    · rw [if_neg hc, if_neg hc]
      have hs : (slice value 0 1).length = 1 := by
        simp only [slice, List.length_take, List.length_drop]; omega
      have hb : byteAt (slice value 0 1) 0 = byteAt value 0 := by
        obtain _ | ⟨a, l⟩ := value
        · simp at h
        · rfl
      rw [sliceGo_ok value 0 1 (by omega) (by omega), sliceGo_ok value 1 3 (by omega) (by omega),
        sliceGo_ok value 4 6 (by omega) (by omega), sliceFromGo_ok value 6 (by omega)]
      simp only [Option.some_bind, getnumChecked_eq]
      cases getnum (slice value 1 3) true with
      | none => rfl
      | some p1 =>
        obtain ⟨hr, r1⟩ := p1
        dsimp only
        cases getnum (slice value 4 6) true with
        | none => rfl
        | some p2 =>
          obtain ⟨mm, r2⟩ := p2
          dsimp only
          cases getnum ['0', '0'] true with
          | none => rfl
          | some p3 =>
            obtain ⟨ss, r3⟩ := p3
            dsimp only
            split
            · rfl
            · rw [indexGo_lt _ 0 (by omega), hb]
              simp only [Option.some_bind]
              split
              · rfl
              · split <;> rfl

theorem parseISO8601ColonTZChecked_eq (value : List Char) :
    parseISO8601ColonTZChecked value = some (parseISO8601ColonTZ value) := by
  by_cases hz : ∃ rest, value = 'Z' :: rest
  · obtain ⟨rest, rfl⟩ := hz
    rfl
  · have h1 : parseISO8601ColonTZChecked value = (parseNumColonTZChecked value).map
        (fun r => r.map (fun (p : Int × List Char) => (some p.1, p.2))) := by
      unfold parseISO8601ColonTZChecked
      split
      · exact absurd ⟨_, rfl⟩ hz
      · rfl
    have h2 : parseISO8601ColonTZ value =
        (parseNumColonTZ value).map (fun (p : Int × List Char) => (some p.1, p.2)) := by
      unfold parseISO8601ColonTZ
      split
      · exact absurd ⟨_, rfl⟩ hz
      · rfl
    rw [h1, h2, parseNumColonTZChecked_eq]
    rfl

theorem parseSecondFractionChecked_eq (value : List Char) :
    parseSecondFractionChecked value = some (parseSecondFraction value) := by
  unfold parseSecondFractionChecked parseSecondFraction
  simp only [Option.bind_eq_bind]
  by_cases h2 : value.length ≥ 2
  · rw [if_pos h2, indexGo_lt value 0 (by omega)]
    simp only [Option.some_bind, pure, decide_eq_true h2, Bool.true_and]
    cases hf : (commaOrPeriod (byteAt value 0) && isDigit value 1)
    · simp only [Bool.false_eq_true, if_false]
    · have hn := scanDigits_le (value.drop 2) 2
      rw [List.length_drop] at hn
      have hge : 1 ≤ scanDigits (value.drop 2) 2 := by omega
      have hle : scanDigits (value.drop 2) 2 ≤ value.length := by omega
      simp only [if_true, parseNanosecondsChecked_eq value _ hge hle,
        sliceFromGo_ok value _ hle, Option.some_bind]
      split <;> rfl
  · rw [if_neg h2]
    simp only [Option.some_bind, pure, decide_eq_false h2, Bool.false_and,
      Bool.false_eq_true, if_false]

theorem parseChecked_eq (value : List Char) : parseChecked value = some (parse value) := by
  unfold parseChecked parse
  by_cases h : value.length < 4 ∨ isDigit value 0 = false
  · rw [if_pos h, if_pos h]; rfl
  rw [if_neg h, if_neg h, sliceGo_ok value 0 4 (by omega) (by omega),
    sliceFromGo_ok value 4 (by omega)]
  simp only [Option.bind_eq_bind, Option.some_bind, getnumChecked_eq,
    parseSecondFractionChecked_eq, parseISO8601ColonTZChecked_eq, DateChecked_eq,
    Option.map_some']
  obtain _ | year := atoi (slice value 0 4)
  · rfl
  dsimp only
  obtain _ | v1 := skip (value.drop 4) ['-']
  · rfl
  dsimp only
  obtain _ | ⟨month, v2⟩ := getnum v1 true
  · rfl
  dsimp only
  by_cases hm : month ≤ 0 ∨ 12 < month
  · rw [if_pos hm, if_pos hm]; rfl
  rw [if_neg hm, if_neg hm]
  obtain _ | v3 := skip v2 ['-']
  · rfl
  dsimp only
  obtain _ | ⟨day, v4⟩ := getnum v3 true
  · rfl
  dsimp only
  obtain _ | v5 := skip v4 ['T']
  · rfl
  dsimp only
  obtain _ | ⟨hour, v6⟩ := getnum v5 false
  · rfl
  dsimp only
  by_cases hh : hour < 0 ∨ 24 ≤ hour
  · rw [if_pos hh, if_pos hh]; rfl
  rw [if_neg hh, if_neg hh]
  obtain _ | v7 := skip v6 [':']
  · rfl
  dsimp only
  obtain _ | ⟨min, v8⟩ := getnum v7 true
  · rfl
  dsimp only
  by_cases hmi : min < 0 ∨ 60 ≤ min
  · rw [if_pos hmi, if_pos hmi]; rfl
  rw [if_neg hmi, if_neg hmi]
  obtain _ | v9 := skip v8 [':']
  · rfl
  dsimp only
  obtain _ | ⟨sec, v10⟩ := getnum v9 true
  · rfl
  dsimp only
  by_cases hs : sec < 0 ∨ 60 ≤ sec
  · rw [if_pos hs, if_pos hs]; rfl
  rw [if_neg hs, if_neg hs]
  obtain _ | ⟨nsec, v11⟩ := parseSecondFraction v10
  · rfl
  dsimp only
  obtain _ | ⟨zone, v12⟩ := parseISO8601ColonTZ v11
  · rfl
  dsimp only
  by_cases hl : v12.length ≠ 0
  · rw [if_pos hl, if_pos hl]; rfl
  rw [if_neg hl, if_neg hl, daysInChecked_eq month year (by omega) (by omega)]
  simp only [Option.some_bind]
  by_cases hd : day < 1 ∨ day > daysIn month year
  · rw [if_pos hd, if_pos hd]; rfl
  rw [if_neg hd, if_neg hd]
  obtain _ | zoneOffset := zone
  · rfl
  dsimp only
  split <;> rfl

theorem ParseChecked_eq (value : String) : ParseChecked value = some (Parse value) := by
  unfold ParseChecked Parse
  rw [parseRFC3339Checked_eq]
  simp only [Option.bind_eq_bind, Option.some_bind]
  obtain _ | t := parseRFC3339 value.toList
  · exact parseChecked_eq _
  · rfl

theorem parseTimeChecked_eq (timeString : String) :
    parseTimeChecked timeString = some (parseTime timeString) := by
  unfold parseTimeChecked parseTime
  rw [ParseChecked_eq]
  simp only [Option.bind_eq_bind, Option.some_bind, FormatChecked_eq]
  obtain _ | t := Parse timeString
  · rfl
  · dsimp only
    split <;> rfl

theorem ValidateStringChecked_eq (v : timeValidator) (request : StringRequest)
    (response : StringResponse) :
    v.ValidateStringChecked request response = some (v.ValidateString request response) := by
  unfold timeValidator.ValidateStringChecked timeValidator.ValidateString ValidateStringWith
  split
  · rfl
  · dsimp only
    rw [parseTimeChecked_eq]
    simp only [Option.bind_eq_bind, Option.some_bind]
    obtain e | t := parseTime request.ConfigValue.ValueString
    · rfl
    · rfl

/-- C14. `ValidateString` is total: for every validator, every request (any
candidate string, any presence state) and every response the call completes
without a panic: the model in which each index and slice expression of the
method, of `parseTime` and of the library functions they run is checked
returns, and returns what `ValidateString` returns.  Its outcome is the
response unchanged or, exactly when the state is Known and `parseTime`
returns an error, the response with one diagnostic appended. -/
theorem validate_total (v : timeValidator) (request : StringRequest)
    (response : StringResponse) :
    v.ValidateStringChecked request response = some (v.ValidateString request response) ∧
    (((v.ValidateString request response).2 = response ∧
        ¬ (request.ConfigValue.state = ValueState.known ∧
          ∃ e, parseTime request.ConfigValue.value = Except.error e)) ∨
      (request.ConfigValue.state = ValueState.known ∧
        (∃ e, parseTime request.ConfigValue.value = Except.error e) ∧
        ∃ d, (v.ValidateString request response).2.Diagnostics =
          response.Diagnostics ++ [d])) := by
  refine ⟨ValidateStringChecked_eq v request response, ?_⟩
  obtain ⟨path, ⟨state, value⟩⟩ := request
  cases state with
  | null =>
    left
    refine ⟨?_, fun hk => by simp at hk⟩
    simp [timeValidator.ValidateString, ValidateStringWith, StringValue.IsNull,
      StringValue.IsUnknown]
  | unknown =>
    left
    refine ⟨?_, fun hk => by simp at hk⟩
    simp [timeValidator.ValidateString, ValidateStringWith, StringValue.IsNull,
      StringValue.IsUnknown]
  | known =>
    have hcases : (∃ e, parseTime value = Except.error e) ∨
        (∃ t, parseTime value = Except.ok t) := by
      cases parseTime value with
      | error e => exact Or.inl ⟨e, rfl⟩
      | ok t => exact Or.inr ⟨t, rfl⟩
    rcases hcases with ⟨e, hp⟩ | ⟨t, hp⟩
    · right
      refine ⟨rfl, ⟨e, hp⟩, ⟨path, e, value⟩, ?_⟩
      rw [validate_known_error v path value response e hp]
    · left
      refine ⟨?_, fun hk => ?_⟩
      · rw [validate_known_ok v path value response t hp]
      · obtain ⟨-, e, he⟩ := hk
        have he2 : parseTime value = Except.error e := he
        rw [hp] at he2
        cases he2

end TimeValidator
